import Mathlib

/-!
Verification development for the reflective-object structural-equality engine
(`ffi/src/ffi/reflection/structural_equal.cc`) and the graph-aware JSON
serializer/loader (`src/node/serialization.cc`).

The object graph is shallowly embedded: an `Any` value (`Val`) is either a POD
payload or a reference (`Val.obj id`) into an explicit heap (`Heap`, a list of
object payloads indexed by object id).  Object identity (`same_as`) is id
equality.  Reflection metadata lives in a `Registry` of `TypeInfo` records,
mirroring the process-wide type registry the C++ consumes.  Machine doubles are
modelled by their exact (dyadic rational) values; non-finite doubles are outside
the model.  Recursive C++ traversals become fuel-indexed functions returning
`Res`, where `Res.noFuel` is a pure modelling artifact, `Res.fatal` models
LOG(FATAL)/ICHECK/thrown exceptions, and `Res.ub` marks an out-of-bounds
unchecked `std::vector::operator[]` access (undefined behavior in the source).
-/

namespace TVM

/-! ## Type indices (TVMFFITypeIndex) -/

def kNone : Nat := 0
def kInt : Nat := 1
def kBool : Nat := 2
def kFloat : Nat := 3
def kDataType : Nat := 5
def kDevice : Nat := 6
/-- Static type index used for `Any`-typed fields in `FieldInfo`. -/
def kAny : Nat := 10
def kStaticObjectBegin : Nat := 64
def kStr : Nat := 65
def kShape : Nat := 69
def kNDArray : Nat := 70
def kArray : Nat := 71
def kMap : Nat := 72
/-- First type index handed out to registered reflective object types. -/
def kCustomBegin : Nat := 80
/-- DLDeviceType value for CPU (`kDLCPU`). -/
def kDLCPU : Nat := 1

/-! ## Data model -/

/-- DLDataType descriptor `{code, bits, lanes}`. -/
structure DType where
  code : Nat
  bits : Nat
  lanes : Nat
deriving DecidableEq, Repr

/-- DLDevice descriptor. -/
structure DeviceT where
  devType : Int
  devId : Int
deriving DecidableEq, Repr

/-- Exact rational with explicit representation (value `n / d`, the
denominator positive by convention).  Every binary64 double is dyadic and so
exactly representable.  Arithmetic is plain component arithmetic, which (in
contrast to the library rationals, whose operations are sealed) the kernel
evaluates, so concrete runs of the model reduce. -/
structure Q where
  n : Int
  d : Nat
deriving DecidableEq, Repr

def qOfInt (i : Int) : Q := ⟨i, 1⟩

/-- Value equality of exact rationals (cross multiplication). -/
def qEq (a b : Q) : Bool := a.n * b.d == b.n * a.d

def qLt (a b : Q) : Bool := a.n * b.d < b.n * a.d

def qLe (a b : Q) : Bool := a.n * b.d ≤ b.n * a.d

def qMul (a b : Q) : Q := ⟨a.n * b.n, a.d * b.d⟩

def qAbs (a : Q) : Q := ⟨|a.n|, a.d⟩

def qIsNeg (a : Q) : Bool := a.n < 0

/-- Floor of an exact rational. -/
def qFloor (a : Q) : Int := a.n.fdiv a.d

/-- `10 ^ e` as an exact rational, for an integer exponent. -/
def qPow10 : Int → Q
  | Int.ofNat e => ⟨(10 : Int) ^ e, 1⟩
  | Int.negSucc e => ⟨1, 10 ^ (e + 1)⟩

/-- An `Any` value: a POD payload or an owned reference into the heap.
Doubles are modelled by their exact binary64 value as a rational. -/
inductive Val where
  | none
  | vbool (b : Bool)
  | vint (i : Int)
  | vfloat (q : Q)
  | vdtype (d : DType)
  | vdevice (d : DeviceT)
  | obj (id : Nat)
deriving DecidableEq, Repr

/-- NDArray header and (CPU) byte buffer.  `ndim` is `shape.length`. -/
structure NDArrayData where
  shape : List Nat
  dtype : DType
  deviceType : Nat
  contiguous : Bool
  data : List Nat
deriving DecidableEq, Repr

/-- Reflection field record: name, the two structural-eq flags, and the static
type index of the declared field type. -/
structure FieldInfo where
  name : String
  seqHashIgnore : Bool
  seqHashDef : Bool
  staticTypeIndex : Nat
deriving DecidableEq, Repr

/-- `TVMFFISEqHashKind`. -/
inductive SEqHashKind where
  | unsupported
  | uniqueInstance
  | constTreeNode
  | dagNode
  | freeVar
deriving DecidableEq, Repr

/-- The `extra_info` part of a type record (absent when the type lacks
reflection metadata). -/
structure TypeExtra where
  kind : SEqHashKind
  fields : List FieldInfo
deriving DecidableEq, Repr

structure TypeInfo where
  typeKey : String
  extra : Option TypeExtra
deriving DecidableEq, Repr

/-- The process-wide type registry; a reflective object's `tyIdx` indexes it. -/
abbrev Registry := List TypeInfo

/-- A generic reflective object: registry type index, optional `repr_bytes`
(the result of the type's repr-bytes accessor on this object), and its field
values in registration order. -/
structure NodeData where
  tyIdx : Nat
  reprBytes : Option String
  fieldVals : List Val
deriving DecidableEq, Repr

/-- Heap object payloads: strings, arrays, maps (insertion-ordered entry
lists), shapes, NDArrays, and generic reflective objects. -/
inductive ObjData where
  | str (s : String)
  | arr (elems : List Val)
  | map (entries : List (Val × Val))
  | shape (dims : List Nat)
  | ndarr (nd : NDArrayData)
  | node (nd : NodeData)
deriving DecidableEq, Repr

/-- The heap: object id `i` refers to `h[i]`. -/
abbrev Heap := List ObjData

/-- The runtime type index of a value (`TVMFFIAny::type_index`); `Option.none`
for a dangling object id (never arises in a well-formed heap). -/
def typeIndexOf? (h : Heap) : Val → Option Nat
  | .none => some kNone
  | .vint _ => some kInt
  | .vbool _ => some kBool
  | .vfloat _ => some kFloat
  | .vdtype _ => some kDataType
  | .vdevice _ => some kDevice
  | .obj id =>
    match h[id]? with
    | some (.str _) => some kStr
    | some (.arr _) => some kArray
    | some (.map _) => some kMap
    | some (.shape _) => some kShape
    | some (.ndarr _) => some kNDArray
    | some (.node nd) => some (kCustomBegin + nd.tyIdx)
    | Option.none => Option.none

/-- Bitwise comparison of the 64-bit POD payload (`v_int64`), applied only
after the type indices matched.  Exact rational equality models bitwise
equality of finite doubles. -/
def podPayloadEq : Val → Val → Bool
  | .none, .none => true
  | .vbool a, .vbool b => a == b
  | .vint a, .vint b => a == b
  | .vfloat a, .vfloat b => qEq a b
  | .vdtype a, .vdtype b => a == b
  | .vdevice a, .vdevice b => a == b
  | _, _ => false

/-- `ffi::AnyEqual`: PODs by payload, strings by content, other objects by
identity.  Used by `Map` keys and by the serializer's node index. -/
def anyEqual (h : Heap) (a b : Val) : Bool :=
  match a, b with
  | .obj i, .obj j =>
    if i = j then true
    else
      match h[i]?, h[j]? with
      | some (.str s), some (.str t) => s == t
      | _, _ => false
  | x, y => podPayloadEq x y

/-! ## Access paths and the comparison state -/

/-- One step of an access path. -/
inductive AccessStep where
  | objectField (name : String)
  | arrayIndex (i : Nat)
  | arrayIndexMissing (i : Nat)
  | mapKey (k : Val)
  | mapKeyMissing (k : Val)
deriving DecidableEq, Repr

/-- The mutable state of `StructEqualHandler`: the two option flags, whether
mismatch path buffers are attached (`tracing`), the two reverse paths, and the
two identity-keyed equality mappings (object id to object id, most recent
first). -/
structure EqState where
  mapFreeVars : Bool
  skipNDArrayContent : Bool
  tracing : Bool
  lhsRevPath : List AccessStep
  rhsRevPath : List AccessStep
  eqMapLhs : List (Nat × Nat)
  eqMapRhs : List (Nat × Nat)
deriving DecidableEq, Repr

/-- Result of a modelled computation: normal value, fatal diagnostic
(LOG(FATAL)/ICHECK/throw), out-of-bounds unchecked vector access (UB in the
C++), or fuel exhaustion (modelling artifact only). -/
inductive Res (α : Type) where
  | ok (a : α)
  | fatal (msg : String)
  | ub
  | noFuel
deriving DecidableEq, Repr

/-- First binding of `k` in an id-keyed association list. -/
def assocFind (m : List (Nat × Nat)) (k : Nat) : Option Nat :=
  match m with
  | [] => Option.none
  | (a, b) :: rest => if a = k then some b else assocFind rest k

/-- `Map::find` under `AnyEqual`. -/
def mapFind (h : Heap) (entries : List (Val × Val)) (k : Val) : Option Val :=
  match entries with
  | [] => Option.none
  | (a, b) :: rest => if anyEqual h a k then some b else mapFind h rest k

/-- `MapLhsToRhs`: POD keys pass through; an object key is translated through
the lhs-to-rhs equality mapping when recorded. -/
def mapLhsToRhs (st : EqState) (k : Val) : Val :=
  match k with
  | .obj id =>
    match assocFind st.eqMapLhs id with
    | some m => .obj m
    | Option.none => k
  | v => v

/-- `MapRhsToLhs`, symmetric to `mapLhsToRhs`. -/
def mapRhsToLhs (st : EqState) (k : Val) : Val :=
  match k with
  | .obj id =>
    match assocFind st.eqMapRhs id with
    | some m => .obj m
    | Option.none => k
  | v => v

/-- Append one step to each reverse path, when tracing is active. -/
def pushSteps (l r : AccessStep) (st : EqState) : EqState :=
  if st.tracing then
    { st with lhsRevPath := st.lhsRevPath ++ [l], rhsRevPath := st.rhsRevPath ++ [r] }
  else st

/-- `CompareShape`: length check then element-wise comparison. -/
def CompareShape (a b : List Nat) : Bool :=
  if a.length ≠ b.length then false else a == b

/-- `GetDataSize`: element count times bytes per (vectorized) element. -/
def GetDataSize (a : NDArrayData) : Nat :=
  (a.shape.foldl (· * ·) 1) * ((a.dtype.bits * a.dtype.lanes + 7) / 8)

/-- `CompareNDArray`: identity shortcut; header comparison (ndim, dims,
dtype); then, unless `skip_ndarray_content`, the CPU/contiguity contract
checks followed by a raw `memcmp` over `GetDataSize` bytes. -/
def CompareNDArray (li ri : Nat) (a b : NDArrayData) (st : EqState) :
    Res (Bool × EqState) :=
  if li = ri then .ok (true, st)
  else if a.shape.length ≠ b.shape.length then .ok (false, st)
  else if a.shape ≠ b.shape then .ok (false, st)
  else if a.dtype ≠ b.dtype then .ok (false, st)
  else if !st.skipNDArrayContent then
    if a.deviceType ≠ kDLCPU then .fatal "can only compare CPU tensor"
    else if b.deviceType ≠ kDLCPU then .fatal "can only compare CPU tensor"
    else if !a.contiguous then .fatal "Can only compare contiguous tensor"
    else if !b.contiguous then .fatal "Can only compare contiguous tensor"
    else .ok (decide (a.data.take (GetDataSize a) = b.data.take (GetDataSize a)), st)
  else .ok (true, st)

/-- Success epilogue of `CompareObject`: on success in DAGNode/FreeVar mode,
record both `M_lr[lhs] := rhs` and `M_rl[rhs] := lhs` before returning. -/
def finishObject (k : SEqHashKind) (li ri : Nat) (b : Bool) (st : EqState) :
    Res (Bool × EqState) :=
  if b ∧ (k = .dagNode ∨ k = .freeVar) then
    .ok (true, { st with
      eqMapLhs := (li, ri) :: st.eqMapLhs,
      eqMapRhs := (ri, li) :: st.eqMapRhs })
  else .ok (b, st)

/-- Pair each field record with the field's value on both sides (the C++
field getter applied to lhs and rhs); `Option.none` on arity mismatch, which a
well-formed heap never exhibits. -/
def fieldsZip : List FieldInfo → List Val → List Val →
    Option (List (FieldInfo × Val × Val))
  | [], [], [] => some []
  | fi :: fs, x :: xs, y :: ys => (fieldsZip fs xs ys).map (fun l => (fi, x, y) :: l)
  | _, _, _ => Option.none

mutual

/-- `StructEqualHandler::CompareAny`: type-index gate, POD payload comparison,
then dispatch to the specialized comparators. -/
def CompareAny (h : Heap) (R : Registry) : Nat → Val → Val → EqState → Res (Bool × EqState)
  | 0, _, _, _ => .noFuel
  | Nat.succ f, lhs, rhs, st =>
    match typeIndexOf? h lhs, typeIndexOf? h rhs with
    | some til, some tir =>
      if til ≠ tir then .ok (false, st)
      else if til < kStaticObjectBegin then .ok (podPayloadEq lhs rhs, st)
      else
        match lhs, rhs with
        | .obj li, .obj ri =>
          match h[li]?, h[ri]? with
          | some (.str s1), some (.str s2) => .ok (s1 == s2, st)
          | some (.arr xs), some (.arr ys) => CompareArray h R f xs ys st
          | some (.map m1), some (.map m2) => CompareMap h R f m1 m2 st
          | some (.shape d1), some (.shape d2) => .ok (CompareShape d1 d2, st)
          | some (.ndarr a), some (.ndarr b) => CompareNDArray li ri a b st
          | some (.node _), some (.node _) => CompareObject h R f li ri st
          | _, _ => .fatal "invalid heap"
        | _, _ => .fatal "invalid heap"
    | _, _ => .fatal "invalid heap"

/-- `StructEqualHandler::CompareObject` on two object ids of the same type:
identity shortcuts by kind, the recorded-mapping checks for DAGNode/FreeVar,
the unmapped-free-var rule, and otherwise the field-by-field loop. -/
def CompareObject (h : Heap) (R : Registry) : Nat → Nat → Nat → EqState → Res (Bool × EqState)
  | 0, _, _, _ => .noFuel
  | Nat.succ f, li, ri, st =>
    match h[li]?, h[ri]? with
    | some (.node n1), some (.node _) =>
      match R[n1.tyIdx]? with
      | Option.none => .fatal "invalid type index"
      | some tinfo =>
        match tinfo.extra with
        | Option.none => .ok (li == ri, st)
        | some ex =>
          let k := ex.kind
          if k = .unsupported ∨ k = .uniqueInstance then .ok (li == ri, st)
          else if k = .constTreeNode ∧ li = ri then .ok (true, st)
          else
            match (if k = .dagNode ∨ k = .freeVar then assocFind st.eqMapLhs li else Option.none) with
            | some m => .ok (m == ri, st)
            | Option.none =>
              if (k = .dagNode ∨ k = .freeVar) ∧ (assocFind st.eqMapRhs ri).isSome then
                .ok (false, st)
              else if k = .freeVar then
                finishObject k li ri (li == ri || st.mapFreeVars) st
              else
                match h[li]?, h[ri]? with
                | some (.node m1), some (.node m2) =>
                  match fieldsZip ex.fields m1.fieldVals m2.fieldVals with
                  | Option.none => .fatal "field getter arity"
                  | some triples =>
                    match CompareFields h R f triples st with
                    | .ok (b, st1) => finishObject k li ri b st1
                    | .fatal m => .fatal m
                    | .ub => .ub
                    | .noFuel => .noFuel
                | _, _ => .fatal "invalid heap"
    | _, _ => .fatal "invalid heap"

/-- The `ForEachFieldInfoWithEarlyStop` loop of `CompareObject`: skip
SEqHashIgnore fields, temporarily enable `map_free_vars` under SEqHashDef,
stop at the first failing field pushing `ObjectField` on both paths. -/
def CompareFields (h : Heap) (R : Registry) : Nat → List (FieldInfo × Val × Val) → EqState → Res (Bool × EqState)
  | 0, _, _ => .noFuel
  | Nat.succ _, [], st => .ok (true, st)
  | Nat.succ f, (fi, lv, rv) :: rest, st =>
    if fi.seqHashIgnore then CompareFields h R f rest st
    else
      let sub :=
        if fi.seqHashDef then
          match CompareAny h R f lv rv { st with mapFreeVars := true } with
          | .ok (b, st1) => Res.ok (b, { st1 with mapFreeVars := st.mapFreeVars })
          | .fatal m => Res.fatal m
          | .ub => Res.ub
          | .noFuel => Res.noFuel
        else CompareAny h R f lv rv st
      match sub with
      | .ok (true, st1) => CompareFields h R f rest st1
      | .ok (false, st1) =>
        .ok (false, pushSteps (.objectField fi.name) (.objectField fi.name) st1)
      | .fatal m => .fatal m
      | .ub => .ub
      | .noFuel => .noFuel

/-- `StructEqualHandler::CompareArray`: untraced size-mismatch fast path, then
the element loop. -/
def CompareArray (h : Heap) (R : Registry) : Nat → List Val → List Val → EqState → Res (Bool × EqState)
  | 0, _, _, _ => .noFuel
  | Nat.succ f, xs, ys, st =>
    if xs.length ≠ ys.length ∧ st.tracing = false then .ok (false, st)
    else CompareArrayLoop h R f 0 xs ys st

/-- Element loop of `CompareArray`: compare up to the shorter length pushing
`ArrayIndex i` at the first mismatch; at the end, equal sizes succeed and a
size difference pushes `ArrayIndex`/`ArrayIndexMissing` at the shorter
length. -/
def CompareArrayLoop (h : Heap) (R : Registry) : Nat → Nat → List Val → List Val → EqState → Res (Bool × EqState)
  | 0, _, _, _, _ => .noFuel
  | Nat.succ f, i, x :: xs, y :: ys, st =>
    match CompareAny h R f x y st with
    | .ok (true, st1) => CompareArrayLoop h R f (i + 1) xs ys st1
    | .ok (false, st1) => .ok (false, pushSteps (.arrayIndex i) (.arrayIndex i) st1)
    | .fatal m => .fatal m
    | .ub => .ub
    | .noFuel => .noFuel
  | Nat.succ _, _, [], [], st => .ok (true, st)
  | Nat.succ _, i, [], _ :: _, st => .ok (false, pushSteps (.arrayIndexMissing i) (.arrayIndex i) st)
  | Nat.succ _, i, _ :: _, [], st => .ok (false, pushSteps (.arrayIndex i) (.arrayIndexMissing i) st)

/-- `StructEqualHandler::CompareMap`: untraced size-mismatch fast path, then
the lhs scan. -/
def CompareMap (h : Heap) (R : Registry) : Nat → List (Val × Val) → List (Val × Val) → EqState → Res (Bool × EqState)
  | 0, _, _, _ => .noFuel
  | Nat.succ f, m1, m2, st =>
    if m1.length ≠ m2.length ∧ st.tracing = false then .ok (false, st)
    else CompareMapLhsLoop h R f m1 m1 m2 st

/-- Lhs scan of `CompareMap`: translate each key, look it up in rhs, recurse
on values; after a full successful scan equal sizes succeed, otherwise the
rhs scan reports the missing key. -/
def CompareMapLhsLoop (h : Heap) (R : Registry) : Nat → List (Val × Val) → List (Val × Val) → List (Val × Val) → EqState → Res (Bool × EqState)
  | 0, _, _, _, _ => .noFuel
  | Nat.succ f, [], m1, m2, st =>
    if m1.length = m2.length then .ok (true, st)
    else CompareMapRhsLoop h R f m2 m1 st
  | Nat.succ f, (k, v) :: rest, m1, m2, st =>
    let rk := mapLhsToRhs st k
    match mapFind h m2 rk with
    | Option.none => .ok (false, pushSteps (.mapKey k) (.mapKeyMissing rk) st)
    | some v2 =>
      match CompareAny h R f v v2 st with
      | .ok (true, st1) => CompareMapLhsLoop h R f rest m1 m2 st1
      | .ok (false, st1) => .ok (false, pushSteps (.mapKey k) (.mapKey rk) st1)
      | .fatal m => .fatal m
      | .ub => .ub
      | .noFuel => .noFuel

/-- Rhs scan of `CompareMap` (reached only when sizes differ after a
successful lhs scan): report the first rhs key missing from lhs; fall through
to `false`. -/
def CompareMapRhsLoop (h : Heap) (R : Registry) : Nat → List (Val × Val) → List (Val × Val) → EqState → Res (Bool × EqState)
  | 0, _, _, _ => .noFuel
  | Nat.succ _, [], _, st => .ok (false, st)
  | Nat.succ f, (k, _) :: rest, m1, st =>
    let lk := mapRhsToLhs st k
    match mapFind h m1 lk with
    | Option.none => .ok (false, pushSteps (.mapKeyMissing lk) (.mapKey k) st)
    | some _ => CompareMapRhsLoop h R f rest m1 st

end

/-- Fresh handler state for a top-level call. -/
def initEqState (mfv snc tracing : Bool) : EqState :=
  { mapFreeVars := mfv, skipNDArrayContent := snc, tracing := tracing,
    lhsRevPath := [], rhsRevPath := [], eqMapLhs := [], eqMapRhs := [] }

/-- `StructuralEqual::Equal`. -/
def StructuralEqual.Equal (h : Heap) (R : Registry) (fuel : Nat) (lhs rhs : Val)
    (mfv snc : Bool) : Res Bool :=
  match CompareAny h R fuel lhs rhs (initEqState mfv snc false) with
  | .ok (b, _) => .ok b
  | .fatal m => .fatal m
  | .ub => .ub
  | .noFuel => .noFuel

/-- `StructuralEqual::GetFirstMismatch`: run with path buffers attached;
`Option.none` on success, otherwise the two reverse paths reversed into
root-to-leaf order. -/
def StructuralEqual.GetFirstMismatch (h : Heap) (R : Registry) (fuel : Nat)
    (lhs rhs : Val) (mfv snc : Bool) :
    Res (Option (List AccessStep × List AccessStep)) :=
  match CompareAny h R fuel lhs rhs (initEqState mfv snc true) with
  | .ok (true, _) => .ok Option.none
  | .ok (false, s) => .ok (some (s.lhsRevPath.reverse, s.rhsRevPath.reverse))
  | .fatal m => .fatal m
  | .ub => .ub
  | .noFuel => .noFuel

/-! ## Decimal text encoding of machine numbers

Doubles are carried as their exact (dyadic rational) values.  The two textual
encoders the serializer uses are modelled exactly: `cppToStringDouble` is
`std::to_string(double)` (printf `%f`: fixed, six fractional digits) and
`format17` is an `ostringstream` with `precision(17)` (printf `%.17g`).
Decimal-to-double parsing returns the exact decimal value; the final
round-to-nearest-binary64 step of the C++ is the identity at every input that
appears in a theorem below. -/

/-- Round to the nearest integer, ties to even (the rounding applied during
printf decimal conversion). -/
def roundHalfEven (q : Q) : Int :=
  let fl := qFloor q
  let r : Int := q.n - fl * q.d
  if 2 * r < (q.d : Int) then fl
  else if 2 * r > (q.d : Int) then fl + 1
  else if fl % 2 = 0 then fl else fl + 1

/-- Left-pad a natural with zeros to a given digit width. -/
def padZeros (w : Nat) (n : Nat) : String :=
  let s := toString n
  String.mk (List.replicate (w - s.length) '0') ++ s

/-- `std::to_string(double)`: fixed-point `%f` with exactly six fractional
digits. -/
def cppToStringDouble (q : Q) : String :=
  let n := (roundHalfEven (qMul (qAbs q) ⟨1000000, 1⟩)).toNat
  (if qIsNeg q then "-" else "") ++ toString (n / 1000000) ++ "." ++ padZeros 6 (n % 1000000)

/-- Number of iterations of multiplying by 10 needed to bring a rational in
`(0, 1)` to at least 1 (with explicit fuel; the denominator plus one always
suffices). -/
def decExpAux : Nat → Q → Nat
  | 0, _ => 0
  | Nat.succ f, q =>
    if qLe ⟨1, 1⟩ (qMul q ⟨10, 1⟩) then 1 else 1 + decExpAux f (qMul q ⟨10, 1⟩)

/-- Decimal exponent of a positive rational: the `e` with
`10 ^ e ≤ q < 10 ^ (e + 1)`. -/
def decExp (q : Q) : Int :=
  if qLe ⟨1, 1⟩ q then Int.ofNat ((toString (qFloor q).toNat).length - 1)
  else -Int.ofNat (decExpAux (q.d + 1) q)

/-- Drop trailing `'0'` characters. -/
def dropTrailingZeros (s : String) : String :=
  String.mk (s.toList.reverse.dropWhile (· = '0')).reverse

/-- `ostringstream` with `precision(17)` (printf `%.17g`): 17 significant
digits, trailing zeros stripped, scientific notation outside the exponent
range `[-4, 17)`. -/
def format17 (q : Q) : String :=
  if qEq q ⟨0, 1⟩ then "0"
  else
    let sign := if qIsNeg q then "-" else ""
    let a := qAbs q
    let e := decExp a
    if -4 ≤ e ∧ e < 17 then
      -- fixed form with 16 - e fractional digits
      let k := (16 - e).toNat
      let n := (roundHalfEven (qMul a (qPow10 (Int.ofNat k)))).toNat
      let ip := n / 10 ^ k
      let fp := dropTrailingZeros (padZeros k (n % 10 ^ k))
      sign ++ toString ip ++ (if fp = "" then "" else "." ++ fp)
    else
      -- scientific form d.dddddddddddddddde±xx
      let m0 := (roundHalfEven (qMul a (qPow10 (16 - e)))).toNat
      let me1 := if m0 = 10 ^ 17 then ((10 : Nat) ^ 16, e + 1) else (m0, e)
      let mant := dropTrailingZeros (padZeros 16 (me1.1 % 10 ^ 16))
      sign ++ toString (me1.1 / 10 ^ 16) ++ (if mant = "" then "" else "." ++ mant) ++
        "e" ++ (if me1.2 < 0 then "-" else "+") ++ padZeros 2 me1.2.natAbs

/-- Consume leading decimal digits. -/
def takeDigits : List Char → List Char × List Char
  | [] => ([], [])
  | c :: cs =>
    if c.isDigit then
      let (ds, rest) := takeDigits cs
      (c :: ds, rest)
    else ([], c :: cs)

/-- Numeric value of a digit string. -/
def digitsToNat (ds : List Char) : Nat :=
  ds.foldl (fun acc c => acc * 10 + (c.toNat - 48)) 0

/-- Strip one optional sign character, returning the sign as `-1` or `1`. -/
def takeSign : List Char → Int × List Char
  | '-' :: cs => (-1, cs)
  | '+' :: cs => (1, cs)
  | cs => (1, cs)

/-- Model of `istream >> double` via `std::num_get`: optional sign, decimal
digits with optional fraction and exponent; trailing characters are left
unread (they do not fail the stream).  `inf` and `nan` are rejected, as
`std::num_get` does.  Returns the exact decimal value (see the section
comment). -/
def cppParseDouble (s : String) : Option Q :=
  let (sg, cs) := takeSign s.toList
  let (ip, cs1) := takeDigits cs
  let (fp, cs2) :=
    match cs1 with
    | '.' :: cs1a => takeDigits cs1a
    | _ => ([], cs1)
  if ip.isEmpty ∧ fp.isEmpty then Option.none
  else
    let base : Q := ⟨sg * ((digitsToNat ip : Int) * 10 ^ fp.length + digitsToNat fp), 10 ^ fp.length⟩
    match cs2 with
    | 'e' :: cs3 | 'E' :: cs3 =>
      let (esg, cs4) := takeSign cs3
      let (eds, _) := takeDigits cs4
      if eds.isEmpty then Option.none
      else some (qMul base (qPow10 (esg * (digitsToNat eds : Int))))
    | _ => some base

/-- Model of `istream >> int64_t`: optional sign and decimal digits. -/
def cppParseInt (s : String) : Option Int :=
  let (sg, cs) := takeSign s.toList
  let (ds, _) := takeDigits cs
  if ds.isEmpty then Option.none else some (sg * digitsToNat ds)

/-! ## JSON node model -/

/-- `std::map<std::string, std::string>`, modelled as an association list with
overwriting insertion (lookup-equivalent to the sorted map). -/
abbrev AttrMap := List (String × String)

def attrSet (m : AttrMap) (k v : String) : AttrMap :=
  match m with
  | [] => [(k, v)]
  | (a, b) :: rest => if a = k then (k, v) :: rest else (a, b) :: attrSet rest k v

def attrGet (m : AttrMap) (k : String) : Option String :=
  match m with
  | [] => Option.none
  | (a, b) :: rest => if a = k then some b else attrGet rest k

/-- Persisted node record.  `fields` is the load-time auxiliary dependency
list, never written to JSON. -/
structure JSONNode where
  typeKey : String := ""
  reprBytes : String := ""
  attrs : AttrMap := []
  keys : List String := []
  data : List Nat := []
  fields : List Nat := []
deriving DecidableEq, Repr

/-- Persisted graph: root id, node table, base64 tensor blobs, global attrs.
The dmlc JSON text layer is modelled as the identity on this structure. -/
structure JSONGraph where
  root : Nat
  nodes : List JSONNode
  b64ndarrays : List String := []
  attrs : AttrMap := []
deriving DecidableEq, Repr

/-! Type keys of the built-in types. -/

def keyNone : String := "None"
def keyBool : String := "Bool"
def keyInt : String := "Int"
def keyFloat : String := "Float"
def keyDataType : String := "DataType"
def keyDevice : String := "Device"
def keyStr : String := "ffi.Str"
def keyShape : String := "ffi.Shape"
def keyNDArray : String := "ffi.NDArray"
def keyArray : String := "ffi.Array"
def keyMap : String := "ffi.Map"

/-- `TVM_VERSION` written into the global attrs. -/
def tvmVersionString : String := "0.18.0"

/-- `runtime::DLDataTypeToString` (canonical data-type string). -/
def dtypeToString (d : DType) : String :=
  let base :=
    (if d.code = 0 then "int"
     else if d.code = 1 then "uint"
     else if d.code = 2 then "float"
     else if d.code = 4 then "bfloat"
     else "custom" ++ toString d.code) ++ toString d.bits
  if d.lanes = 1 then base else base ++ "x" ++ toString d.lanes

/-- `ffi::StringToDLDataType`, the inverse of `dtypeToString` on canonical
strings. -/
def stringToDType (s : String) : Option DType :=
  let parseTail (code : Nat) (rest : List Char) : Option DType :=
    let (bs, r1) := takeDigits rest
    if bs.isEmpty then Option.none
    else
      match r1 with
      | [] => some ⟨code, digitsToNat bs, 1⟩
      | 'x' :: r2 =>
        let (ls, r3) := takeDigits r2
        if ls.isEmpty ∨ ¬r3.isEmpty then Option.none
        else some ⟨code, digitsToNat bs, digitsToNat ls⟩
      | _ => Option.none
  let cs := s.toList
  if cs.take 4 = "uint".toList then parseTail 1 (cs.drop 4)
  else if cs.take 3 = "int".toList then parseTail 0 (cs.drop 3)
  else if cs.take 5 = "float".toList then parseTail 2 (cs.drop 5)
  else if cs.take 6 = "bfloat".toList then parseTail 4 (cs.drop 6)
  else Option.none

/-- Repr bytes of a Shape object (a substrate encoding; any injective
encoding is observationally adequate here). -/
def shapeReprOf (ds : List Nat) : String :=
  String.intercalate "," (ds.map toString)

/-- Inverse of `shapeReprOf`. -/
def shapeReprParse (s : String) : Option (List Nat) :=
  if s = "" then some []
  else
    (s.splitOn ",").foldr
      (fun tok acc =>
        match acc, cppParseInt tok with
        | some l, some i => if 0 ≤ i then some (i.toNat :: l) else Option.none
        | _, _ => Option.none)
      (some [])

/-- `ReflectionVTable::GetReprBytes` on an object id: strings yield their
content, shapes their substrate encoding, reflective objects whatever their
type's accessor yields; containers and NDArrays have none. -/
def getReprBytes (h : Heap) (id : Nat) : Option String :=
  match h[id]? with
  | some (.str s) => some s
  | some (.shape ds) => some (shapeReprOf ds)
  | some (.node nd) => nd.reprBytes
  | _ => Option.none

/-- `Object::GetTypeKey`. -/
def getTypeKey (h : Heap) (R : Registry) (v : Val) : Res String :=
  match v with
  | .none => .ok keyNone
  | .vint _ => .ok keyInt
  | .vbool _ => .ok keyBool
  | .vfloat _ => .ok keyFloat
  | .vdtype _ => .ok keyDataType
  | .vdevice _ => .ok keyDevice
  | .obj id =>
    match h[id]? with
    | some (.str _) => .ok keyStr
    | some (.arr _) => .ok keyArray
    | some (.map _) => .ok keyMap
    | some (.shape _) => .ok keyShape
    | some (.ndarr _) => .ok keyNDArray
    | some (.node nd) =>
      match R[nd.tyIdx]? with
      | some tinfo => .ok tinfo.typeKey
      | Option.none => .fatal "invalid type index"
    | Option.none => .fatal "invalid heap"

/-- Whether a value is a String object (`as<const ffi::StringObj*>`). -/
def isStrObj (h : Heap) (v : Val) : Bool :=
  match v with
  | .obj id =>
    match h[id]? with
    | some (.str _) => true
    | _ => false
  | _ => false

/-! ## NodeIndexer -/

/-- `NodeIndexer` state: `node_index_` (an `AnyEqual`-keyed map from value to
id, in insertion order) and `node_list_`.  The null sentinel holds id 0. -/
structure IndexerState where
  nodeIndex : List (Val × Nat)
  nodeList : List Val
deriving DecidableEq, Repr

def initIndexer : IndexerState :=
  { nodeIndex := [(Val.none, 0)], nodeList := [Val.none] }

/-- `node_index_` lookup under `AnyEqual`. -/
def lookupNodeIndex (h : Heap) (idx : List (Val × Nat)) (v : Val) : Option Nat :=
  match idx with
  | [] => Option.none
  | (a, i) :: rest => if anyEqual h a v then some i else lookupNodeIndex h rest v

mutual

/-- `NodeIndexer::MakeIndex`: skip None and already-indexed values, assign a
fresh id before descending, then recurse into array elements, map entries
(values only when every key is a string), and object-valued reflective fields
(unless the object provides repr bytes). -/
def MakeIndex (h : Heap) (R : Registry) : Nat → Val → IndexerState → Res IndexerState
  | 0, _, _ => .noFuel
  | Nat.succ f, v, st =>
    if v = Val.none then .ok st
    else if (lookupNodeIndex h st.nodeIndex v).isSome then .ok st
    else
      let st1 : IndexerState :=
        { nodeIndex := st.nodeIndex ++ [(v, st.nodeList.length)],
          nodeList := st.nodeList ++ [v] }
      match v with
      | .obj id =>
        match h[id]? with
        | some (.arr xs) => MakeIndexList h R f xs st1
        | some (.map kvs) =>
          if kvs.all (fun kv => isStrObj h kv.1) then
            MakeIndexList h R f (kvs.map Prod.snd) st1
          else
            MakeIndexList h R f (kvs.flatMap (fun kv => [kv.1, kv.2])) st1
        | some (.node nd) =>
          if (getReprBytes h id).isSome then .ok st1
          else
            match R[nd.tyIdx]? with
            | Option.none => .fatal "invalid type index"
            | some tinfo =>
              match tinfo.extra with
              | Option.none => .fatal "misses reflection registration and do not support serialization"
              | some ex =>
                if ex.fields.length = nd.fieldVals.length then
                  MakeIndexList h R f
                    (nd.fieldVals.filter (fun fv => match fv with | .obj _ => true | _ => false)) st1
                else .fatal "field getter arity"
        | some (.str _) => .ok st1
        | some (.shape _) => .ok st1
        | some (.ndarr _) => .fatal "misses reflection registration and do not support serialization"
        | Option.none => .fatal "invalid heap"
      | _ => .ok st1

/-- Sequential `MakeIndex` over a list of children. -/
def MakeIndexList (h : Heap) (R : Registry) : Nat → List Val → IndexerState → Res IndexerState
  | 0, _, _ => .noFuel
  | Nat.succ _, [], st => .ok st
  | Nat.succ f, v :: vs, st =>
    match MakeIndex h R f v st with
    | .ok st1 => MakeIndexList h R f vs st1
    | .fatal m => .fatal m
    | .ub => .ub
    | .noFuel => .noFuel

end

/-! ## JSONAttrGetter -/

/-- One field visit of `JSONAttrGetter::VisitObjectFields`, writing
`attrs[name]` according to the runtime type of the field value. -/
def visitFieldAttr (h : Heap) (idx : List (Val × Nat)) (fi : FieldInfo) (fv : Val)
    (attrs : AttrMap) : Res AttrMap :=
  match fv with
  | .none => .ok (attrSet attrs fi.name "null")
  | .vbool b => .ok (attrSet attrs fi.name (toString (if b then (1 : Int) else 0)))
  | .vint i => .ok (attrSet attrs fi.name (toString i))
  | .vfloat q => .ok (attrSet attrs fi.name (format17 q))
  | .vdtype d => .ok (attrSet attrs fi.name (dtypeToString d))
  | .vdevice _ => .fatal "Unsupported type"
  | .obj cid =>
    match lookupNodeIndex h idx (.obj cid) with
    | some i => .ok (attrSet attrs fi.name (toString i))
    | Option.none => .fatal "node index missing"

/-- Field loop of `JSONAttrGetter::VisitObjectFields`. -/
def visitFieldAttrs (h : Heap) (idx : List (Val × Nat)) :
    List (FieldInfo × Val) → AttrMap → Res AttrMap
  | [], attrs => .ok attrs
  | (fi, fv) :: rest, attrs =>
    match visitFieldAttr h idx fi fv attrs with
    | .ok attrs1 => visitFieldAttrs h idx rest attrs1
    | .fatal m => .fatal m
    | .ub => .ub
    | .noFuel => .noFuel

/-- `node_index_->at` for one child. -/
def indexAt (h : Heap) (idx : List (Val × Nat)) (v : Val) : Res Nat :=
  match lookupNodeIndex h idx v with
  | some i => .ok i
  | Option.none => .fatal "node index missing"

/-- `node_index_->at` over a list of children. -/
def indexAtList (h : Heap) (idx : List (Val × Nat)) : List Val → Res (List Nat)
  | [] => .ok []
  | v :: vs =>
    match indexAt h idx v, indexAtList h idx vs with
    | .ok i, .ok is => .ok (i :: is)
    | .fatal m, _ => .fatal m
    | _, .fatal m => .fatal m
    | _, _ => .ub

/-- `JSONAttrGetter::Get`: produce the persisted record of one node. -/
def getJSONNode (h : Heap) (R : Registry) (idx : List (Val × Nat)) (v : Val) :
    Res JSONNode :=
  if v = Val.none then .ok {}
  else
    match getTypeKey h R v with
    | .fatal m => .fatal m
    | .ub => .ub
    | .noFuel => .noFuel
    | .ok tk =>
      match v with
      | .obj id =>
        match h[id]? with
        | some (.arr xs) =>
          match indexAtList h idx xs with
          | .ok is => .ok { typeKey := tk, data := is }
          | .fatal m => .fatal m
          | .ub => .ub
          | .noFuel => .noFuel
        | some (.map kvs) =>
          if kvs.all (fun kv => isStrObj h kv.1) then
            let ks := kvs.map (fun kv =>
              match kv.1 with
              | .obj kid =>
                match h[kid]? with
                | some (.str s) => s
                | _ => ""
              | _ => "")
            match indexAtList h idx (kvs.map Prod.snd) with
            | .ok is => .ok { typeKey := tk, keys := ks, data := is }
            | .fatal m => .fatal m
            | .ub => .ub
            | .noFuel => .noFuel
          else
            match indexAtList h idx (kvs.flatMap (fun kv => [kv.1, kv.2])) with
            | .ok is => .ok { typeKey := tk, data := is }
            | .fatal m => .fatal m
            | .ub => .ub
            | .noFuel => .noFuel
        | some (.node nd) =>
          match getReprBytes h id with
          | some rb => .ok { typeKey := tk, reprBytes := rb }
          | Option.none =>
            match R[nd.tyIdx]? with
            | Option.none => .fatal "invalid type index"
            | some tinfo =>
              match tinfo.extra with
              | Option.none => .fatal "misses reflection registration and do not support serialization"
              | some ex =>
                match fieldsZip ex.fields nd.fieldVals nd.fieldVals with
                | Option.none => .fatal "field getter arity"
                | some _ =>
                  match visitFieldAttrs h idx (ex.fields.zip nd.fieldVals) [] with
                  | .ok attrs => .ok { typeKey := tk, attrs := attrs }
                  | .fatal m => .fatal m
                  | .ub => .ub
                  | .noFuel => .noFuel
        | some (.str _) | some (.shape _) =>
          match getReprBytes h id with
          | some rb => .ok { typeKey := tk, reprBytes := rb }
          | Option.none => .fatal "invalid heap"
        | some (.ndarr _) => .fatal "misses reflection registration and do not support serialization"
        | Option.none => .fatal "invalid heap"
      | .vint i => .ok { typeKey := tk, attrs := [("v_int64", toString i)] }
      | .vbool b => .ok { typeKey := tk, attrs := [("v_int64", toString (if b then (1 : Int) else 0))] }
      | .vfloat q => .ok { typeKey := tk, attrs := [("v_float64", cppToStringDouble q)] }
      | .vdtype d => .ok { typeKey := tk, attrs := [("v_type", dtypeToString d)] }
      | .vdevice d =>
        .ok { typeKey := tk,
              attrs := [("v_device_id", toString d.devId), ("v_device_type", toString d.devType)] }
      | .none => .ok {}

/-- `JSONAttrGetter::Get` over the whole node list. -/
def getJSONNodes (h : Heap) (R : Registry) (idx : List (Val × Nat)) :
    List Val → Res (List JSONNode)
  | [] => .ok []
  | v :: vs =>
    match getJSONNode h R idx v, getJSONNodes h R idx vs with
    | .ok jn, .ok jns => .ok (jn :: jns)
    | .fatal m, _ => .fatal m
    | .ok _, .fatal m => .fatal m
    | _, _ => .ub

/-- `JSONGraph::Create`: index the live graph, fill one `JSONNode` per table
entry, stamp the version attr, and record the root id. -/
def JSONGraph.Create (h : Heap) (R : Registry) (fuel : Nat) (root : Val) : Res JSONGraph :=
  match MakeIndex h R fuel root initIndexer with
  | .fatal m => .fatal m
  | .ub => .ub
  | .noFuel => .noFuel
  | .ok st =>
    match getJSONNodes h R st.nodeIndex st.nodeList with
    | .fatal m => .fatal m
    | .ub => .ub
    | .noFuel => .noFuel
    | .ok jnodes =>
      match lookupNodeIndex h st.nodeIndex root with
      | Option.none => .fatal "root not indexed"
      | some r =>
        .ok { root := r, nodes := jnodes, b64ndarrays := [],
              attrs := [("tvm_version", tvmVersionString)] }

/-- `SaveJSON` (the dmlc JSON text layer is modelled as the identity on
`JSONGraph`). -/
def SaveJSON (h : Heap) (R : Registry) (fuel : Nat) (root : Val) : Res JSONGraph :=
  JSONGraph.Create h R fuel root

/-! ## Loader -/

/-- `attrs` lookup with the loader's fatal diagnostic
(`JSONReader: cannot find field`). -/
def getValueAttr (jn : JSONNode) (k : String) : Res String :=
  match attrGet jn.attrs k with
  | some s => .ok s
  | Option.none => .fatal "JSONReader: cannot find field"

/-- `ParseValue<int64_t>` on an attribute. -/
def parseIntAttr (jn : JSONNode) (k : String) : Res Int :=
  match getValueAttr jn k with
  | .ok s =>
    match cppParseInt s with
    | some i => .ok i
    | Option.none => .fatal "Wrong value format for field"
  | .fatal m => .fatal m
  | .ub => .ub
  | .noFuel => .noFuel

/-- `ParseOptionalValue<int64_t>`: the literal `"null"` denotes absence. -/
def parseOptIntAttr (jn : JSONNode) (k : String) : Res (Option Int) :=
  match getValueAttr jn k with
  | .ok s =>
    if s = "null" then .ok Option.none
    else
      match cppParseInt s with
      | some i => .ok (some i)
      | Option.none => .fatal "Wrong value format for field"
  | .fatal m => .fatal m
  | .ub => .ub
  | .noFuel => .noFuel

/-- Allocate a fresh heap object, returning its id. -/
def allocObj (h : Heap) (d : ObjData) : Nat × Heap :=
  (h.length, h ++ [d])

/-- Find a type's registry index by type key. -/
def registryFind (R : Registry) (tk : String) : Option (Nat × TypeInfo) :=
  match (R.enum.find? (fun p => p.2.typeKey = tk)) with
  | some (i, tinfo) => some (i, tinfo)
  | Option.none => Option.none

/-- Number of reflected fields of a type. -/
def numFields (tinfo : TypeInfo) : Nat :=
  match tinfo.extra with
  | some ex => ex.fields.length
  | Option.none => 0

/-- `JSONAttrSetter::CreateInitAny` (pass 1): build an empty value of the
right variety — None for the empty key, PODs directly from attrs, everything
else through `CreateInitObject` on the type registry (which, for repr-bytes
types, fully reconstructs the object).  Allocation is explicit: the result is
the value together with the grown heap. -/
def CreateInitAny (R : Registry) (jn : JSONNode) (h : Heap) : Res (Val × Heap) :=
  if jn.typeKey = keyNone ∨ jn.typeKey = "" then .ok (Val.none, h)
  else if jn.typeKey = keyBool then
    match parseIntAttr jn "v_int64" with
    | .ok i => .ok (Val.vbool (i ≠ 0), h)
    | .fatal m => .fatal m
    | .ub => .ub
    | .noFuel => .noFuel
  else if jn.typeKey = keyInt then
    match parseIntAttr jn "v_int64" with
    | .ok i => .ok (Val.vint i, h)
    | .fatal m => .fatal m
    | .ub => .ub
    | .noFuel => .noFuel
  else if jn.typeKey = keyFloat then
    -- note: plain ParseValue<double>, not ParseDouble — `inf`/`nan` unhandled
    match getValueAttr jn "v_float64" with
    | .ok s =>
      match cppParseDouble s with
      | some q => .ok (Val.vfloat q, h)
      | Option.none => .fatal "Wrong value format for field"
    | .fatal m => .fatal m
    | .ub => .ub
    | .noFuel => .noFuel
  else if jn.typeKey = keyDataType then
    match getValueAttr jn "v_type" with
    | .ok s =>
      match stringToDType s with
      | some d => .ok (Val.vdtype d, h)
      | Option.none => .fatal "unknown dtype"
    | .fatal m => .fatal m
    | .ub => .ub
    | .noFuel => .noFuel
  else if jn.typeKey = keyDevice then
    match parseIntAttr jn "v_device_type", parseIntAttr jn "v_device_id" with
    | .ok t, .ok i => .ok (Val.vdevice ⟨t, i⟩, h)
    | .fatal m, _ => .fatal m
    | _, .fatal m => .fatal m
    | _, _ => .ub
  else if jn.typeKey = keyStr then
    let (nid, h1) := allocObj h (.str jn.reprBytes)
    .ok (Val.obj nid, h1)
  else if jn.typeKey = keyShape then
    match shapeReprParse jn.reprBytes with
    | some ds =>
      let (nid, h1) := allocObj h (.shape ds)
      .ok (Val.obj nid, h1)
    | Option.none => .fatal "invalid shape repr"
  else if jn.typeKey = keyArray then
    let (nid, h1) := allocObj h (.arr [])
    .ok (Val.obj nid, h1)
  else if jn.typeKey = keyMap then
    let (nid, h1) := allocObj h (.map [])
    .ok (Val.obj nid, h1)
  else
    match registryFind R jn.typeKey with
    | some (i, tinfo) =>
      let (nid, h1) := allocObj h (.node
        { tyIdx := i,
          reprBytes := if jn.reprBytes = "" then Option.none else some jn.reprBytes,
          fieldVals := List.replicate (numFields tinfo) Val.none })
      .ok (Val.obj nid, h1)
    | Option.none => .fatal "unknown type key"

/-- Pass 1 over the whole node table. -/
def createAll (R : Registry) : List JSONNode → Heap → Res (List Val × Heap)
  | [], h => .ok ([], h)
  | jn :: rest, h =>
    match CreateInitAny R jn h with
    | .ok (v, h1) =>
      match createAll R rest h1 with
      | .ok (vs, h2) => .ok (v :: vs, h2)
      | .fatal m => .fatal m
      | .ub => .ub
      | .noFuel => .noFuel
    | .fatal m => .fatal m
    | .ub => .ub
    | .noFuel => .noFuel

/-- Dependency scan of one field (`FieldDependencyFinder::VisitObjectFields`
body): object- or Any-typed fields contribute the referenced node id. -/
def findFieldDeps (jn : JSONNode) : List FieldInfo → Res (List Nat)
  | [] => .ok []
  | fi :: rest =>
    if kStaticObjectBegin ≤ fi.staticTypeIndex ∨ fi.staticTypeIndex = kAny then
      match parseOptIntAttr jn fi.name with
      | .ok (some i) =>
        if i < 0 then .fatal "negative node id"
        else
          match findFieldDeps jn rest with
          | .ok is => .ok (i.toNat :: is)
          | .fatal m => .fatal m
          | .ub => .ub
          | .noFuel => .noFuel
      | .ok Option.none => findFieldDeps jn rest
      | .fatal m => .fatal m
      | .ub => .ub
      | .noFuel => .noFuel
    else findFieldDeps jn rest

/-- `FieldDependencyFinder::Find`: skip None, PODs, repr-bytes objects and the
specially handled containers; otherwise collect the object-typed field
dependencies of the node. -/
def findDeps (h : Heap) (R : Registry) (v : Val) (jn : JSONNode) : Res (List Nat) :=
  if v = Val.none then .ok []
  else
    match v with
    | .obj id =>
      if jn.reprBytes.length > 0 ∨ (getReprBytes h id).isSome then .ok []
      else if jn.typeKey = keyArray ∨ jn.typeKey = keyMap ∨ jn.typeKey = keyNDArray then .ok []
      else
        match h[id]? with
        | some (.node nd) =>
          match R[nd.tyIdx]? with
          | Option.none => .fatal "invalid type index"
          | some tinfo =>
            match tinfo.extra with
            | Option.none => .fatal "misses reflection registration and do not support serialization"
            | some ex => findFieldDeps jn ex.fields
        | _ => .ok []
    | _ => .ok []

/-- Pass 2: fill each node's `fields` dependency list. -/
def depsAll (h : Heap) (R : Registry) : List Val → List JSONNode → Res (List JSONNode)
  | [], [] => .ok []
  | v :: vs, jn :: jns =>
    match findDeps h R v jn with
    | .ok fs =>
      match depsAll h R vs jns with
      | .ok rest => .ok ({ jn with fields := fs } :: rest)
      | .fatal m => .fatal m
      | .ub => .ub
      | .noFuel => .noFuel
    | .fatal m => .fatal m
    | .ub => .ub
    | .noFuel => .noFuel
  | _, _ => .fatal "length mismatch"

/-! ## Topological sort (`JSONGraph::TopoSort`)

`in_degree` is a `std::vector<size_t>` accessed with unchecked `operator[]`;
an edge target outside the node table is an out-of-bounds access, i.e.
undefined behavior, modelled as `Option.none` here and surfaced as `Res.ub`.
The dequeue decrement `--in_degree[i] == 0` is modelled by testing the value
before decrementing against 1 (an unsigned decrement of 0 wraps around in the
C++ and never equals 0). -/

/-- `++in_degree[i]`; `Option.none` on an out-of-bounds access. -/
def bumpInDegree (indeg : List Nat) (i : Nat) : Option (List Nat) :=
  match indeg[i]? with
  | some d => some (indeg.set i (d + 1))
  | Option.none => Option.none

/-- Increment pass over one node's `data ++ fields` edges. -/
def addEdges (indeg : List Nat) : List Nat → Option (List Nat)
  | [] => some indeg
  | i :: is =>
    match bumpInDegree indeg i with
    | some d => addEdges d is
    | Option.none => Option.none

/-- Initial in-degree computation over all nodes. -/
def buildInDegree (indeg : List Nat) : List JSONNode → Option (List Nat)
  | [] => some indeg
  | jn :: rest =>
    match addEdges indeg (jn.data ++ jn.fields) with
    | some d => buildInDegree d rest
    | Option.none => Option.none

/-- Decrement pass over the dequeued node's edges, enqueueing targets whose
in-degree reaches zero. -/
def processEdges (indeg : List Nat) (order : List Nat) :
    List Nat → Option (List Nat × List Nat)
  | [] => some (indeg, order)
  | i :: is =>
    match indeg[i]? with
    | some d =>
      processEdges (indeg.set i (d - 1)) (if d = 1 then order ++ [i] else order) is
    | Option.none => Option.none

/-- The Kahn queue walk (`for (size_t p = 0; p < topo_order.size(); ++p)`).
The fuel only bounds the iteration count; `n + 1` always suffices because the
order never holds duplicates. -/
def kahnLoop (nodes : List JSONNode) : Nat → List Nat → List Nat → Nat → Option (List Nat)
  | 0, _, order, _ => some order
  | Nat.succ f, indeg, order, p =>
    match order[p]? with
    | Option.none => some order
    | some u =>
      match nodes[u]? with
      | Option.none => Option.none
      | some jn =>
        match processEdges indeg order (jn.data ++ jn.fields) with
        | some (indeg1, order1) => kahnLoop nodes f indeg1 order1 (p + 1)
        | Option.none => Option.none

/-- `JSONGraph::TopoSort`: in-degree computation, Kahn queue, the cyclic
ICHECK, then the final reversal (leaves first, root last). -/
def TopoSort (g : JSONGraph) : Res (List Nat) :=
  let n := g.nodes.length
  match buildInDegree (List.replicate n 0) g.nodes with
  | Option.none => .ub
  | some indeg =>
    let start := (List.range n).filter (fun i => indeg.getD i 1 = 0)
    match kahnLoop g.nodes (n + 1) indeg start 0 with
    | Option.none => .ub
    | some order =>
      if order.length = n then .ok order.reverse
      else .fatal "Cyclic reference detected in JSON file"

/-! ## Topological sort: graph-theoretic specification

`Edge g u v` holds when node `u`'s persisted record references node `v`
through `data` or `fields`; `Acyclic` is the absence of `Edge`-cycles, and
`EdgesBounded` is the in-table precondition under which the unchecked
`in_degree` vector accesses of the C++ are defined. -/

/-- The outgoing edge targets of node `u` (`data ++ fields`). -/
def edgesOf (g : JSONGraph) (u : Nat) : List Nat :=
  match g.nodes[u]? with
  | some jn => jn.data ++ jn.fields
  | Option.none => []

/-- `u` references `v`. -/
def Edge (g : JSONGraph) (u v : Nat) : Prop := v ∈ edgesOf g u

/-- No node lies on an `Edge`-cycle. -/
def Acyclic (g : JSONGraph) : Prop := ∀ v, ¬Relation.TransGen (Edge g) v v

/-- Every referenced node id is inside the node table. -/
def EdgesBounded (g : JSONGraph) : Prop :=
  ∀ u, ∀ v ∈ edgesOf g u, v < g.nodes.length

/-- Number of parallel edges from `u` to `v`. -/
def cntE (g : JSONGraph) (u v : Nat) : Nat := (edgesOf g u).count v

/-- Total in-degree of `v`. -/
def countEdges (g : JSONGraph) (v : Nat) : Nat :=
  ((List.range g.nodes.length).map (fun u => cntE g u v)).sum

/-- In-degree of `v` contributed by the nodes listed in `l`. -/
def processedCount (g : JSONGraph) (l : List Nat) (v : Nat) : Nat :=
  (l.map (fun u => cntE g u v)).sum

/-- Invariant of the Kahn queue walk between iterations: `indeg` sized to the
node table; `order` duplicate-free, in-table, and at least `p` long; every
in-degree entry accounts for the edges not yet consumed from the processed
prefix; membership of `order` coincides with a zero in-degree; and every
enqueued node's in-neighbors are processed and sit earlier in the order. -/
def KInv (g : JSONGraph) (indeg order : List Nat) (p : Nat) : Prop :=
  indeg.length = g.nodes.length ∧
  order.Nodup ∧
  (∀ v ∈ order, v < g.nodes.length) ∧
  p ≤ order.length ∧
  (∀ v, countEdges g v = indeg.getD v 0 + processedCount g (order.take p) v) ∧
  (∀ v, v < g.nodes.length → (v ∈ order ↔ indeg.getD v 0 = 0)) ∧
  (∀ v ∈ order, ∀ u, Edge g u v → u ∈ order.take p ∧ order.indexOf u < order.indexOf v)

/-- Mid-iteration variant of `KInv` while the edges of the dequeued node
`order0[p]` are being consumed: `done` is the already-consumed prefix of that
node's edge list, and the processed set is temporarily `order0.take (p+1)`. -/
def KMid (g : JSONGraph) (order0 : List Nat) (p : Nat) (done : List Nat)
    (indeg ord : List Nat) : Prop :=
  indeg.length = g.nodes.length ∧
  ord.Nodup ∧
  (∀ v ∈ ord, v < g.nodes.length) ∧
  (∃ ext, ord = order0 ++ ext) ∧
  (∀ v, countEdges g v =
    indeg.getD v 0 + processedCount g (order0.take p) v + done.count v) ∧
  (∀ v, v < g.nodes.length → (v ∈ ord ↔ indeg.getD v 0 = 0)) ∧
  (∀ v ∈ ord, ∀ u, Edge g u v →
    u ∈ order0.take (p + 1) ∧ ord.indexOf u < ord.indexOf v)

/-! ## JSONAttrSetter (pass 4) -/

/-- `node_list_->at(i)` (bounds-checked, throws). -/
def nodesAt (nodes : List Val) (i : Nat) : Res Val :=
  match nodes[i]? with
  | some v => .ok v
  | Option.none => .fatal "index out of range"

/-- `node_list_->at` over a list of ids. -/
def nodesAtList (nodes : List Val) : List Nat → Res (List Val)
  | [] => .ok []
  | i :: is =>
    match nodesAt nodes i, nodesAtList nodes is with
    | .ok v, .ok vs => .ok (v :: vs)
    | .fatal m, _ => .fatal m
    | _, .fatal m => .fatal m
    | _, _ => .ub

/-- `Map::Set` under `AnyEqual` (overwrite or append). -/
def mapSet (h : Heap) (entries : List (Val × Val)) (k v : Val) : List (Val × Val) :=
  match entries with
  | [] => [(k, v)]
  | (a, b) :: rest =>
    if anyEqual h a k then (k, v) :: rest else (a, b) :: mapSet h rest k v

/-- Build a map from alternating `(key-id, value-id)` pairs in `data`. -/
def buildPairMap (h : Heap) (nodes : List Val) :
    List Nat → List (Val × Val) → Res (List (Val × Val))
  | [], acc => .ok acc
  | [_], _ => .fatal "odd data length"
  | ki :: vi :: rest, acc =>
    match nodesAt nodes ki, nodesAt nodes vi with
    | .ok k, .ok v => buildPairMap h nodes rest (mapSet h acc k v)
    | .fatal m, _ => .fatal m
    | _, .fatal m => .fatal m
    | _, _ => .ub

/-- Build a string-keyed map, allocating one fresh String object per key
(`String(jnode->keys[i])`). -/
def buildKeyedMap (hp : Heap) (nodes : List Val) :
    List String → List Nat → List (Val × Val) → Heap → Res (List (Val × Val) × Heap)
  | [], [], acc, h => .ok (acc, h)
  | k :: ks, i :: is, acc, h =>
    match nodesAt nodes i with
    | .ok v =>
      let (kid, h1) := allocObj h (.str k)
      buildKeyedMap hp nodes ks is (mapSet hp acc (.obj kid) v) h1
    | .fatal m => .fatal m
    | .ub => .ub
    | .noFuel => .noFuel
  | _, _, _, _ => .fatal "keys and data size mismatch"

/-- Parse the value to install into one reflected field
(`JSONAttrSetter::SetObjectField`), dispatching on the field's static type
index. -/
def parseFieldValue (nodes : List Val) (jn : JSONNode) (fi : FieldInfo) : Res Val :=
  if fi.staticTypeIndex = kBool ∨ fi.staticTypeIndex = kInt then
    match parseOptIntAttr jn fi.name with
    | .ok (some i) =>
      .ok (if fi.staticTypeIndex = kBool then Val.vbool (i ≠ 0) else Val.vint i)
    | .ok Option.none => .ok Val.none
    | .fatal m => .fatal m
    | .ub => .ub
    | .noFuel => .noFuel
  else if fi.staticTypeIndex = kFloat then
    match getValueAttr jn fi.name with
    | .ok s =>
      if s = "null" then .ok Val.none
      else if s = "inf" ∨ s = "-inf" ∨ s = "nan" then .fatal "non-finite double outside model"
      else
        match cppParseDouble s with
        | some q => .ok (Val.vfloat q)
        | Option.none => .fatal "Wrong value format for field"
    | .fatal m => .fatal m
    | .ub => .ub
    | .noFuel => .noFuel
  else if fi.staticTypeIndex = kDataType then
    match getValueAttr jn fi.name with
    | .ok s =>
      match stringToDType s with
      | some d => .ok (Val.vdtype d)
      | Option.none => .fatal "unknown dtype"
    | .fatal m => .fatal m
    | .ub => .ub
    | .noFuel => .noFuel
  else
    -- NDArray fields and the default case both resolve a node id through
    -- `node_list_->at(*index).cast<ObjectRef>()`
    match parseOptIntAttr jn fi.name with
    | .ok (some i) =>
      if i < 0 then .fatal "negative node id"
      else
        match nodesAt nodes i.toNat with
        | .ok (Val.obj oid) => .ok (Val.obj oid)
        | .ok _ => .fatal "cast to ObjectRef failed"
        | .fatal m => .fatal m
        | .ub => .ub
        | .noFuel => .noFuel
    | .ok Option.none => .ok Val.none
    | .fatal m => .fatal m
    | .ub => .ub
    | .noFuel => .noFuel

/-- Overwrite the `k`-th field slot of object `id`. -/
def heapSetField (h : Heap) (id k : Nat) (v : Val) : Heap :=
  match h[id]? with
  | some (.node nd) => h.set id (.node { nd with fieldVals := nd.fieldVals.set k v })
  | _ => h

/-- `SetObjectFields`: install every reflected field of object `id`. -/
def setObjectFields (nodes : List Val) (jn : JSONNode) (id : Nat) :
    Nat → List FieldInfo → Heap → Res Heap
  | _, [], h => .ok h
  | k, fi :: rest, h =>
    match parseFieldValue nodes jn fi with
    | .ok v => setObjectFields nodes jn id (k + 1) rest (heapSetField h id k v)
    | .fatal m => .fatal m
    | .ub => .ub
    | .noFuel => .noFuel

/-- `JSONAttrSetter::SetAttrs` on slot `i`: rebuild arrays and maps into fresh
objects, skip repr-bytes objects, and set the fields of reflective objects. -/
def SetAttrs (R : Registry) (jn : JSONNode) (i : Nat) :
    List Val × Heap → Res (List Val × Heap)
  | (nodes, h) =>
    if jn.typeKey = keyArray then
      match nodesAtList nodes jn.data with
      | .ok vs =>
        let (nid, h1) := allocObj h (.arr vs)
        .ok (nodes.set i (Val.obj nid), h1)
      | .fatal m => .fatal m
      | .ub => .ub
      | .noFuel => .noFuel
    else if jn.typeKey = keyMap then
      if jn.keys.isEmpty then
        match buildPairMap h nodes jn.data [] with
        | .ok entries =>
          let (nid, h1) := allocObj h (.map entries)
          .ok (nodes.set i (Val.obj nid), h1)
        | .fatal m => .fatal m
        | .ub => .ub
        | .noFuel => .noFuel
      else
        match buildKeyedMap h nodes jn.keys jn.data [] h with
        | .ok (entries, h1) =>
          let (nid, h2) := allocObj h1 (.map entries)
          .ok (nodes.set i (Val.obj nid), h2)
        | .fatal m => .fatal m
        | .ub => .ub
        | .noFuel => .noFuel
    else
      match nodes[i]? with
      | some (Val.obj id) =>
        if jn.reprBytes.length > 0 ∨ (getReprBytes h id).isSome then .ok (nodes, h)
        else
          match h[id]? with
          | some (.node nd) =>
            match R[nd.tyIdx]? with
            | Option.none => .fatal "invalid type index"
            | some tinfo =>
              match tinfo.extra with
              | Option.none => .fatal "misses reflection registration and do not support serialization"
              | some ex =>
                match setObjectFields nodes jn id 0 ex.fields h with
                | .ok h1 => .ok (nodes, h1)
                | .fatal m => .fatal m
                | .ub => .ub
                | .noFuel => .noFuel
          | _ => .ok (nodes, h)
      | some _ => .ok (nodes, h)
      | Option.none => .fatal "index out of range"

/-- Pass 4 over the topological order. -/
def setAll (R : Registry) (jnodes : List JSONNode) :
    List Nat → List Val × Heap → Res (List Val × Heap)
  | [], s => .ok s
  | i :: is, s =>
    match jnodes[i]? with
    | Option.none => .fatal "index out of range"
    | some jn =>
      match SetAttrs R jn i s with
      | .ok s1 => setAll R jnodes is s1
      | .fatal m => .fatal m
      | .ub => .ub
      | .noFuel => .noFuel

/-- `LoadJSON`: the four passes (skeleton construction, dependency discovery,
topological sort, attribute assignment in reversed topological order), then
`nodes.at(root)`.  Returns the final slot values, the loaded heap, and the
root value.  The decoded-but-unused `b64ndarrays` tensor vector of the source
is not modelled. -/
def LoadJSON (R : Registry) (g : JSONGraph) : Res (List Val × Heap × Val) :=
  match createAll R g.nodes [] with
  | .fatal m => .fatal m
  | .ub => .ub
  | .noFuel => .noFuel
  | .ok (nodes0, h0) =>
    match depsAll h0 R nodes0 g.nodes with
    | .fatal m => .fatal m
    | .ub => .ub
    | .noFuel => .noFuel
    | .ok jnodes =>
      match TopoSort { g with nodes := jnodes } with
      | .fatal m => .fatal m
      | .ub => .ub
      | .noFuel => .noFuel
      | .ok order =>
        match setAll R jnodes order (nodes0, h0) with
        | .fatal m => .fatal m
        | .ub => .ub
        | .noFuel => .noFuel
        | .ok (nodes, h) =>
          match nodes[g.root]? with
          | some v => .ok (nodes, h, v)
          | Option.none => .fatal "index out of range"

/-! ## Agreement up to SEqHashIgnore fields

Two heaps are `IgnoreAgree`-related when they have the same objects except
that the value slots of reflective-object fields flagged `SEqHashIgnore` may
differ arbitrarily.  Claim C7 states the comparator cannot distinguish such
heaps. -/

/-- Positional agreement of two field-value lists with respect to a field
list: values must coincide except under an `SEqHashIgnore` flag, and both
lists have exactly the declared arity. -/
def ValsAgree : List FieldInfo → List Val → List Val → Prop
  | [], [], [] => True
  | fi :: fs, x1 :: xs1, x2 :: xs2 =>
    (fi.seqHashIgnore = true ∨ x1 = x2) ∧ ValsAgree fs xs1 xs2
  | _, _, _ => False

/-- The corresponding relation on the zipped `(field, lhs, rhs)` triples the
field loop consumes. -/
def TriplesAgree : List (FieldInfo × Val × Val) → List (FieldInfo × Val × Val) → Prop
  | [], [] => True
  | (f1, a1, b1) :: t1, (f2, a2, b2) :: t2 =>
    f1 = f2 ∧ (f1.seqHashIgnore = true ∨ (a1 = a2 ∧ b1 = b2)) ∧ TriplesAgree t1 t2
  | _, _ => False

/-- Object-level agreement: reflective objects share type, repr bytes, and
`ValsAgree` field slots (exact equality when the type lacks reflection);
every other object is identical. -/
def IgnoreAgreeObj (R : Registry) : ObjData → ObjData → Prop
  | .node n1, .node n2 =>
    n1.tyIdx = n2.tyIdx ∧ n1.reprBytes = n2.reprBytes ∧
    (match R[n1.tyIdx]? with
     | some tinfo =>
       match tinfo.extra with
       | some ex => ValsAgree ex.fields n1.fieldVals n2.fieldVals
       | Option.none => n1.fieldVals = n2.fieldVals
     | Option.none => n1.fieldVals = n2.fieldVals)
  | o1, o2 => o1 = o2

/-- Heap-level agreement up to `SEqHashIgnore` field slots. -/
def IgnoreAgree (R : Registry) (h1 h2 : Heap) : Prop :=
  h1.length = h2.length ∧
  ∀ (i : Nat) (o1 o2 : ObjData),
    h1[i]? = some o1 → h2[i]? = some o2 → IgnoreAgreeObj R o1 o2

/-! ## Serializer traversal structure (claim C2) -/

/-- The children `NodeIndexer::MakeIndex` descends into: array elements, map
entries (values only when every key is a string), and the object-valued
reflective fields of a node without repr bytes.  Everything else is a leaf. -/
def childrenOf (h : Heap) (R : Registry) (v : Val) : List Val :=
  match v with
  | .obj id =>
    match h[id]? with
    | some (.arr xs) => xs
    | some (.map kvs) =>
      if kvs.all (fun kv => isStrObj h kv.1) then kvs.map Prod.snd
      else kvs.flatMap (fun kv => [kv.1, kv.2])
    | some (.node nd) =>
      if (getReprBytes h id).isSome then []
      else
        match R[nd.tyIdx]? with
        | some tinfo =>
          match tinfo.extra with
          | some ex =>
            if ex.fields.length = nd.fieldVals.length then
              nd.fieldVals.filter (fun fv => match fv with | .obj _ => true | _ => false)
            else []
          | Option.none => []
        | Option.none => []
    | _ => []
  | _ => []

/-- Reachability along the serializer's traversal structure. -/
def Reaches (h : Heap) (R : Registry) (root v : Val) : Prop :=
  Relation.ReflTransGen (fun a b => b ∈ childrenOf h R a) root v

/-- Indexer-state invariant: `node_index_` enumerates `node_list_` in order
(entry `i` is `(node_list_[i], i)`), and no two table entries are `AnyEqual`. -/
def IdxOk (h : Heap) (st : IndexerState) : Prop :=
  st.nodeIndex = st.nodeList.zip (List.range st.nodeList.length) ∧
  List.Pairwise (fun a b => anyEqual h a b = false) st.nodeList

/-- All of `w`'s traversal children are indexed (or are `None`). -/
def ClosedAt (h : Heap) (R : Registry) (st : IndexerState) (w : Val) : Prop :=
  ∀ c ∈ childrenOf h R w, c = Val.none ∨
    (lookupNodeIndex h st.nodeIndex c).isSome = true

/-- Relation between the state of a traced run (`GetFirstMismatch`) and of an
untraced run (`Equal`) at the same point of the comparison: both option flags
and both equality maps coincide; only the tracing flag and the path buffers
differ. -/
def TraceSync (stt stu : EqState) : Prop :=
  stt.mapFreeVars = stu.mapFreeVars ∧
  stt.skipNDArrayContent = stu.skipNDArrayContent ∧
  stt.eqMapLhs = stu.eqMapLhs ∧
  stt.eqMapRhs = stu.eqMapRhs ∧
  stt.tracing = true ∧ stu.tracing = false

/-! ## Concrete instances used by the theorems -/

/-- A one-type registry for the sharing scenario: a pair node with two
`Any`-typed fields. -/
def regC2 : Registry :=
  [{ typeKey := "test.Pair",
     extra := some { kind := SEqHashKind.constTreeNode,
                     fields := [⟨"x", false, false, kAny⟩,
                                ⟨"y", false, false, kAny⟩] } }]

/-- A heap whose root pair holds the same string object in both fields. -/
def heapC2 : Heap :=
  [.node ⟨0, Option.none, [Val.obj 1, Val.obj 1]⟩, .str "A"]

/-- The serialized form of `heapC2`'s root: one node per distinct object, the
shared string serialized once (node id 2) and referenced from both fields. -/
def graphC2 : JSONGraph :=
  { root := 1,
    nodes := [{},
              { typeKey := "test.Pair", attrs := [("x", "2"), ("y", "2")] },
              { typeKey := keyStr, reprBytes := "A" }],
    b64ndarrays := [],
    attrs := [("tvm_version", tvmVersionString)] }

/-- A one-type registry whose first field is flagged `SEqHashIgnore`. -/
def regC7 : Registry :=
  [{ typeKey := "test.Node",
     extra := some { kind := SEqHashKind.constTreeNode,
                     fields := [⟨"ignored", true, false, kAny⟩,
                                ⟨"kept", false, false, kAny⟩] } }]

/-- A heap holding one `test.Node` with `ignored = 1`, `kept = 7`. -/
def heapC7a : Heap := [.node ⟨0, Option.none, [Val.vint 1, Val.vint 7]⟩]

/-- Same as `heapC7a` except the `SEqHashIgnore`-flagged slot holds `2`. -/
def heapC7b : Heap := [.node ⟨0, Option.none, [Val.vint 2, Val.vint 7]⟩]

/-- Heap for the `[1, 2, 3]` vs `[1, 4, 3]` array scenario. -/
def heapArr143 : Heap :=
  [.arr [Val.vint 1, Val.vint 2, Val.vint 3],
   .arr [Val.vint 1, Val.vint 4, Val.vint 3]]

/-- Heap for the `[1, 2]` vs `[1, 2, 3]` array scenario. -/
def heapArr23 : Heap :=
  [.arr [Val.vint 1, Val.vint 2],
   .arr [Val.vint 1, Val.vint 2, Val.vint 3]]

/-- The binary64 value `1/2 + 2^-30` (exactly representable: 30 mantissa
bits).  `std::to_string` renders it as `"0.500000"`. -/
def qHalfEps : Q := ⟨2 ^ 29 + 1, 2 ^ 30⟩

/-- The binary64 value `1 + 2^-29`.  `std::to_string` renders it as
`"1.000000"`. -/
def qOneEps : Q := ⟨2 ^ 29 + 1, 2 ^ 29⟩

/-- A hand-crafted graph whose node 1 references node id 5, outside the
two-entry node table. -/
def graphOobRef : JSONGraph :=
  { root := 1,
    nodes := [{}, { typeKey := keyArray, data := [5] }] }

/-- A two-node acyclic graph whose node 1 references node 0. -/
def graphChain2 : JSONGraph :=
  { root := 1,
    nodes := [{}, { typeKey := keyArray, data := [0] }] }

/-! ## Claim theorems -/

/-- Claim C6: for arrays `[1, 2, 3]` vs `[1, 4, 3]`, `equal` returns false and
`first_mismatch` returns `[ArrayIndex(1)]` on both sides; for `[1, 2]` vs
`[1, 2, 3]`, `equal` returns false and `first_mismatch` returns
`[ArrayIndexMissing(2)]` on the left and `[ArrayIndex(2)]` on the right,
paths in root-to-leaf order after the final reversal. -/
theorem C6_array_mismatch_paths :
    (StructuralEqual.Equal heapArr143 [] 10 (Val.obj 0) (Val.obj 1) false false
        = .ok false ∧
      StructuralEqual.GetFirstMismatch heapArr143 [] 10 (Val.obj 0) (Val.obj 1) false false
        = .ok (some ([.arrayIndex 1], [.arrayIndex 1]))) ∧
    (StructuralEqual.Equal heapArr23 [] 10 (Val.obj 0) (Val.obj 1) false false
        = .ok false ∧
      StructuralEqual.GetFirstMismatch heapArr23 [] 10 (Val.obj 0) (Val.obj 1) false false
        = .ok (some ([.arrayIndexMissing 2], [.arrayIndex 2]))) := by
  decide

/-- Claim C1 (code bug): the round-trip fails on the POD float root
`1/2 + 2^-30`.  `SaveJSON` writes `attrs["v_float64"]` through
`std::to_string` (fixed six fractional digits), producing `"0.500000"`;
`LoadJSON` parses it back as `1/2`, and `equal` under
`(map_free_vars := false, skip_ndarray_content := false)` rejects the loaded
value against the original. -/
theorem C1_roundtrip_fails_on_float_root :
    SaveJSON [] [] 10 (Val.vfloat qHalfEps)
        = .ok { root := 1,
                nodes := [{}, { typeKey := keyFloat,
                                attrs := [("v_float64", "0.500000")] }],
                attrs := [("tvm_version", tvmVersionString)] } ∧
    LoadJSON []
        { root := 1,
          nodes := [{}, { typeKey := keyFloat,
                          attrs := [("v_float64", "0.500000")] }],
          attrs := [("tvm_version", tvmVersionString)] }
        = .ok ([Val.none, Val.vfloat ⟨500000, 1000000⟩], [], Val.vfloat ⟨500000, 1000000⟩) ∧
    qEq qHalfEps ⟨500000, 1000000⟩ = false ∧
    StructuralEqual.Equal [] [] 10 (Val.vfloat qHalfEps) (Val.vfloat ⟨500000, 1000000⟩) false false
        = .ok false := by
  refine ⟨by decide, by decide, by decide, by decide⟩

/-- Claim C4 (code bug): POD float roots are not serialized at 17 significant
digits.  For the binary64 value `1 + 2^-29` the serializer writes
`attrs["v_float64"] = "1.000000"` (`std::to_string`, six fractional digits),
which parses back to `1`, a different value — while the object-field double
path (`JSONAttrGetter::Visit(const char*, double*)`) does use 17-digit
precision on the same value. -/
theorem C4_float_root_not_17_digits :
    getJSONNode [] [] [(Val.none, 0), (Val.vfloat qOneEps, 1)] (Val.vfloat qOneEps)
        = .ok { typeKey := keyFloat, attrs := [("v_float64", "1.000000")] } ∧
    cppParseDouble "1.000000" = some ⟨1000000, 1000000⟩ ∧
    qEq qOneEps ⟨1000000, 1000000⟩ = false ∧
    visitFieldAttr [] [] ⟨"x", false, false, kFloat⟩ (Val.vfloat qOneEps) []
        = .ok [("x", "1.0000000018626451")] := by
  refine ⟨by decide, by decide, by decide, by decide⟩

/-- Claim C9 (code bug): a node id outside the node table does not terminate
loading with a diagnostic.  On `graphOobRef` passes 1 and 2 succeed, and the
first use of the id is `++in_degree[5]` in `TopoSort` — an unchecked
out-of-bounds `std::vector` write (undefined behavior, `Res.ub`), reached
before any bounds-checked `at()` access could throw. -/
theorem C9_oob_node_id_hits_unchecked_index :
    createAll [] graphOobRef.nodes []
        = .ok ([Val.none, Val.obj 0], [.arr []]) ∧
    depsAll [.arr []] [] [Val.none, Val.obj 0] graphOobRef.nodes
        = .ok graphOobRef.nodes ∧
    TopoSort graphOobRef = .ub ∧
    LoadJSON [] graphOobRef = .ub := by
  refine ⟨by decide, by decide, by decide, by decide⟩

/-- Claim C5: for two objects of a FreeVar-kinded type with neither side in
the recorded mappings, the comparison succeeds exactly when `map_free_vars` is
active or the two sides are the same object — without descending into fields
(the state is untouched apart from the recording) — and on success both
`M_lr[lhs] := rhs` and `M_rl[rhs] := lhs` are recorded before returning. -/
theorem C5_freevar_unmapped (h : Heap) (R : Registry) (f li ri : Nat)
    (st : EqState) (n1 n2 : NodeData) (tinfo : TypeInfo) (ex : TypeExtra)
    (hL : h[li]? = some (.node n1)) (hRr : h[ri]? = some (.node n2))
    (hReg : R[n1.tyIdx]? = some tinfo) (hex : tinfo.extra = some ex)
    (hk : ex.kind = .freeVar)
    (hl : assocFind st.eqMapLhs li = Option.none)
    (hr : assocFind st.eqMapRhs ri = Option.none) :
    CompareObject h R (f + 1) li ri st =
      .ok ((li == ri || st.mapFreeVars),
        if (li == ri || st.mapFreeVars) then
          { st with eqMapLhs := (li, ri) :: st.eqMapLhs,
                    eqMapRhs := (ri, li) :: st.eqMapRhs }
        else st) := by
  simp only [CompareObject, hL, hRr, hReg, hex, hk, hl, hr, finishObject]
  norm_num
  by_cases hb : (li == ri || st.mapFreeVars) = true
  · have hp : li = ri ∨ st.mapFreeVars = true := by simpa using hb
    simp [hb, hp]
  · have hp : ¬(li = ri ∨ st.mapFreeVars = true) := by simpa using hb
    simp [hb, hp]

/-- Concrete instantiation of `C5_freevar_unmapped`. -/
theorem C5_freevar_unmapped_witness :
    CompareObject
        [.node ⟨0, Option.none, []⟩, .node ⟨0, Option.none, []⟩]
        [⟨"Var", some ⟨.freeVar, []⟩⟩]
        1 0 1 (initEqState true false false) =
      .ok (true, { initEqState true false false with
                    eqMapLhs := [(0, 1)], eqMapRhs := [(1, 0)] }) := by
  have := C5_freevar_unmapped
    [.node ⟨0, Option.none, []⟩, .node ⟨0, Option.none, []⟩]
    [⟨"Var", some ⟨.freeVar, []⟩⟩]
    0 0 1 (initEqState true false false)
    ⟨0, Option.none, []⟩ ⟨0, Option.none, []⟩
    ⟨"Var", some ⟨.freeVar, []⟩⟩ ⟨.freeVar, []⟩
    (by decide) (by decide) (by decide) (by decide) (by decide) (by decide) (by decide)
  simpa using this

/-- Claim C8: for two distinct NDArrays whose ndim, shape dimensions and dtype
match: with `skip_ndarray_content` on the comparison returns true after the
header match; with it off, if both tensors are CPU-resident and contiguous the
result is equality of the raw byte buffers over `GetDataSize` (element count
times element size) bytes, and otherwise the comparison is a fatal error. -/
theorem C8_ndarray_content (li ri : Nat) (a b : NDArrayData) (st : EqState)
    (hne : li ≠ ri) (hsh : a.shape = b.shape) (hdt : a.dtype = b.dtype) :
    (st.skipNDArrayContent = true → CompareNDArray li ri a b st = .ok (true, st)) ∧
    (st.skipNDArrayContent = false →
      (a.deviceType = kDLCPU → b.deviceType = kDLCPU →
        a.contiguous = true → b.contiguous = true →
        CompareNDArray li ri a b st =
          .ok (decide (a.data.take (GetDataSize a) = b.data.take (GetDataSize a)), st)) ∧
      (¬(a.deviceType = kDLCPU ∧ b.deviceType = kDLCPU ∧
          a.contiguous = true ∧ b.contiguous = true) →
        ∃ m, CompareNDArray li ri a b st = .fatal m)) := by
  constructor
  · intro hskip
    simp [CompareNDArray, hne, hsh, hdt, hskip]
  · intro hskip
    constructor
    · intro hda hdb hca hcb
      simp [CompareNDArray, hne, hsh, hdt, hskip, hda, hdb, hca, hcb]
    · intro hbad
      by_cases hda : a.deviceType = kDLCPU
      · by_cases hdb : b.deviceType = kDLCPU
        · by_cases hca : a.contiguous = true
          · by_cases hcb : b.contiguous = true
            · exact absurd ⟨hda, hdb, hca, hcb⟩ hbad
            · exact ⟨"Can only compare contiguous tensor",
                by simp [CompareNDArray, hne, hsh, hdt, hskip, hda, hdb, hca, hcb]⟩
          · exact ⟨"Can only compare contiguous tensor",
              by simp [CompareNDArray, hne, hsh, hdt, hskip, hda, hdb, hca]⟩
        · exact ⟨"can only compare CPU tensor",
            by simp [CompareNDArray, hne, hsh, hdt, hskip, hda, hdb]⟩
      · exact ⟨"can only compare CPU tensor",
          by simp [CompareNDArray, hne, hsh, hdt, hskip, hda]⟩

/-- Concrete instantiation of `C8_ndarray_content`: two one-byte uint8
tensors with equal headers and differing content. -/
theorem C8_ndarray_content_witness :
    CompareNDArray 0 1
        ⟨[1], ⟨1, 8, 1⟩, kDLCPU, true, [7]⟩
        ⟨[1], ⟨1, 8, 1⟩, kDLCPU, true, [9]⟩
        (initEqState false false false) = .ok (false, initEqState false false false) := by
  have := (C8_ndarray_content 0 1
    ⟨[1], ⟨1, 8, 1⟩, kDLCPU, true, [7]⟩
    ⟨[1], ⟨1, 8, 1⟩, kDLCPU, true, [9]⟩
    (initEqState false false false)
    (by decide) (by decide) (by decide)).2 (by decide)
  have h2 := this.1 (by decide) (by decide) (by decide) (by decide)
  simpa using h2

/-! ### Topological sort correctness: helper lemmas -/

theorem lt_length_of_getElem? {α : Type} (l : List α) (i : Nat) (a : α)
    (h : l[i]? = some a) : i < l.length := by
  by_contra hc
  rw [List.getElem?_eq_none_iff.mpr (Nat.le_of_not_lt hc)] at h
  cases h

theorem getElem?_some_of_lt {α : Type} (l : List α) (i : Nat) (h : i < l.length) :
    ∃ a, l[i]? = some a :=
  ⟨l[i], (List.getElem?_eq_some_getElem_iff l i h).mpr trivial⟩

theorem getDz_set_self (l : List Nat) (i a : Nat) (h : i < l.length) :
    (l.set i a).getD i 0 = a := by
  rw [List.getD_eq_getElem?_getD, List.getElem?_set]
  simp [h]

theorem getDz_set_ne (l : List Nat) (i a v : Nat) (h : i ≠ v) :
    (l.set i a).getD v 0 = l.getD v 0 := by
  rw [List.getD_eq_getElem?_getD, List.getElem?_set, if_neg h,
    ← List.getD_eq_getElem?_getD]

theorem getDz_eq_of_getElem? (l : List Nat) (i d : Nat) (h : l[i]? = some d) :
    l.getD i 0 = d := by
  rw [List.getD_eq_getElem?_getD, h]
  rfl

/-- `addEdges` succeeds exactly on in-bounds edge lists, preserves the length,
and adds each target's multiplicity. -/
theorem addEdges_spec : ∀ (es idg d : List Nat), addEdges idg es = some d →
    d.length = idg.length ∧ ∀ v, d.getD v 0 = idg.getD v 0 + es.count v := by
  intro es
  induction es with
  | nil =>
    intro idg d h
    simp only [addEdges] at h
    cases h
    simp
  | cons e es ih =>
    intro idg d h
    simp only [addEdges, bumpInDegree] at h
    cases he : idg[e]? with
    | none => rw [he] at h; cases h
    | some deg =>
      rw [he] at h
      obtain ⟨hlen, hval⟩ := ih _ _ h
      have hlt : e < idg.length := lt_length_of_getElem? _ _ _ he
      refine ⟨by simpa using hlen, ?_⟩
      intro v
      rcases eq_or_ne e v with heq | hne
      · subst heq
        rw [hval e, getDz_set_self _ _ _ hlt, getDz_eq_of_getElem? _ _ _ he]
        simp [List.count_cons]
        omega
      · rw [hval v, getDz_set_ne _ _ _ _ hne]
        simp [List.count_cons, Ne.symm hne]

theorem addEdges_isSome (es idg : List Nat) (hb : ∀ e ∈ es, e < idg.length) :
    ∃ d, addEdges idg es = some d := by
  induction es generalizing idg with
  | nil => exact ⟨idg, rfl⟩
  | cons e es ih =>
    have hlt : e < idg.length := hb e (by simp)
    obtain ⟨deg, hdeg⟩ := getElem?_some_of_lt _ _ hlt
    have hrec := ih (idg.set e (deg + 1))
      (fun x hx => by
        rw [List.length_set]
        exact hb x (List.mem_cons_of_mem _ hx))
    obtain ⟨d, hd⟩ := hrec
    refine ⟨d, ?_⟩
    simp only [addEdges, bumpInDegree, hdeg]
    exact hd

theorem buildInDegree_spec : ∀ (jns : List JSONNode) (idg d : List Nat),
    buildInDegree idg jns = some d →
    d.length = idg.length ∧
      ∀ v, d.getD v 0 = idg.getD v 0 +
        (jns.map (fun jn => (jn.data ++ jn.fields).count v)).sum := by
  intro jns
  induction jns with
  | nil =>
    intro idg d h
    simp only [buildInDegree] at h
    cases h
    simp
  | cons jn jns ih =>
    intro idg d h
    simp only [buildInDegree] at h
    cases ha : addEdges idg (jn.data ++ jn.fields) with
    | none => rw [ha] at h; cases h
    | some d1 =>
      rw [ha] at h
      obtain ⟨hl1, hv1⟩ := addEdges_spec _ _ _ ha
      obtain ⟨hl2, hv2⟩ := ih _ _ h
      refine ⟨by omega, fun v => ?_⟩
      rw [hv2 v, hv1 v]
      simp
      omega

theorem sum_map_getElem (jns : List JSONNode) (f : JSONNode → Nat) :
    (jns.map f).sum =
      ((List.range jns.length).map (fun u =>
        match jns[u]? with
        | some jn => f jn
        | Option.none => 0)).sum := by
  induction jns with
  | nil => simp
  | cons jn rest ih =>
    rw [List.length_cons, List.range_succ_eq_map]
    simp only [List.map_cons, List.map_map, List.sum_cons, List.getElem?_cons_zero]
    congr 1
    rw [ih]
    have he : (fun u =>
        match rest[u]? with
        | some jn => f jn
        | Option.none => 0) = ((fun u =>
        match (jn :: rest)[u]? with
        | some jn => f jn
        | Option.none => 0) ∘ Nat.succ) := by
      funext u
      simp [Function.comp, List.getElem?_cons_succ]
    rw [he]

theorem countEdges_eq_sum_nodes (g : JSONGraph) (v : Nat) :
    countEdges g v = (g.nodes.map (fun jn => (jn.data ++ jn.fields).count v)).sum := by
  rw [countEdges, sum_map_getElem]
  have he : (fun u => cntE g u v) = fun u =>
      match g.nodes[u]? with
      | some jn => (jn.data ++ jn.fields).count v
      | Option.none => 0 := by
    funext u
    unfold cntE edgesOf
    cases g.nodes[u]? <;> simp
  rw [he]

theorem getDz_replicate (n v : Nat) : (List.replicate n 0).getD v 0 = 0 := by
  rw [List.getD_eq_getElem?_getD, List.getElem?_replicate]
  by_cases h : v < n <;> simp [h]

theorem indexOf_lt_of_mem_take :
    ∀ (l : List Nat) (k u : Nat), u ∈ l.take k → l.indexOf u < k := by
  intro l
  induction l with
  | nil => simp
  | cons a t ih =>
    intro k u hm
    cases k with
    | zero => simp at hm
    | succ k =>
      rw [List.take_succ_cons] at hm
      by_cases hua : u = a
      · subst hua
        simp [List.indexOf_cons_self]
      · rcases List.mem_cons.mp hm with heq | hm2
        · exact absurd heq hua
        · rw [List.indexOf_cons_ne _ (Ne.symm hua)]
          exact Nat.succ_lt_succ (ih k u hm2)

theorem nodup_getElem_not_mem_take (l : List Nat) (p : Nat) (hnd : l.Nodup) (u : Nat)
    (hu : l[p]? = some u) : u ∉ l.take p := by
  intro hmem
  have hp := lt_length_of_getElem? _ _ _ hu
  have h1 : l.indexOf u < p := indexOf_lt_of_mem_take l p u hmem
  have h2 : l.indexOf u = p := by
    have hg : l[p] = u := by
      have := (List.getElem?_eq_some_getElem_iff l p hp).mpr trivial
      rw [hu] at this
      exact (Option.some_inj.mp this).symm
    subst hg
    exact List.indexOf_getElem hnd p hp
  omega

theorem subperm_map_sum_le (f : Nat → Nat) (l t : List Nat) (hnd : l.Nodup)
    (hsub : l ⊆ t) : (l.map f).sum ≤ (t.map f).sum := by
  obtain ⟨m, hperm, hsl⟩ := List.subperm_of_subset hnd hsub
  have h1 : (l.map f).sum = (m.map f).sum := ((hperm.map f).sum_eq).symm
  have h2 := List.Sublist.sum_le_sum (hsl.map f) (fun a _ => Nat.zero_le a)
  omega

theorem processedCount_le_countEdges (g : JSONGraph) (l : List Nat) (v : Nat)
    (hnd : l.Nodup) (hb : ∀ u ∈ l, u < g.nodes.length) :
    processedCount g l v ≤ countEdges g v :=
  subperm_map_sum_le _ _ _ hnd (fun u hu => List.mem_range.mpr (hb u hu))

theorem edge_src_lt (g : JSONGraph) (u v : Nat) (h : Edge g u v) :
    u < g.nodes.length := by
  unfold Edge edgesOf at h
  by_contra hc
  rw [List.getElem?_eq_none_iff.mpr (Nat.le_of_not_lt hc)] at h
  simp at h

theorem edge_iff_cntE_pos (g : JSONGraph) (u v : Nat) :
    Edge g u v ↔ 0 < cntE g u v := by
  unfold Edge cntE
  exact (List.count_pos_iff).symm

theorem countEdges_pos_of_edge (g : JSONGraph) (u v : Nat) (h : Edge g u v) :
    0 < countEdges g v := by
  have hu := edge_src_lt g u v h
  have h1 : 0 < cntE g u v := (edge_iff_cntE_pos g u v).mp h
  have h2 : processedCount g [u] v ≤ countEdges g v :=
    processedCount_le_countEdges g [u] v (by simp) (by simpa using hu)
  simp [processedCount] at h2
  omega

theorem processedCount_append (g : JSONGraph) (l1 l2 : List Nat) (v : Nat) :
    processedCount g (l1 ++ l2) v = processedCount g l1 v + processedCount g l2 v := by
  simp [processedCount]

theorem processedCount_singleton (g : JSONGraph) (u v : Nat) :
    processedCount g [u] v = cntE g u v := by
  simp [processedCount]

theorem nodup_concat {l : List Nat} {x : Nat} (hnd : l.Nodup) (hx : x ∉ l) :
    (l ++ [x]).Nodup := by
  rw [(List.perm_append_singleton x l).nodup_iff]
  exact List.nodup_cons.mpr ⟨hx, hnd⟩

/-- Every in-neighbor of a node whose whole in-degree is already accounted for
by the processed prefix and the consumed edges of the current node must itself
be in the processed prefix or be the current node. -/
theorem fresh_node_inneighbors (g : JSONGraph)
    (order0 : List Nat) (p u0 : Nat)
    (hp : order0[p]? = some u0) (hnd0 : order0.Nodup)
    (hord0n : ∀ x ∈ order0, x < g.nodes.length)
    (done2 es2 : List Nat) (hpref : edgesOf g u0 = done2 ++ es2)
    (v : Nat)
    (hCE : countEdges g v = processedCount g (order0.take p) v + done2.count v)
    (u : Nat) (hE : Edge g u v) :
    u ∈ order0.take p ∨ u = u0 := by
  by_contra hc
  push_neg at hc
  obtain ⟨hnotp, hne0⟩ := hc
  have hun : u < g.nodes.length := edge_src_lt g u v hE
  have hu0mem : u0 ∈ order0 := List.getElem?_mem hp
  have hu0n : u0 < g.nodes.length := hord0n u0 hu0mem
  have htknd : (order0.take p).Nodup := (List.take_sublist p order0).nodup hnd0
  have hu0nt : u0 ∉ order0.take p := nodup_getElem_not_mem_take order0 p hnd0 u0 hp
  have hL1 : ((order0.take p ++ [u0]) ++ [u]).Nodup := by
    refine nodup_concat (nodup_concat htknd hu0nt) ?_
    simp only [List.mem_append, List.mem_singleton]
    rintro (hup | hu0eq)
    · exact hnotp hup
    · exact hne0 hu0eq
  have hLlt : ∀ x ∈ (order0.take p ++ [u0]) ++ [u], x < g.nodes.length := by
    intro x hx
    simp only [List.mem_append, List.mem_singleton] at hx
    rcases hx with (hx | rfl) | rfl
    · exact hord0n x (List.mem_of_mem_take hx)
    · exact hu0n
    · exact hun
  have hle := processedCount_le_countEdges g ((order0.take p ++ [u0]) ++ [u]) v hL1 hLlt
  rw [processedCount_append, processedCount_append, processedCount_singleton,
    processedCount_singleton] at hle
  have hcu0 : done2.count v ≤ cntE g u0 v := by
    unfold cntE
    rw [hpref, List.count_append]
    omega
  have hcu : 1 ≤ cntE g u v := (edge_iff_cntE_pos g u v).mp hE
  omega

/-- One dequeued node's edge-consumption loop preserves the mid-iteration
invariant, only appends to the order, and never fails on an in-bounds
graph. -/
theorem processEdges_mid (g : JSONGraph) (hb : EdgesBounded g)
    (order0 : List Nat) (p u0 : Nat)
    (hp : order0[p]? = some u0) (hnd0 : order0.Nodup) :
    ∀ (es done indeg ord : List Nat),
      edgesOf g u0 = done ++ es →
      KMid g order0 p done indeg ord →
      ∃ indeg2 ord2,
        processEdges indeg ord es = some (indeg2, ord2) ∧
        KMid g order0 p (done ++ es) indeg2 ord2 ∧
        (∃ ext2, ord2 = ord ++ ext2) := by
  intro es
  induction es with
  | nil =>
    intro done indeg ord hsplit hK
    refine ⟨indeg, ord, rfl, by simpa using hK, [], by simp⟩
  | cons i es ih =>
    intro done indeg ord hsplit hK
    obtain ⟨hlen, hnd, hmem, ⟨ext, hext⟩, hcnt, hzm, hord⟩ := hK
    have hu0mem : u0 ∈ order0 := List.getElem?_mem hp
    have hu0ord : u0 ∈ ord := by rw [hext]; exact List.mem_append_left _ hu0mem
    have hu0n : u0 < g.nodes.length := hmem u0 hu0ord
    have hord0n : ∀ x ∈ order0, x < g.nodes.length := by
      intro x hx
      exact hmem x (by rw [hext]; exact List.mem_append_left _ hx)
    have hiE : Edge g u0 i := by
      unfold Edge
      rw [hsplit]
      simp
    have hin : i < g.nodes.length := hb u0 i (by rw [hsplit]; simp)
    obtain ⟨d, hd⟩ := getElem?_some_of_lt indeg i (by omega)
    have hdval : indeg.getD i 0 = d := getDz_eq_of_getElem? _ _ _ hd
    have htknd : (order0.take p).Nodup := (List.take_sublist p order0).nodup hnd0
    have hu0nt : u0 ∉ order0.take p := nodup_getElem_not_mem_take order0 p hnd0 u0 hp
    have htake1 : order0.take (p + 1) = order0.take p ++ [u0] := by
      rw [List.take_succ, hp]
      rfl
    have hdpos : 1 ≤ d := by
      by_contra hc
      have hd0 : d = 0 := by omega
      have h1 := hcnt i
      rw [hdval, hd0] at h1
      have hLnd : (order0.take p ++ [u0]).Nodup := nodup_concat htknd hu0nt
      have hLlt : ∀ x ∈ order0.take p ++ [u0], x < g.nodes.length := by
        intro x hx
        simp only [List.mem_append, List.mem_singleton] at hx
        rcases hx with hx | rfl
        · exact hord0n x (List.mem_of_mem_take hx)
        · exact hu0n
      have hle := processedCount_le_countEdges g (order0.take p ++ [u0]) i hLnd hLlt
      rw [processedCount_append, processedCount_singleton] at hle
      have hcu0 : cntE g u0 i = done.count i + (i :: es).count i := by
        unfold cntE
        rw [hsplit, List.count_append]
      have hci : 1 ≤ (i :: es).count i := by simp [List.count_cons]
      omega
    by_cases hd1 : d = 1
    · -- the decrement reaches zero: enqueue i
      have hinotmem : i ∉ ord := by
        intro hmi
        have := (hzm i hin).mp hmi
        omega
      have hK2 : KMid g order0 p (done ++ [i]) (indeg.set i (d - 1)) (ord ++ [i]) := by
        refine ⟨by simpa using hlen, nodup_concat hnd hinotmem, ?_, ⟨ext ++ [i], by rw [hext, List.append_assoc]⟩, ?_, ?_, ?_⟩
        · intro v hv
          rcases List.mem_append.mp hv with hv | hv
          · exact hmem v hv
          · simp only [List.mem_singleton] at hv
            subst hv
            exact hin
        · intro v
          rcases eq_or_ne i v with heq | hne
          · subst heq
            rw [getDz_set_self _ _ _ (by omega), List.count_append]
            have hceq := hcnt i
            rw [hdval] at hceq
            have hc1 : List.count i [i] = 1 := by
              rw [List.count_singleton']
              simp
            rw [hc1]
            omega
          · rw [getDz_set_ne _ _ _ _ hne, List.count_append]
            have hceq := hcnt v
            have hc0 : List.count v [i] = 0 := by
              rw [List.count_singleton']
              simp [hne]
            rw [hc0]
            omega
        · intro v hv
          rcases eq_or_ne i v with heq | hne
          · subst heq
            rw [getDz_set_self _ _ _ (by omega)]
            simp [hd1]
          · rw [getDz_set_ne _ _ _ _ hne]
            have hmemiff : v ∈ ord ++ [i] ↔ v ∈ ord := by
              simp [List.mem_append, Ne.symm hne]
            rw [hmemiff]
            exact hzm v hv
        · intro v hv u hE
          rcases List.mem_append.mp hv with hv | hv
          · obtain ⟨hu1, hu2⟩ := hord v hv u hE
            have humem : u ∈ ord := by
              rw [hext]
              exact List.mem_append_left _ (List.mem_of_mem_take hu1)
            refine ⟨hu1, ?_⟩
            rw [List.indexOf_append_of_mem humem, List.indexOf_append_of_mem hv]
            exact hu2
          · simp only [List.mem_singleton] at hv
            subst hv
            -- v = i is freshly enqueued: all its in-edges are consumed
            have hCE : countEdges g v =
                processedCount g (order0.take p) v + (done ++ [v]).count v := by
              have := hcnt v
              rw [hdval, hd1] at this
              rw [List.count_append]
              simp
              omega
            have := fresh_node_inneighbors g order0 p u0 hp hnd0 hord0n
              (done ++ [v]) es (by rw [hsplit]; simp) v hCE u hE
            have humem1 : u ∈ order0.take (p + 1) := by
              rw [htake1]
              rcases this with h1 | h1
              · exact List.mem_append_left _ h1
              · subst h1
                simp
            refine ⟨humem1, ?_⟩
            have humem : u ∈ ord := by
              rw [hext]
              refine List.mem_append_left _ ?_
              exact List.mem_of_mem_take humem1
            rw [List.indexOf_append_of_mem humem,
              List.indexOf_append_of_not_mem hinotmem]
            simp only [List.indexOf_cons_self, Nat.add_zero]
            exact List.indexOf_lt_length.mpr humem
      obtain ⟨indeg2, ord2, hrun, hK3, ext2, hext2⟩ :=
        ih (done ++ [i]) (indeg.set i (d - 1)) (ord ++ [i])
          (by rw [hsplit]; simp) hK2
      refine ⟨indeg2, ord2, ?_, ?_, ?_⟩
      · simp only [processEdges, hd]
        rw [if_pos hd1]
        exact hrun
      · have : (done ++ [i]) ++ es = done ++ i :: es := by simp
        rwa [this] at hK3
      · exact ⟨[i] ++ ext2, by rw [hext2, List.append_assoc]⟩
    · -- plain decrement, no enqueue
      have hinotmem : i ∉ ord := by
        intro hmi
        have := (hzm i hin).mp hmi
        omega
      have hK2 : KMid g order0 p (done ++ [i]) (indeg.set i (d - 1)) ord := by
        refine ⟨by simpa using hlen, hnd, hmem, ⟨ext, hext⟩, ?_, ?_, ?_⟩
        · intro v
          rcases eq_or_ne i v with heq | hne
          · subst heq
            rw [getDz_set_self _ _ _ (by omega), List.count_append]
            have hceq := hcnt i
            rw [hdval] at hceq
            have hc1 : List.count i [i] = 1 := by
              rw [List.count_singleton']
              simp
            rw [hc1]
            omega
          · rw [getDz_set_ne _ _ _ _ hne, List.count_append]
            have hceq := hcnt v
            have hc0 : List.count v [i] = 0 := by
              rw [List.count_singleton']
              simp [hne]
            rw [hc0]
            omega
        · intro v hv
          rcases eq_or_ne i v with heq | hne
          · subst heq
            rw [getDz_set_self _ _ _ (by omega)]
            constructor
            · intro hmi
              exact absurd hmi hinotmem
            · intro hz
              omega
          · rw [getDz_set_ne _ _ _ _ hne]
            exact hzm v hv
        · exact hord
      obtain ⟨indeg2, ord2, hrun, hK3, ext2, hext2⟩ :=
        ih (done ++ [i]) (indeg.set i (d - 1)) ord
          (by rw [hsplit]; simp) hK2
      refine ⟨indeg2, ord2, ?_, ?_, ⟨ext2, hext2⟩⟩
      · simp only [processEdges, hd]
        rw [if_neg hd1]
        exact hrun
      · have : (done ++ [i]) ++ es = done ++ i :: es := by simp
        rwa [this] at hK3

theorem nodup_length_le (l : List Nat) (n : Nat) (hnd : l.Nodup)
    (hlt : ∀ v ∈ l, v < n) : l.length ≤ n := by
  have hsub := List.subperm_of_subset hnd (fun x hx => List.mem_range.mpr (hlt x hx))
  simpa using hsub.length_le

/-- The Kahn queue walk preserves `KInv`, never fails on an in-bounds graph,
and with fuel past the table size runs to the end of the queue. -/
theorem kahnLoop_inv (g : JSONGraph) (hb : EdgesBounded g) :
    ∀ (fuel p : Nat) (indeg order : List Nat),
      KInv g indeg order p →
      g.nodes.length + 1 ≤ p + fuel →
      ∃ indeg2 order2,
        kahnLoop g.nodes fuel indeg order p = some order2 ∧
        KInv g indeg2 order2 order2.length := by
  intro fuel
  induction fuel with
  | zero =>
    intro p indeg order hK hf
    obtain ⟨hlen, hnd, hmem, hple, hcnt, hzm, hord⟩ := hK
    have := nodup_length_le order g.nodes.length hnd hmem
    omega
  | succ fuel ih =>
    intro p indeg order hK hf
    obtain ⟨hlen, hnd, hmem, hple, hcnt, hzm, hord⟩ := hK
    cases hop : order[p]? with
    | none =>
      have hge : order.length ≤ p := by
        by_contra hc
        obtain ⟨a, ha⟩ := getElem?_some_of_lt order p (by omega)
        rw [ha] at hop
        cases hop
      have hpe : p = order.length := le_antisymm hple hge
      subst hpe
      exact ⟨indeg, order, by simp [kahnLoop, hop],
        ⟨hlen, hnd, hmem, le_refl _, hcnt, hzm, hord⟩⟩
    | some u0 =>
      have hu0mem : u0 ∈ order := List.getElem?_mem hop
      have hu0n : u0 < g.nodes.length := hmem u0 hu0mem
      obtain ⟨jn, hjn⟩ := getElem?_some_of_lt g.nodes u0 hu0n
      have hedges : edgesOf g u0 = jn.data ++ jn.fields := by
        unfold edgesOf
        rw [hjn]
      have hplt : p < order.length := lt_length_of_getElem? order p u0 hop
      have htake1 : order.take (p + 1) = order.take p ++ [u0] := by
        rw [List.take_succ, hop]
        rfl
      have hKmid : KMid g order p [] indeg order := by
        refine ⟨hlen, hnd, hmem, ⟨[], by simp⟩, ?_, hzm, ?_⟩
        · intro v
          simpa using hcnt v
        · intro v hv u hE
          obtain ⟨h1, h2⟩ := hord v hv u hE
          refine ⟨?_, h2⟩
          rw [htake1]
          exact List.mem_append_left _ h1
      obtain ⟨indeg2, ord2, hrun, hK2, ext2, hext2⟩ :=
        processEdges_mid g hb order p u0 hop hnd (jn.data ++ jn.fields) [] indeg order
          (by simp [hedges]) hKmid
      obtain ⟨hlen2, hnd2, hmem2, ⟨ext3, hext3⟩, hcnt2, hzm2, hord2⟩ := hK2
      have htake_eq : ord2.take (p + 1) = order.take (p + 1) := by
        rw [hext3]
        exact List.take_append_of_le_length (by omega)
      have hKInv2 : KInv g indeg2 ord2 (p + 1) := by
        refine ⟨hlen2, hnd2, hmem2, ?_, ?_, hzm2, ?_⟩
        · have : order.length ≤ ord2.length := by
            rw [hext3]
            simp
          omega
        · intro v
          have hce := hcnt2 v
          rw [htake_eq, htake1, processedCount_append, processedCount_singleton]
          have hcu0 : cntE g u0 v = ([] ++ (jn.data ++ jn.fields)).count v := by
            unfold cntE
            rw [hedges]
            simp
          omega
        · intro v hv u hE
          obtain ⟨h1, h2⟩ := hord2 v hv u hE
          exact ⟨by rw [htake_eq]; exact h1, h2⟩
      obtain ⟨indeg3, order3, hrun3, hK3⟩ := ih (p + 1) indeg2 ord2 hKInv2 (by omega)
      refine ⟨indeg3, order3, ?_, hK3⟩
      simp only [kahnLoop, hop, hjn, hrun]
      exact hrun3

theorem buildInDegree_isSome (jns : List JSONNode) (idg : List Nat)
    (hb : ∀ jn ∈ jns, ∀ e ∈ jn.data ++ jn.fields, e < idg.length) :
    ∃ d, buildInDegree idg jns = some d := by
  induction jns generalizing idg with
  | nil => exact ⟨idg, rfl⟩
  | cons jn jns ih =>
    obtain ⟨d1, hd1⟩ := addEdges_isSome (jn.data ++ jn.fields) idg
      (fun e he => hb jn (by simp) e he)
    have hlen : d1.length = idg.length := (addEdges_spec _ _ _ hd1).1
    obtain ⟨d, hd⟩ := ih d1 (fun j hj e he => by
      rw [hlen]
      exact hb j (List.mem_cons_of_mem _ hj) e he)
    refine ⟨d, ?_⟩
    simp only [buildInDegree, hd1]
    exact hd

/-- The in-degree table and initial queue of `TopoSort` satisfy `KInv`. -/
theorem topoSort_init (g : JSONGraph) (hb : EdgesBounded g) :
    ∃ indeg, buildInDegree (List.replicate g.nodes.length 0) g.nodes = some indeg ∧
      KInv g indeg
        ((List.range g.nodes.length).filter (fun i => indeg.getD i 1 = 0)) 0 := by
  obtain ⟨indeg, hbuild⟩ := buildInDegree_isSome g.nodes (List.replicate g.nodes.length 0)
    (by
      intro jn hjn e he
      rw [List.length_replicate]
      obtain ⟨u, hu⟩ := List.getElem_of_mem hjn
      refine hb u e ?_
      unfold edgesOf
      rw [(List.getElem?_eq_some_getElem_iff g.nodes u hu.1).mpr trivial]
      simpa [hu.2] using he)
  obtain ⟨hlen0, hval0⟩ := buildInDegree_spec g.nodes _ _ hbuild
  have hlen : indeg.length = g.nodes.length := by simpa using hlen0
  have hval : ∀ v, indeg.getD v 0 = countEdges g v := by
    intro v
    rw [hval0 v, getDz_replicate, countEdges_eq_sum_nodes]
    simp
  have hgd01 : ∀ v, v < g.nodes.length → indeg.getD v 1 = indeg.getD v 0 := by
    intro v hv
    obtain ⟨a, ha⟩ := getElem?_some_of_lt indeg v (by omega)
    rw [List.getD_eq_getElem?_getD, List.getD_eq_getElem?_getD, ha]
    rfl
  refine ⟨indeg, hbuild, ?_, List.Nodup.filter _ (List.nodup_range _), ?_, by simp, ?_, ?_, ?_⟩
  · exact hlen
  · intro v hv
    exact List.mem_range.mp (List.mem_of_mem_filter hv)
  · intro v
    simp only [List.take_zero, processedCount, List.map_nil, List.sum_nil, Nat.add_zero]
    exact (hval v).symm
  · intro v hv
    rw [List.mem_filter, List.mem_range]
    constructor
    · intro hm
      have := hm.2
      rw [hgd01 v hv] at this
      simpa using this
    · intro hz
      refine ⟨hv, ?_⟩
      rw [hgd01 v hv]
      simpa using hz
  · intro v hv u hE
    exfalso
    have hm := List.mem_of_mem_filter hv
    have hvn := List.mem_range.mp (List.mem_of_mem_filter hv)
    have hz : indeg.getD v 1 = 0 := by simpa using (List.mem_filter.mp hv).2
    rw [hgd01 v hvn, hval v] at hz
    have := countEdges_pos_of_edge g u v hE
    omega

theorem indexOf_reverse_lt :
    ∀ (l : List Nat), l.Nodup → ∀ u v, u ∈ l → v ∈ l →
      l.indexOf u < l.indexOf v → l.reverse.indexOf v < l.reverse.indexOf u := by
  intro l
  induction l with
  | nil => simp
  | cons a t ih =>
    intro hnd u v hu hv hlt
    obtain ⟨hna, hndt⟩ := List.nodup_cons.mp hnd
    by_cases hva : v = a
    · subst hva
      rw [List.indexOf_cons_self] at hlt
      omega
    · have hvt : v ∈ t := by
        rcases List.mem_cons.mp hv with h | h
        · exact absurd h hva
        · exact h
      by_cases hua : u = a
      · subst hua
        simp only [List.reverse_cons]
        rw [List.indexOf_append_of_mem (by simpa using hvt),
          List.indexOf_append_of_not_mem (by simpa using hna)]
        have hlen : t.reverse.indexOf v < t.reverse.length :=
          List.indexOf_lt_length.mpr (by simpa using hvt)
        simp only [List.length_reverse] at hlen
        simp
        omega
      · have hut : u ∈ t := by
          rcases List.mem_cons.mp hu with h | h
          · exact absurd h hua
          · exact h
        rw [List.indexOf_cons_ne _ (Ne.symm hua), List.indexOf_cons_ne _ (Ne.symm hva)] at hlt
        have hlt2 : t.indexOf u < t.indexOf v := by omega
        have hres := ih hndt u v hut hvt hlt2
        simp only [List.reverse_cons]
        rw [List.indexOf_append_of_mem (by simpa using hvt),
          List.indexOf_append_of_mem (by simpa using hut)]
        exact hres

/-- A completed Kahn run covers every node and orders every edge
source-before-target (in the pre-reversal order). -/
theorem kinv_complete_ordering (g : JSONGraph) (hb : EdgesBounded g)
    (indeg orderF : List Nat)
    (hK : KInv g indeg orderF orderF.length)
    (hfull : orderF.length = g.nodes.length) :
    (∀ v, v < g.nodes.length → v ∈ orderF) ∧
    (∀ u v, Edge g u v → orderF.indexOf u < orderF.indexOf v) := by
  obtain ⟨hlen, hnd, hmem, hple, hcnt, hzm, hord⟩ := hK
  have hsub := List.subperm_of_subset hnd (fun x hx => List.mem_range.mpr (hmem x hx))
  have hperm : orderF.Perm (List.range g.nodes.length) :=
    List.Subperm.perm_of_length_le hsub (by simpa using Nat.le_of_eq hfull.symm)
  have hmemall : ∀ v, v < g.nodes.length → v ∈ orderF := by
    intro v hv
    exact hperm.mem_iff.mpr (List.mem_range.mpr hv)
  refine ⟨hmemall, ?_⟩
  intro u v hE
  have hvm : v ∈ orderF := hmemall v (hb u v hE)
  exact (hord v hvm u hE).2

/-- An edge-monotone position function forbids cycles. -/
theorem acyclic_of_ordering (g : JSONGraph) (orderF : List Nat)
    (hord : ∀ u v, Edge g u v → orderF.indexOf u < orderF.indexOf v) : Acyclic g := by
  intro v hcyc
  have mono : ∀ a b, Relation.TransGen (Edge g) a b →
      orderF.indexOf a < orderF.indexOf b := by
    intro a b h
    induction h with
    | single h1 => exact hord _ _ h1
    | tail _ h2 ih => exact lt_trans ih (hord _ _ h2)
  exact absurd (mono v v hcyc) (lt_irrefl _)

theorem sum_map_filter_ne (f : Nat → Nat) : ∀ (l : List Nat),
    ((l.filter (fun x => f x ≠ 0)).map f).sum = (l.map f).sum := by
  intro l
  induction l with
  | nil => simp
  | cons a t ih =>
    rw [List.filter_cons]
    by_cases h : f a = 0
    · have hd : (decide (f a ≠ 0)) = false := by simp [h]
      rw [hd]
      simp only [Bool.false_eq_true, if_false]
      rw [ih]
      simp [h]
    · have hd : (decide (f a ≠ 0)) = true := by simp [h]
      rw [hd]
      simp only [if_true]
      simp only [List.map_cons, List.sum_cons]
      rw [ih]

/-- An incomplete Kahn run exhibits a cycle: every leftover node has a
leftover in-neighbor, and following in-neighbors long enough repeats a
node. -/
theorem cycle_of_incomplete (g : JSONGraph)
    (indeg orderF : List Nat)
    (hK : KInv g indeg orderF orderF.length)
    (hlt : orderF.length < g.nodes.length) : ¬Acyclic g := by
  obtain ⟨hlen, hnd, hmem, hple, hcnt, hzm, hord⟩ := hK
  have hex : ∃ w, w < g.nodes.length ∧ w ∉ orderF := by
    by_contra hc
    push_neg at hc
    have hsub2 := List.subperm_of_subset (List.nodup_range g.nodes.length)
      (fun x hx => hc x (List.mem_range.mp hx))
    have := hsub2.length_le
    simp at this
    omega
  obtain ⟨v0, hv0n, hv0⟩ := hex
  have hstep : ∀ v, v < g.nodes.length → v ∉ orderF →
      ∃ u, u < g.nodes.length ∧ u ∉ orderF ∧ Edge g u v := by
    intro v hvn hvout
    have hdnz : indeg.getD v 0 ≠ 0 := fun hz => hvout ((hzm v hvn).mpr hz)
    have hce := hcnt v
    rw [List.take_length] at hce
    by_contra hc
    push_neg at hc
    have hposmem : ∀ u, u ∈ (List.range g.nodes.length).filter
        (fun u => cntE g u v ≠ 0) → u ∈ orderF := by
      intro u hu
      obtain ⟨hur, hup⟩ := List.mem_filter.mp hu
      have hun := List.mem_range.mp hur
      have hE : Edge g u v := (edge_iff_cntE_pos g u v).mpr
        (Nat.pos_of_ne_zero (by simpa using hup))
      by_contra huout
      exact absurd hE (hc u hun huout)
    have h1 : countEdges g v = processedCount g ((List.range g.nodes.length).filter
        (fun u => cntE g u v ≠ 0)) v := by
      unfold countEdges processedCount
      exact (sum_map_filter_ne (fun u => cntE g u v) (List.range g.nodes.length)).symm
    have h2 : processedCount g ((List.range g.nodes.length).filter
        (fun u => cntE g u v ≠ 0)) v ≤ processedCount g orderF v :=
      subperm_map_sum_le _ _ _ (List.Nodup.filter _ (List.nodup_range _)) hposmem
    omega
  choose pick hp1 hp2 hp3 using hstep
  intro hacy
  let F : ℕ → {x : Nat // x < g.nodes.length ∧ x ∉ orderF} := fun k =>
    Nat.rec ⟨v0, hv0n, hv0⟩
      (fun _ prev => ⟨pick prev.1 prev.2.1 prev.2.2,
        hp1 prev.1 prev.2.1 prev.2.2, hp2 prev.1 prev.2.1 prev.2.2⟩) k
  have hFedge : ∀ k, Edge g (F (k + 1)).1 (F k).1 := by
    intro k
    exact hp3 (F k).1 (F k).2.1 (F k).2.2
  have htg : ∀ k m, k < m → Relation.TransGen (Edge g) (F m).1 (F k).1 := by
    intro k m hkm
    induction m, hkm using Nat.le_induction with
    | base => exact Relation.TransGen.single (hFedge k)
    | succ m hm ih => exact Relation.TransGen.trans (Relation.TransGen.single (hFedge m)) ih
  obtain ⟨k, l, hne, heq⟩ := Finite.exists_ne_map_eq_of_infinite
    (fun k : ℕ => (⟨(F k).1, (F k).2.1⟩ : Fin g.nodes.length))
  have heqv : (F k).1 = (F l).1 := congrArg Fin.val heq
  rcases hne.lt_or_lt with hkl | hkl
  · have := htg k l hkl
    rw [heqv] at this
    exact absurd this (hacy _)
  · have := htg l k hkl
    rw [heqv] at this
    exact absurd this (hacy _)

/-- Claim C3: on a graph whose references stay inside the node table, loading
produces a full topological order exactly when the `data`/`fields` edge graph
is acyclic — the returned (reversed) order covers all nodes and places every
referenced child before its referrer (leaves first, root last) — and on a
cyclic graph `TopoSort` fails with the diagnostic
"Cyclic reference detected in JSON file". -/
theorem C3_topo_sort_totality (g : JSONGraph) (hb : EdgesBounded g) :
    (Acyclic g → ∃ order, TopoSort g = .ok order ∧
        order.length = g.nodes.length ∧ order.Nodup ∧
        (∀ v, v < g.nodes.length → v ∈ order) ∧
        (∀ u v, Edge g u v → order.indexOf v < order.indexOf u)) ∧
    (¬Acyclic g → TopoSort g = .fatal "Cyclic reference detected in JSON file") := by
  obtain ⟨indeg, hbuild, hK0⟩ := topoSort_init g hb
  obtain ⟨indeg2, orderF, hrun, hKF⟩ :=
    kahnLoop_inv g hb (g.nodes.length + 1) 0 indeg _ hK0 (by omega)
  have hndF : orderF.Nodup := hKF.2.1
  have hmemF : ∀ v ∈ orderF, v < g.nodes.length := hKF.2.2.1
  have hlenle : orderF.length ≤ g.nodes.length := nodup_length_le _ _ hndF hmemF
  constructor
  · intro hacy
    have hfull : orderF.length = g.nodes.length := by
      by_contra hc
      exact cycle_of_incomplete g indeg2 orderF hKF (by omega) hacy
    obtain ⟨hmemall, hordinc⟩ := kinv_complete_ordering g hb indeg2 orderF hKF hfull
    refine ⟨orderF.reverse, ?_, by simpa using hfull,
      List.nodup_reverse.mpr hndF, ?_, ?_⟩
    · unfold TopoSort
      simp only [hbuild, hrun]
      rw [if_pos hfull]
    · intro v hv
      simpa using hmemall v hv
    · intro u v hE
      have hun : u < g.nodes.length := edge_src_lt g u v hE
      have hum : u ∈ orderF := hmemall u hun
      have hvm : v ∈ orderF := hmemall v (hb u v hE)
      exact indexOf_reverse_lt orderF hndF u v hum hvm (hordinc u v hE)
  · intro hnacy
    have hne : orderF.length ≠ g.nodes.length := by
      intro heq
      obtain ⟨hmemall, hordinc⟩ := kinv_complete_ordering g hb indeg2 orderF hKF heq
      exact hnacy (acyclic_of_ordering g orderF hordinc)
    unfold TopoSort
    simp only [hbuild, hrun]
    rw [if_neg hne]

/-- Concrete instantiation of `C3_topo_sort_totality`: the acyclic branch on
a two-node graph whose node 1 references node 0. -/
theorem C3_topo_sort_totality_witness :
    ∃ order, TopoSort graphChain2 = .ok order ∧
      order.length = 2 ∧ order.Nodup ∧
      (∀ v, v < 2 → v ∈ order) ∧
      (∀ u v, Edge graphChain2 u v → order.indexOf v < order.indexOf u) := by
  have hedge : ∀ a b, Edge graphChain2 a b → b = 0 ∧ a = 1 := by
    intro a b h
    unfold Edge edgesOf graphChain2 at h
    match a, h with
    | 0, h => simp at h
    | 1, h =>
      simp at h
      exact ⟨h, rfl⟩
    | Nat.succ (Nat.succ n), h => simp at h
  have hacy : Acyclic graphChain2 := by
    intro v hcyc
    obtain ⟨b, hab, hbc⟩ := Relation.TransGen.tail'_iff.mp hcyc
    obtain ⟨hv0, hb1⟩ := hedge b v hbc
    subst hv0
    subst hb1
    rcases Relation.ReflTransGen.cases_head hab with heq | ⟨c, hc1, hrest⟩
    · omega
    · obtain ⟨hc0, h01⟩ := hedge _ _ hc1
      omega
  have hbnd : EdgesBounded graphChain2 := by
    intro u v hv
    unfold edgesOf graphChain2 at hv
    match u, hv with
    | 0, hv => simp at hv
    | 1, hv =>
      simp at hv
      subst hv
      simp [graphChain2]
    | Nat.succ (Nat.succ n), hv => simp at hv
  have h := (C3_topo_sort_totality graphChain2 hbnd).1 hacy
  simpa [graphChain2] using h

/-! ### Claim C7: SEqHashIgnore opacity -/

theorem ignoreAgree_none_iff (R : Registry) (h1 h2 : Heap)
    (hA : IgnoreAgree R h1 h2) (i : Nat) : h1[i]? = Option.none ↔ h2[i]? = Option.none := by
  obtain ⟨hlen, hrel⟩ := hA
  rw [List.getElem?_eq_none_iff, List.getElem?_eq_none_iff, hlen]

theorem ignoreAgree_lookup (R : Registry) (h1 h2 : Heap)
    (hA : IgnoreAgree R h1 h2) (i : Nat) (o1 : ObjData) (h : h1[i]? = some o1) :
    ∃ o2, h2[i]? = some o2 ∧ IgnoreAgreeObj R o1 o2 := by
  obtain ⟨hlen, hrel⟩ := hA
  have hi : i < h2.length := by
    rw [← hlen]
    exact lt_length_of_getElem? _ _ _ h
  obtain ⟨o2, ho2⟩ := getElem?_some_of_lt h2 i hi
  exact ⟨o2, ho2, hrel i o1 o2 h ho2⟩

theorem ignoreAgree_typeIndex (R : Registry) (h1 h2 : Heap)
    (hA : IgnoreAgree R h1 h2) (v : Val) :
    typeIndexOf? h1 v = typeIndexOf? h2 v := by
  cases v with
  | obj id =>
    simp only [typeIndexOf?]
    cases hL : h1[id]? with
    | none =>
      rw [(ignoreAgree_none_iff R h1 h2 hA id).mp hL]
    | some o1 =>
      obtain ⟨o2, hR, hrel⟩ := ignoreAgree_lookup R h1 h2 hA id o1 hL
      rw [hR]
      cases o1 with
      | node n1 =>
        cases o2 with
        | node n2 =>
          obtain ⟨hty, _, _⟩ := hrel
          simp [hty]
        | str s => exact absurd hrel (by simp [IgnoreAgreeObj])
        | arr s => exact absurd hrel (by simp [IgnoreAgreeObj])
        | map s => exact absurd hrel (by simp [IgnoreAgreeObj])
        | shape s => exact absurd hrel (by simp [IgnoreAgreeObj])
        | ndarr s => exact absurd hrel (by simp [IgnoreAgreeObj])
      | str s =>
        have : ObjData.str s = o2 := hrel
        rw [← this]
      | arr s =>
        have : ObjData.arr s = o2 := hrel
        rw [← this]
      | map s =>
        have : ObjData.map s = o2 := hrel
        rw [← this]
      | shape s =>
        have : ObjData.shape s = o2 := hrel
        rw [← this]
      | ndarr s =>
        have : ObjData.ndarr s = o2 := hrel
        rw [← this]
  | none => rfl
  | vbool b => rfl
  | vint i => rfl
  | vfloat q => rfl
  | vdtype d => rfl
  | vdevice d => rfl

theorem ignoreAgree_str_lookup (R : Registry) (h1 h2 : Heap)
    (hA : IgnoreAgree R h1 h2) (i : Nat) :
    (match h1[i]? with
     | some (.str s) => some s
     | _ => (Option.none : Option String)) =
    (match h2[i]? with
     | some (.str s) => some s
     | _ => Option.none) := by
  cases hL : h1[i]? with
  | none =>
    rw [(ignoreAgree_none_iff R h1 h2 hA i).mp hL]
  | some o1 =>
    obtain ⟨o2, hR, hrel⟩ := ignoreAgree_lookup R h1 h2 hA i o1 hL
    rw [hR]
    cases o1 with
    | node n1 =>
      cases o2 with
      | node n2 => rfl
      | str s => exact absurd hrel (by simp [IgnoreAgreeObj])
      | arr s => exact absurd hrel (by simp [IgnoreAgreeObj])
      | map s => exact absurd hrel (by simp [IgnoreAgreeObj])
      | shape s => exact absurd hrel (by simp [IgnoreAgreeObj])
      | ndarr s => exact absurd hrel (by simp [IgnoreAgreeObj])
    | str s => rw [show ObjData.str s = o2 from hrel]
    | arr s => rw [show ObjData.arr s = o2 from hrel]
    | map s => rw [show ObjData.map s = o2 from hrel]
    | shape s => rw [show ObjData.shape s = o2 from hrel]
    | ndarr s => rw [show ObjData.ndarr s = o2 from hrel]

theorem ignoreAgree_anyEqual (R : Registry) (h1 h2 : Heap)
    (hA : IgnoreAgree R h1 h2) (a b : Val) :
    anyEqual h1 a b = anyEqual h2 a b := by
  cases a with
  | obj i =>
    cases b with
    | obj j =>
      simp only [anyEqual]
      by_cases hij : i = j
      · simp [hij]
      · rw [if_neg hij, if_neg hij]
        have hsi := ignoreAgree_str_lookup R h1 h2 hA i
        have hsj := ignoreAgree_str_lookup R h1 h2 hA j
        cases hL1 : h1[i]? with
        | none =>
          rw [hL1] at hsi
          cases hL2 : h2[i]? with
          | none => rfl
          | some o2 =>
            rw [hL2] at hsi
            cases o2 <;> simp at hsi <;> rfl
        | some o1 =>
          rw [hL1] at hsi
          cases o1 with
          | str s =>
            cases hL2 : h2[i]? with
            | none => rw [hL2] at hsi; simp at hsi
            | some o2 =>
              rw [hL2] at hsi
              cases o2 with
              | str t =>
                simp only [Option.some_inj] at hsi
                subst hsi
                -- i-side strings equal; now compare j side
                cases hL3 : h1[j]? with
                | none =>
                  cases hL4 : h2[j]? with
                  | none => rfl
                  | some o4 =>
                    rw [hL3, hL4] at hsj
                    cases o4 <;> simp at hsj <;> rfl
                | some o3 =>
                  rw [hL3] at hsj
                  cases o3 with
                  | str u =>
                    cases hL4 : h2[j]? with
                    | none => rw [hL4] at hsj; simp at hsj
                    | some o4 =>
                      rw [hL4] at hsj
                      cases o4 with
                      | str w =>
                        simp only [Option.some_inj] at hsj
                        subst hsj
                        rfl
                      | node n => simp at hsj
                      | arr x => simp at hsj
                      | map x => simp at hsj
                      | shape x => simp at hsj
                      | ndarr x => simp at hsj
                  | node n =>
                    cases hL4 : h2[j]? with
                    | none => rfl
                    | some o4 =>
                      rw [hL4] at hsj
                      cases o4 <;> try rfl
                      simp at hsj
                  | arr x =>
                    cases hL4 : h2[j]? with
                    | none => rfl
                    | some o4 =>
                      rw [hL4] at hsj
                      cases o4 <;> try rfl
                      simp at hsj
                  | map x =>
                    cases hL4 : h2[j]? with
                    | none => rfl
                    | some o4 =>
                      rw [hL4] at hsj
                      cases o4 <;> try rfl
                      simp at hsj
                  | shape x =>
                    cases hL4 : h2[j]? with
                    | none => rfl
                    | some o4 =>
                      rw [hL4] at hsj
                      cases o4 <;> try rfl
                      simp at hsj
                  | ndarr x =>
                    cases hL4 : h2[j]? with
                    | none => rfl
                    | some o4 =>
                      rw [hL4] at hsj
                      cases o4 <;> try rfl
                      simp at hsj
              | node n => simp at hsi
              | arr x => simp at hsi
              | map x => simp at hsi
              | shape x => simp at hsi
              | ndarr x => simp at hsi
          | node n =>
            cases hL2 : h2[i]? with
            | none => rfl
            | some o2 =>
              rw [hL2] at hsi
              cases o2 <;> try rfl
              simp at hsi
          | arr x =>
            cases hL2 : h2[i]? with
            | none => rfl
            | some o2 =>
              rw [hL2] at hsi
              cases o2 <;> try rfl
              simp at hsi
          | map x =>
            cases hL2 : h2[i]? with
            | none => rfl
            | some o2 =>
              rw [hL2] at hsi
              cases o2 <;> try rfl
              simp at hsi
          | shape x =>
            cases hL2 : h2[i]? with
            | none => rfl
            | some o2 =>
              rw [hL2] at hsi
              cases o2 <;> try rfl
              simp at hsi
          | ndarr x =>
            cases hL2 : h2[i]? with
            | none => rfl
            | some o2 =>
              rw [hL2] at hsi
              cases o2 <;> try rfl
              simp at hsi
    | none => rfl
    | vbool x => rfl
    | vint x => rfl
    | vfloat x => rfl
    | vdtype x => rfl
    | vdevice x => rfl
  | none => cases b <;> rfl
  | vbool x => cases b <;> rfl
  | vint x => cases b <;> rfl
  | vfloat x => cases b <;> rfl
  | vdtype x => cases b <;> rfl
  | vdevice x => cases b <;> rfl

theorem ignoreAgree_mapFind (R : Registry) (h1 h2 : Heap)
    (hA : IgnoreAgree R h1 h2) (entries : List (Val × Val)) (k : Val) :
    mapFind h1 entries k = mapFind h2 entries k := by
  induction entries with
  | nil => rfl
  | cons e rest ih =>
    unfold mapFind
    rw [ignoreAgree_anyEqual R h1 h2 hA e.1 k, ih]

theorem fieldsZip_agree : ∀ (F : List FieldInfo) (a1 a2 b1 b2 : List Val),
    ValsAgree F a1 a2 → ValsAgree F b1 b2 →
    ∃ t1 t2, fieldsZip F a1 b1 = some t1 ∧ fieldsZip F a2 b2 = some t2 ∧
      TriplesAgree t1 t2 := by
  intro F
  induction F with
  | nil =>
    intro a1 a2 b1 b2 ha hb
    cases a1 with
    | cons x xs => simp [ValsAgree] at ha
    | nil =>
      cases a2 with
      | cons x xs => simp [ValsAgree] at ha
      | nil =>
        cases b1 with
        | cons x xs => simp [ValsAgree] at hb
        | nil =>
          cases b2 with
          | cons x xs => simp [ValsAgree] at hb
          | nil => exact ⟨[], [], rfl, rfl, trivial⟩
  | cons fi fs ih =>
    intro a1 a2 b1 b2 ha hb
    cases a1 with
    | nil => simp [ValsAgree] at ha
    | cons x1 xs1 =>
      cases a2 with
      | nil => simp [ValsAgree] at ha
      | cons x2 xs2 =>
        cases b1 with
        | nil => simp [ValsAgree] at hb
        | cons y1 ys1 =>
          cases b2 with
          | nil => simp [ValsAgree] at hb
          | cons y2 ys2 =>
            obtain ⟨hx, ha2⟩ := ha
            obtain ⟨hy, hb2⟩ := hb
            obtain ⟨t1, t2, hz1, hz2, ht⟩ := ih xs1 xs2 ys1 ys2 ha2 hb2
            refine ⟨(fi, x1, y1) :: t1, (fi, x2, y2) :: t2, ?_, ?_, ?_⟩
            · simp [fieldsZip, hz1]
            · simp [fieldsZip, hz2]
            · refine ⟨rfl, ?_, ht⟩
              rcases hx with hig | hxe
              · exact Or.inl hig
              · rcases hy with hig | hye
                · exact Or.inl hig
                · exact Or.inr ⟨hxe, hye⟩

theorem ignoreAgree_lookup_shape (R : Registry) (h1 h2 : Heap)
    (hA : IgnoreAgree R h1 h2) (i : Nat) :
    (h1[i]? = Option.none ∧ h2[i]? = Option.none) ∨
    (∃ s, h1[i]? = some (.str s) ∧ h2[i]? = some (.str s)) ∨
    (∃ xs, h1[i]? = some (.arr xs) ∧ h2[i]? = some (.arr xs)) ∨
    (∃ m, h1[i]? = some (.map m) ∧ h2[i]? = some (.map m)) ∨
    (∃ d, h1[i]? = some (.shape d) ∧ h2[i]? = some (.shape d)) ∨
    (∃ nd, h1[i]? = some (.ndarr nd) ∧ h2[i]? = some (.ndarr nd)) ∨
    (∃ n1 n2, h1[i]? = some (.node n1) ∧ h2[i]? = some (.node n2) ∧
      n1.tyIdx = n2.tyIdx ∧ n1.reprBytes = n2.reprBytes ∧
      (match R[n1.tyIdx]? with
       | some tinfo =>
         match tinfo.extra with
         | some ex => ValsAgree ex.fields n1.fieldVals n2.fieldVals
         | Option.none => n1.fieldVals = n2.fieldVals
       | Option.none => n1.fieldVals = n2.fieldVals)) := by
  cases hL : h1[i]? with
  | none =>
    exact Or.inl ⟨rfl, (ignoreAgree_none_iff R h1 h2 hA i).mp hL⟩
  | some o1 =>
    obtain ⟨o2, hR, hrel⟩ := ignoreAgree_lookup R h1 h2 hA i o1 hL
    cases o1 with
    | str s =>
      refine Or.inr (Or.inl ⟨s, rfl, ?_⟩)
      rw [hR, show ObjData.str s = o2 from hrel]
    | arr xs =>
      refine Or.inr (Or.inr (Or.inl ⟨xs, rfl, ?_⟩))
      rw [hR, show ObjData.arr xs = o2 from hrel]
    | map m =>
      refine Or.inr (Or.inr (Or.inr (Or.inl ⟨m, rfl, ?_⟩)))
      rw [hR, show ObjData.map m = o2 from hrel]
    | shape d =>
      refine Or.inr (Or.inr (Or.inr (Or.inr (Or.inl ⟨d, rfl, ?_⟩))))
      rw [hR, show ObjData.shape d = o2 from hrel]
    | ndarr nd =>
      refine Or.inr (Or.inr (Or.inr (Or.inr (Or.inr (Or.inl ⟨nd, rfl, ?_⟩)))))
      rw [hR, show ObjData.ndarr nd = o2 from hrel]
    | node n1 =>
      cases o2 with
      | node n2 =>
        obtain ⟨h1t, h2t, h3t⟩ := hrel
        exact Or.inr (Or.inr (Or.inr (Or.inr (Or.inr (Or.inr ⟨n1, n2, rfl, hR, h1t, h2t, h3t⟩)))))
      | str s => exact absurd hrel (by simp [IgnoreAgreeObj])
      | arr s => exact absurd hrel (by simp [IgnoreAgreeObj])
      | map s => exact absurd hrel (by simp [IgnoreAgreeObj])
      | shape s => exact absurd hrel (by simp [IgnoreAgreeObj])
      | ndarr s => exact absurd hrel (by simp [IgnoreAgreeObj])

/-- The comparator cannot distinguish `IgnoreAgree`-related heaps: every
function of the handler returns identical results (field loops taken over
`TriplesAgree`-related triple lists). -/
theorem ignoreAgree_compare (R : Registry) (h1 h2 : Heap)
    (hA : IgnoreAgree R h1 h2) : ∀ f : Nat,
    (∀ l r st, CompareAny h1 R f l r st = CompareAny h2 R f l r st) ∧
    (∀ li ri, (∀ n1 n2, h1[li]? = some (.node n1) → h1[ri]? = some (.node n2) →
        n1.tyIdx = n2.tyIdx) →
      ∀ st, CompareObject h1 R f li ri st = CompareObject h2 R f li ri st) ∧
    (∀ t1 t2, TriplesAgree t1 t2 →
      ∀ st, CompareFields h1 R f t1 st = CompareFields h2 R f t2 st) ∧
    (∀ xs ys st, CompareArray h1 R f xs ys st = CompareArray h2 R f xs ys st) ∧
    (∀ i xs ys st, CompareArrayLoop h1 R f i xs ys st = CompareArrayLoop h2 R f i xs ys st) ∧
    (∀ m1 m2 st, CompareMap h1 R f m1 m2 st = CompareMap h2 R f m1 m2 st) ∧
    (∀ rem m1 m2 st, CompareMapLhsLoop h1 R f rem m1 m2 st = CompareMapLhsLoop h2 R f rem m1 m2 st) ∧
    (∀ rem m1 st, CompareMapRhsLoop h1 R f rem m1 st = CompareMapRhsLoop h2 R f rem m1 st) := by
  intro f
  induction f with
  | zero =>
    refine ⟨?_, ?_, ?_, ?_, ?_, ?_, ?_, ?_⟩ <;> intros <;> simp [CompareAny,
      CompareObject, CompareFields, CompareArray, CompareArrayLoop, CompareMap,
      CompareMapLhsLoop, CompareMapRhsLoop]
  | succ f ih =>
    obtain ⟨ihAny, ihObj, ihFld, ihArr, ihArrL, ihMap, ihMapL, ihMapR⟩ := ih
    have hTy := ignoreAgree_typeIndex R h1 h2 hA
    have hFind := ignoreAgree_mapFind R h1 h2 hA
    refine ⟨?_, ?_, ?_, ?_, ?_, ?_, ?_, ?_⟩
    · -- CompareAny
      intro l r st
      simp only [CompareAny, hTy]
      cases hTl : typeIndexOf? h2 l with
      | none => rfl
      | some til =>
        cases hTr : typeIndexOf? h2 r with
        | none => rfl
        | some tir =>
          by_cases he : til = tir
          · subst he
            simp only [ne_eq, not_true_eq_false, if_false]
            by_cases hlt : til < kStaticObjectBegin
            · simp [hlt]
            · simp only [if_neg hlt]
              cases l with
              | obj li =>
                cases r with
                | obj ri =>
                  rcases ignoreAgree_lookup_shape R h1 h2 hA li with
                    ⟨hx1, hx2⟩ | ⟨s1, hx1, hx2⟩ | ⟨xs1, hx1, hx2⟩ | ⟨m1, hx1, hx2⟩ |
                    ⟨d1, hx1, hx2⟩ | ⟨nd1, hx1, hx2⟩ | ⟨na1, na2, hx1, hx2, hty, _, _⟩ <;>
                  rcases ignoreAgree_lookup_shape R h1 h2 hA ri with
                    ⟨hy1, hy2⟩ | ⟨s2, hy1, hy2⟩ | ⟨ys2, hy1, hy2⟩ | ⟨q2, hy1, hy2⟩ |
                    ⟨e2, hy1, hy2⟩ | ⟨ne2, hy1, hy2⟩ | ⟨nb1, nb2, hy1, hy2, htyb, _, _⟩ <;>
                  simp only [hx1, hx2, hy1, hy2] <;>
                  first
                    | rfl
                    | exact ihArr _ _ st
                    | exact ihMap _ _ st
                    | (refine ihObj li ri ?_ st
                       simp only [typeIndexOf?, hx2, Option.some.injEq] at hTl
                       simp only [typeIndexOf?, hy2, Option.some.injEq] at hTr
                       intro n1 n2 hn1 hn2
                       rw [hx1] at hn1
                       rw [hy1] at hn2
                       simp only [Option.some.injEq, ObjData.node.injEq] at hn1 hn2
                       subst hn1
                       subst hn2
                       omega)
                | none => rfl
                | vbool b => rfl
                | vint i => rfl
                | vfloat q => rfl
                | vdtype d => rfl
                | vdevice d => rfl
              | none => cases r <;> rfl
              | vbool b => cases r <;> rfl
              | vint i => cases r <;> rfl
              | vfloat q => cases r <;> rfl
              | vdtype d => cases r <;> rfl
              | vdevice d => cases r <;> rfl
          · simp [he]
    · -- CompareObject
      intro li ri hS st
      simp only [CompareObject]
      rcases ignoreAgree_lookup_shape R h1 h2 hA li with
        ⟨hx1, hx2⟩ | ⟨s1, hx1, hx2⟩ | ⟨xs1, hx1, hx2⟩ | ⟨m1, hx1, hx2⟩ |
        ⟨d1, hx1, hx2⟩ | ⟨nd1, hx1, hx2⟩ | ⟨na1, na2, hx1, hx2, hty, hrepr, hvals⟩ <;>
      rcases ignoreAgree_lookup_shape R h1 h2 hA ri with
        ⟨hy1, hy2⟩ | ⟨s2, hy1, hy2⟩ | ⟨ys2, hy1, hy2⟩ | ⟨q2, hy1, hy2⟩ |
        ⟨e2, hy1, hy2⟩ | ⟨ne2, hy1, hy2⟩ | ⟨nb1, nb2, hy1, hy2, htyb, hreprb, hvalsb⟩ <;>
      simp only [hx1, hx2, hy1, hy2] <;>
      try rfl
      -- remaining: the node/node case
      rw [← hty]
      cases hreg : R[na1.tyIdx]? with
      | none => rfl
      | some tinfo =>
        dsimp only
        cases hex : tinfo.extra with
        | none => rfl
        | some ex =>
          dsimp only
          simp only [hreg, hex] at hvals
          by_cases hk1 : ex.kind = SEqHashKind.unsupported ∨ ex.kind = SEqHashKind.uniqueInstance
          · rw [if_pos hk1, if_pos hk1]
          · rw [if_neg hk1, if_neg hk1]
            by_cases hk2 : ex.kind = SEqHashKind.constTreeNode ∧ li = ri
            · rw [if_pos hk2, if_pos hk2]
            · rw [if_neg hk2, if_neg hk2]
              cases hmfind : (if ex.kind = SEqHashKind.dagNode ∨ ex.kind = SEqHashKind.freeVar
                  then assocFind st.eqMapLhs li else Option.none) with
              | some m => rfl
              | none =>
                dsimp only
                by_cases hk3 : (ex.kind = SEqHashKind.dagNode ∨ ex.kind = SEqHashKind.freeVar) ∧
                    (assocFind st.eqMapRhs ri).isSome = true
                · rw [if_pos hk3, if_pos hk3]
                · rw [if_neg hk3, if_neg hk3]
                  by_cases hk4 : ex.kind = SEqHashKind.freeVar
                  · rw [if_pos hk4, if_pos hk4]
                  · rw [if_neg hk4, if_neg hk4]
                    -- field comparison: zip the refetched nodes, then the field-loop IH
                    have hSt : na1.tyIdx = nb1.tyIdx := hS na1 nb1 hx1 hy1
                    rw [← hSt] at hvalsb
                    simp only [hreg, hex] at hvalsb
                    obtain ⟨t1, t2, hz1, hz2, ht⟩ :=
                      fieldsZip_agree ex.fields na1.fieldVals na2.fieldVals
                        nb1.fieldVals nb2.fieldVals hvals hvalsb
                    simp only [hz1, hz2, ihFld t1 t2 ht st]
    · -- CompareFields
      intro t1 t2 ht st
      cases t1 with
      | nil =>
        cases t2 with
        | nil => simp only [CompareFields]
        | cons p2 r2 => simp [TriplesAgree] at ht
      | cons p1 r1 =>
        obtain ⟨fi, a1, b1⟩ := p1
        cases t2 with
        | nil => simp [TriplesAgree] at ht
        | cons p2 r2 =>
          obtain ⟨fi2, a2, b2⟩ := p2
          obtain ⟨hfi, hvp, hrest⟩ := ht
          subst hfi
          simp only [CompareFields]
          by_cases hig : fi.seqHashIgnore = true
          · rw [if_pos hig, if_pos hig]
            exact ihFld r1 r2 hrest st
          · rw [if_neg hig, if_neg hig]
            rcases hvp with hig2 | ⟨ha, hb⟩
            · exact absurd hig2 hig
            · subst ha
              subst hb
              simp only [ihAny, ihFld r1 r2 hrest]
    · -- CompareArray
      intro xs ys st
      simp only [CompareArray, ihArrL]
    · -- CompareArrayLoop
      intro i xs ys st
      cases xs with
      | nil =>
        cases ys with
        | nil => simp only [CompareArrayLoop]
        | cons y ys => simp only [CompareArrayLoop]
      | cons x xs =>
        cases ys with
        | nil => simp only [CompareArrayLoop]
        | cons y ys => simp only [CompareArrayLoop, ihAny, ihArrL]
    · -- CompareMap
      intro m1 m2 st
      simp only [CompareMap, ihMapL]
    · -- CompareMapLhsLoop
      intro rem m1 m2 st
      cases rem with
      | nil => simp only [CompareMapLhsLoop, ihMapR]
      | cons kv rest => simp only [CompareMapLhsLoop, hFind, ihAny, ihMapL]
    · -- CompareMapRhsLoop
      intro rem m1 st
      cases rem with
      | nil => simp only [CompareMapRhsLoop]
      | cons kv rest => simp only [CompareMapRhsLoop, hFind, ihMapR]

/-- C7: changing the value of a field whose `FieldInfo` carries the
`SEqHashIgnore` flag never changes the result of `equal` or
`first_mismatch`: on any two heaps that differ only in
`SEqHashIgnore`-flagged field slots, both entry points return identical
outcomes for every pair of operands, every fuel, and both option flags. -/
theorem C7_seqhash_ignore_opaque (R : Registry) (h1 h2 : Heap)
    (hA : IgnoreAgree R h1 h2) (fuel : Nat) (lhs rhs : Val) (mfv snc : Bool) :
    StructuralEqual.Equal h1 R fuel lhs rhs mfv snc
      = StructuralEqual.Equal h2 R fuel lhs rhs mfv snc ∧
    StructuralEqual.GetFirstMismatch h1 R fuel lhs rhs mfv snc
      = StructuralEqual.GetFirstMismatch h2 R fuel lhs rhs mfv snc := by
  have hsim := (ignoreAgree_compare R h1 h2 hA fuel).1
  constructor
  · simp only [StructuralEqual.Equal, hsim]
  · simp only [StructuralEqual.GetFirstMismatch, hsim]

/-- Witness for C7 on a concrete instance: two one-node heaps differing in an
ignored slot (`1` vs `2`) satisfy the agreement relation, and both entry
points coincide on them. -/
theorem C7_seqhash_ignore_opaque_witness :
    IgnoreAgree regC7 heapC7a heapC7b ∧
    (StructuralEqual.Equal heapC7a regC7 9 (Val.obj 0) (Val.obj 0) false false
       = StructuralEqual.Equal heapC7b regC7 9 (Val.obj 0) (Val.obj 0) false false ∧
     StructuralEqual.GetFirstMismatch heapC7a regC7 9 (Val.obj 0) (Val.obj 0) false false
       = StructuralEqual.GetFirstMismatch heapC7b regC7 9 (Val.obj 0) (Val.obj 0) false false) := by
  have hA : IgnoreAgree regC7 heapC7a heapC7b := by
    refine ⟨rfl, ?_⟩
    intro i o1 o2 h1i h2i
    cases i with
    | zero =>
      have h1e : (some (ObjData.node ⟨0, Option.none, [Val.vint 1, Val.vint 7]⟩)
          : Option ObjData) = some o1 := h1i
      have h2e : (some (ObjData.node ⟨0, Option.none, [Val.vint 2, Val.vint 7]⟩)
          : Option ObjData) = some o2 := h2i
      cases h1e
      cases h2e
      exact ⟨rfl, rfl, Or.inl rfl, Or.inr rfl, trivial⟩
    | succ j =>
      exact Option.noConfusion h1i
  exact ⟨hA, C7_seqhash_ignore_opaque regC7 heapC7a heapC7b hA 9
    (Val.obj 0) (Val.obj 0) false false⟩

/-! ### Claim C10: tracing does not change the boolean outcome -/

theorem arrayLoop_len_ne (h : Heap) (R : Registry) :
    ∀ (f i : Nat) (xs ys : List Val) (st : EqState) (b : Bool) (st' : EqState),
      xs.length ≠ ys.length → CompareArrayLoop h R f i xs ys st = .ok (b, st') →
      b = false := by
  intro f
  induction f with
  | zero => intro i xs ys st b st' hne hc; simp [CompareArrayLoop] at hc
  | succ f ih =>
    intro i xs ys st b st' hne hc
    cases xs with
    | nil =>
      cases ys with
      | nil => exact absurd rfl hne
      | cons y ys =>
        simp only [CompareArrayLoop, Res.ok.injEq, Prod.mk.injEq] at hc
        exact hc.1.symm
    | cons x xs =>
      cases ys with
      | nil =>
        simp only [CompareArrayLoop, Res.ok.injEq, Prod.mk.injEq] at hc
        exact hc.1.symm
      | cons y ys =>
        simp only [CompareArrayLoop] at hc
        cases hsub : CompareAny h R f x y st with
        | ok p =>
          obtain ⟨bb, st1⟩ := p
          simp only [hsub] at hc
          cases bb with
          | true =>
            refine ih (i + 1) xs ys st1 b st' (fun hl => hne ?_) hc
            simp [hl]
          | false =>
            simp only [Res.ok.injEq, Prod.mk.injEq] at hc
            exact hc.1.symm
        | fatal m => simp [hsub] at hc
        | ub => simp [hsub] at hc
        | noFuel => simp [hsub] at hc

theorem mapRhsLoop_no_true (h : Heap) (R : Registry) :
    ∀ (f : Nat) (rem m1 : List (Val × Val)) (st : EqState) (b : Bool) (st' : EqState),
      CompareMapRhsLoop h R f rem m1 st = .ok (b, st') → b = false := by
  intro f
  induction f with
  | zero => intro rem m1 st b st' hc; simp [CompareMapRhsLoop] at hc
  | succ f ih =>
    intro rem m1 st b st' hc
    cases rem with
    | nil =>
      simp only [CompareMapRhsLoop, Res.ok.injEq, Prod.mk.injEq] at hc
      exact hc.1.symm
    | cons kv rest =>
      obtain ⟨k, v⟩ := kv
      simp only [CompareMapRhsLoop] at hc
      cases hf : mapFind h m1 (mapRhsToLhs st k) with
      | none =>
        simp only [hf, Res.ok.injEq, Prod.mk.injEq] at hc
        exact hc.1.symm
      | some w =>
        simp only [hf] at hc
        exact ih rest m1 st b st' hc

theorem mapLhsLoop_len_ne (h : Heap) (R : Registry) :
    ∀ (f : Nat) (rem m1 m2 : List (Val × Val)) (st : EqState) (b : Bool) (st' : EqState),
      m1.length ≠ m2.length → CompareMapLhsLoop h R f rem m1 m2 st = .ok (b, st') →
      b = false := by
  intro f
  induction f with
  | zero => intro rem m1 m2 st b st' hne hc; simp [CompareMapLhsLoop] at hc
  | succ f ih =>
    intro rem m1 m2 st b st' hne hc
    cases rem with
    | nil =>
      simp only [CompareMapLhsLoop] at hc
      rw [if_neg hne] at hc
      exact mapRhsLoop_no_true h R f m2 m1 st b st' hc
    | cons kv rest =>
      obtain ⟨k, v⟩ := kv
      simp only [CompareMapLhsLoop] at hc
      cases hf : mapFind h m2 (mapLhsToRhs st k) with
      | none =>
        simp only [hf, Res.ok.injEq, Prod.mk.injEq] at hc
        exact hc.1.symm
      | some v2 =>
        simp only [hf] at hc
        cases hsub : CompareAny h R f v v2 st with
        | ok p =>
          obtain ⟨bb, st1⟩ := p
          simp only [hsub] at hc
          cases bb with
          | true => exact ih rest m1 m2 st1 b st' hne hc
          | false =>
            simp only [Res.ok.injEq, Prod.mk.injEq] at hc
            exact hc.1.symm
        | fatal m => simp [hsub] at hc
        | ub => simp [hsub] at hc
        | noFuel => simp [hsub] at hc

theorem compareNDArray_untraced (li ri : Nat) (a c : NDArrayData)
    (stt stu : EqState) (hsnc : stt.skipNDArrayContent = stu.skipNDArrayContent)
    (b : Bool) (stt' : EqState) (hc : CompareNDArray li ri a c stt = .ok (b, stt')) :
    CompareNDArray li ri a c stu = .ok (b, stu) ∧ stt' = stt := by
  simp only [CompareNDArray] at hc ⊢
  rw [hsnc] at hc
  by_cases h1 : li = ri
  · rw [if_pos h1] at hc ⊢
    simp only [Res.ok.injEq, Prod.mk.injEq] at hc
    exact ⟨by rw [hc.1], hc.2.symm⟩
  · rw [if_neg h1] at hc ⊢
    by_cases h2 : a.shape.length ≠ c.shape.length
    · rw [if_pos h2] at hc ⊢
      simp only [Res.ok.injEq, Prod.mk.injEq] at hc
      exact ⟨by rw [hc.1], hc.2.symm⟩
    · rw [if_neg h2] at hc ⊢
      by_cases h3 : a.shape ≠ c.shape
      · rw [if_pos h3] at hc ⊢
        simp only [Res.ok.injEq, Prod.mk.injEq] at hc
        exact ⟨by rw [hc.1], hc.2.symm⟩
      · rw [if_neg h3] at hc ⊢
        by_cases h4 : a.dtype ≠ c.dtype
        · rw [if_pos h4] at hc ⊢
          simp only [Res.ok.injEq, Prod.mk.injEq] at hc
          exact ⟨by rw [hc.1], hc.2.symm⟩
        · rw [if_neg h4] at hc ⊢
          by_cases h5 : (!stu.skipNDArrayContent) = true
          · rw [if_pos h5] at hc ⊢
            by_cases h6 : a.deviceType ≠ kDLCPU
            · rw [if_pos h6] at hc
              exact absurd hc (by simp)
            · rw [if_neg h6] at hc ⊢
              by_cases h7 : c.deviceType ≠ kDLCPU
              · rw [if_pos h7] at hc
                exact absurd hc (by simp)
              · rw [if_neg h7] at hc ⊢
                by_cases h8 : (!a.contiguous) = true
                · rw [if_pos h8] at hc
                  exact absurd hc (by simp)
                · rw [if_neg h8] at hc ⊢
                  by_cases h9 : (!c.contiguous) = true
                  · rw [if_pos h9] at hc
                    exact absurd hc (by simp)
                  · rw [if_neg h9] at hc ⊢
                    simp only [Res.ok.injEq, Prod.mk.injEq] at hc
                    exact ⟨by rw [hc.1], hc.2.symm⟩
          · rw [if_neg h5] at hc ⊢
            simp only [Res.ok.injEq, Prod.mk.injEq] at hc
            exact ⟨by rw [hc.1], hc.2.symm⟩

theorem finishObject_untraced (k : SEqHashKind) (li ri : Nat) (bb : Bool)
    (stt stu : EqState) (hS : TraceSync stt stu) (b : Bool) (stt' : EqState)
    (hc : finishObject k li ri bb stt = .ok (b, stt')) :
    ∃ stu', finishObject k li ri bb stu = .ok (b, stu') ∧
      (b = true → TraceSync stt' stu') := by
  obtain ⟨a1, a2, a3, a4, a5, a6⟩ := hS
  simp only [finishObject] at hc ⊢
  by_cases hcond : bb = true ∧ (k = SEqHashKind.dagNode ∨ k = SEqHashKind.freeVar)
  · rw [if_pos hcond] at hc ⊢
    simp only [Res.ok.injEq, Prod.mk.injEq] at hc
    obtain ⟨hb, hst⟩ := hc
    subst hb
    subst hst
    exact ⟨_, rfl, fun _ => ⟨a1, a2, by simp [a3, a4], by simp [a3, a4], a5, a6⟩⟩
  · rw [if_neg hcond] at hc ⊢
    simp only [Res.ok.injEq, Prod.mk.injEq] at hc
    obtain ⟨hb, hst⟩ := hc
    subst hb
    subst hst
    exact ⟨stu, rfl, fun _ => ⟨a1, a2, a3, a4, a5, a6⟩⟩

theorem mapLhsToRhs_sync (stt stu : EqState) (hS : TraceSync stt stu) (k : Val) :
    mapLhsToRhs stt k = mapLhsToRhs stu k := by
  simp only [mapLhsToRhs, hS.2.2.1]

theorem mapRhsToLhs_sync (stt stu : EqState) (hS : TraceSync stt stu) (k : Val) :
    mapRhsToLhs stt k = mapRhsToLhs stu k := by
  simp only [mapRhsToLhs, hS.2.2.2.1]

/-- Traced/untraced simulation: whenever a traced run of any comparator
function returns normally, the untraced run from a `TraceSync`-related state
and the same fuel returns the same boolean, and on success the states remain
`TraceSync`-related. -/
theorem trace_sim (h : Heap) (R : Registry) : ∀ f : Nat,
    (∀ l r stt stu b stt', TraceSync stt stu →
      CompareAny h R f l r stt = .ok (b, stt') →
      ∃ stu', CompareAny h R f l r stu = .ok (b, stu') ∧
        (b = true → TraceSync stt' stu')) ∧
    (∀ li ri stt stu b stt', TraceSync stt stu →
      CompareObject h R f li ri stt = .ok (b, stt') →
      ∃ stu', CompareObject h R f li ri stu = .ok (b, stu') ∧
        (b = true → TraceSync stt' stu')) ∧
    (∀ t stt stu b stt', TraceSync stt stu →
      CompareFields h R f t stt = .ok (b, stt') →
      ∃ stu', CompareFields h R f t stu = .ok (b, stu') ∧
        (b = true → TraceSync stt' stu')) ∧
    (∀ xs ys stt stu b stt', TraceSync stt stu →
      CompareArray h R f xs ys stt = .ok (b, stt') →
      ∃ stu', CompareArray h R f xs ys stu = .ok (b, stu') ∧
        (b = true → TraceSync stt' stu')) ∧
    (∀ i xs ys stt stu b stt', TraceSync stt stu →
      CompareArrayLoop h R f i xs ys stt = .ok (b, stt') →
      ∃ stu', CompareArrayLoop h R f i xs ys stu = .ok (b, stu') ∧
        (b = true → TraceSync stt' stu')) ∧
    (∀ m1 m2 stt stu b stt', TraceSync stt stu →
      CompareMap h R f m1 m2 stt = .ok (b, stt') →
      ∃ stu', CompareMap h R f m1 m2 stu = .ok (b, stu') ∧
        (b = true → TraceSync stt' stu')) ∧
    (∀ rem m1 m2 stt stu b stt', TraceSync stt stu →
      CompareMapLhsLoop h R f rem m1 m2 stt = .ok (b, stt') →
      ∃ stu', CompareMapLhsLoop h R f rem m1 m2 stu = .ok (b, stu') ∧
        (b = true → TraceSync stt' stu')) ∧
    (∀ rem m1 stt stu b stt', TraceSync stt stu →
      CompareMapRhsLoop h R f rem m1 stt = .ok (b, stt') →
      ∃ stu', CompareMapRhsLoop h R f rem m1 stu = .ok (b, stu') ∧
        (b = true → TraceSync stt' stu')) := by
  intro f
  induction f with
  | zero =>
    refine ⟨?_, ?_, ?_, ?_, ?_, ?_, ?_, ?_⟩ <;> intros <;>
      (rename_i hc
       simp [CompareAny, CompareObject, CompareFields,
         CompareArray, CompareArrayLoop, CompareMap, CompareMapLhsLoop,
         CompareMapRhsLoop] at hc)
  | succ f ih =>
    obtain ⟨ihAny, ihObj, ihFld, ihArr, ihArrL, ihMap, ihMapL, ihMapR⟩ := ih
    refine ⟨?_, ?_, ?_, ?_, ?_, ?_, ?_, ?_⟩
    · -- CompareAny
      intro l r stt stu b stt' hS hc
      simp only [CompareAny] at hc ⊢
      cases hT1 : typeIndexOf? h l with
      | none => simp [hT1] at hc
      | some til =>
        cases hT2 : typeIndexOf? h r with
        | none => simp [hT1, hT2] at hc
        | some tir =>
          simp only [hT1, hT2] at hc
          dsimp only
          by_cases he : til = tir
          · subst he
            rw [if_neg (by simp)] at hc ⊢
            by_cases hlt : til < kStaticObjectBegin
            · rw [if_pos hlt] at hc ⊢
              simp only [Res.ok.injEq, Prod.mk.injEq] at hc
              obtain ⟨hb, hst⟩ := hc
              subst hb
              subst hst
              exact ⟨stu, rfl, fun _ => hS⟩
            · rw [if_neg hlt] at hc ⊢
              cases l with
              | obj li =>
                cases r with
                | obj ri =>
                  dsimp only at hc ⊢
                  cases hH1 : h[li]? with
                  | none => simp [hH1] at hc
                  | some o1 =>
                    cases hH2 : h[ri]? with
                    | none => cases o1 <;> simp [hH1, hH2] at hc
                    | some o2 =>
                      cases o1 <;> cases o2 <;> simp only [hH1, hH2] at hc ⊢ <;>
                      first
                        | exact Res.noConfusion hc
                        | (simp only [Res.ok.injEq, Prod.mk.injEq] at hc
                           obtain ⟨hb, hst⟩ := hc
                           subst hb
                           subst hst
                           exact ⟨stu, rfl, fun _ => hS⟩)
                        | exact ihArr _ _ _ _ _ _ hS hc
                        | exact ihMap _ _ _ _ _ _ hS hc
                        | exact ihObj _ _ _ _ _ _ hS hc
                        | (obtain ⟨hu, he2⟩ :=
                             compareNDArray_untraced li ri _ _ stt stu hS.2.1 b stt' hc
                           subst he2
                           exact ⟨stu, hu, fun _ => hS⟩)
                | none => simp at hc
                | vbool p => simp at hc
                | vint p => simp at hc
                | vfloat p => simp at hc
                | vdtype p => simp at hc
                | vdevice p => simp at hc
              | none => simp at hc
              | vbool p => simp at hc
              | vint p => simp at hc
              | vfloat p => simp at hc
              | vdtype p => simp at hc
              | vdevice p => simp at hc
          · rw [if_pos he] at hc ⊢
            simp only [Res.ok.injEq, Prod.mk.injEq] at hc
            obtain ⟨hb, hst⟩ := hc
            subst hb
            subst hst
            exact ⟨stu, rfl, fun hh => nomatch hh⟩
    · -- CompareObject
      intro li ri stt stu b stt' hS hc
      simp only [CompareObject] at hc ⊢
      cases hH1 : h[li]? with
      | none => simp [hH1] at hc
      | some o1 =>
        cases o1 with
        | str s => simp [hH1] at hc
        | arr xs => simp [hH1] at hc
        | map m => simp [hH1] at hc
        | shape d => simp [hH1] at hc
        | ndarr nd => simp [hH1] at hc
        | node n1 =>
          cases hH2 : h[ri]? with
          | none => simp [hH1, hH2] at hc
          | some o2 =>
            cases o2 with
            | str s => simp [hH1, hH2] at hc
            | arr xs => simp [hH1, hH2] at hc
            | map m => simp [hH1, hH2] at hc
            | shape d => simp [hH1, hH2] at hc
            | ndarr nd => simp [hH1, hH2] at hc
            | node n2 =>
              simp only [hH1, hH2] at hc ⊢
              cases hreg : R[n1.tyIdx]? with
              | none => simp [hreg] at hc
              | some tinfo =>
                simp only [hreg] at hc
                dsimp only
                cases hex : tinfo.extra with
                | none =>
                  simp only [hex, Res.ok.injEq, Prod.mk.injEq] at hc
                  dsimp only
                  obtain ⟨hb, hst⟩ := hc
                  subst hb
                  subst hst
                  exact ⟨stu, rfl, fun _ => hS⟩
                | some ex =>
                  simp only [hex] at hc
                  dsimp only
                  by_cases hk1 : ex.kind = SEqHashKind.unsupported ∨
                      ex.kind = SEqHashKind.uniqueInstance
                  · rw [if_pos hk1] at hc ⊢
                    simp only [Res.ok.injEq, Prod.mk.injEq] at hc
                    obtain ⟨hb, hst⟩ := hc
                    subst hb
                    subst hst
                    exact ⟨stu, rfl, fun _ => hS⟩
                  · rw [if_neg hk1] at hc ⊢
                    by_cases hk2 : ex.kind = SEqHashKind.constTreeNode ∧ li = ri
                    · rw [if_pos hk2] at hc ⊢
                      simp only [Res.ok.injEq, Prod.mk.injEq] at hc
                      obtain ⟨hb, hst⟩ := hc
                      subst hb
                      subst hst
                      exact ⟨stu, rfl, fun _ => hS⟩
                    · rw [if_neg hk2] at hc ⊢
                      rw [← hS.2.2.1, ← hS.2.2.2.1]
                      cases hm : (if ex.kind = SEqHashKind.dagNode ∨
                          ex.kind = SEqHashKind.freeVar
                          then assocFind stt.eqMapLhs li else Option.none) with
                      | some m =>
                        simp only [hm, Res.ok.injEq, Prod.mk.injEq] at hc ⊢
                        obtain ⟨hb, hst⟩ := hc
                        subst hb
                        subst hst
                        exact ⟨stu, ⟨rfl, rfl⟩, fun _ => hS⟩
                      | none =>
                        simp only [hm] at hc ⊢
                        by_cases hk3 : (ex.kind = SEqHashKind.dagNode ∨
                            ex.kind = SEqHashKind.freeVar) ∧
                            (assocFind stt.eqMapRhs ri).isSome = true
                        · rw [if_pos hk3] at hc ⊢
                          simp only [Res.ok.injEq, Prod.mk.injEq] at hc
                          obtain ⟨hb, hst⟩ := hc
                          subst hb
                          subst hst
                          exact ⟨stu, rfl, fun hh => nomatch hh⟩
                        · rw [if_neg hk3] at hc ⊢
                          by_cases hk4 : ex.kind = SEqHashKind.freeVar
                          · rw [if_pos hk4] at hc ⊢
                            rw [← hS.1]
                            exact finishObject_untraced ex.kind li ri
                              (li == ri || stt.mapFreeVars) stt stu hS b stt' hc
                          · rw [if_neg hk4] at hc ⊢
                            cases hz : fieldsZip ex.fields n1.fieldVals n2.fieldVals with
                            | none => simp [hz] at hc
                            | some triples =>
                              simp only [hz] at hc ⊢
                              cases hsub : CompareFields h R f triples stt with
                              | ok p =>
                                obtain ⟨bb, st1⟩ := p
                                simp only [hsub] at hc
                                obtain ⟨stu1, hu, hsy⟩ :=
                                  ihFld triples stt stu bb st1 hS hsub
                                simp only [hu]
                                cases bb with
                                | true =>
                                  exact finishObject_untraced ex.kind li ri true
                                    st1 stu1 (hsy rfl) b stt' hc
                                | false =>
                                  simp only [finishObject] at hc ⊢
                                  rw [if_neg (fun hh => Bool.noConfusion hh.1)] at hc ⊢
                                  simp only [Res.ok.injEq, Prod.mk.injEq] at hc
                                  obtain ⟨hb, hst⟩ := hc
                                  subst hb
                                  subst hst
                                  exact ⟨stu1, rfl, fun hh => nomatch hh⟩
                              | fatal m => simp [hsub] at hc
                              | ub => simp [hsub] at hc
                              | noFuel => simp [hsub] at hc
    · -- CompareFields
      intro t stt stu b stt' hS hc
      cases t with
      | nil =>
        simp only [CompareFields, Res.ok.injEq, Prod.mk.injEq] at hc ⊢
        obtain ⟨hb, hst⟩ := hc
        subst hb
        subst hst
        exact ⟨stu, ⟨rfl, rfl⟩, fun _ => hS⟩
      | cons p rest =>
        obtain ⟨fi, lv, rv⟩ := p
        simp only [CompareFields] at hc ⊢
        by_cases hig : fi.seqHashIgnore = true
        · rw [if_pos hig] at hc ⊢
          exact ihFld rest stt stu b stt' hS hc
        · rw [if_neg hig] at hc ⊢
          by_cases hdef : fi.seqHashDef = true
          · rw [if_pos hdef] at hc ⊢
            cases hsub : CompareAny h R f lv rv { stt with mapFreeVars := true } with
            | ok p2 =>
              obtain ⟨bb, st1⟩ := p2
              have hS2 : TraceSync { stt with mapFreeVars := true }
                  { stu with mapFreeVars := true } :=
                ⟨rfl, hS.2.1, hS.2.2.1, hS.2.2.2.1, hS.2.2.2.2.1, hS.2.2.2.2.2⟩
              obtain ⟨stu1, hu, hsy⟩ := ihAny lv rv _ _ bb st1 hS2 hsub
              simp only [hsub] at hc
              simp only [hu]
              cases bb with
              | true =>
                have hsy2 : TraceSync { st1 with mapFreeVars := stt.mapFreeVars }
                    { stu1 with mapFreeVars := stu.mapFreeVars } := by
                  obtain ⟨a1, a2, a3, a4, a5, a6⟩ := hsy rfl
                  exact ⟨hS.1, a2, a3, a4, a5, a6⟩
                exact ihFld rest _ _ b stt' hsy2 hc
              | false =>
                simp only [Res.ok.injEq, Prod.mk.injEq] at hc ⊢
                obtain ⟨hb, hst⟩ := hc
                subst hb
                subst hst
                exact ⟨_, ⟨rfl, rfl⟩, fun hh => nomatch hh⟩
            | fatal m => simp [hsub] at hc
            | ub => simp [hsub] at hc
            | noFuel => simp [hsub] at hc
          · rw [if_neg hdef] at hc ⊢
            cases hsub : CompareAny h R f lv rv stt with
            | ok p2 =>
              obtain ⟨bb, st1⟩ := p2
              obtain ⟨stu1, hu, hsy⟩ := ihAny lv rv _ _ bb st1 hS hsub
              simp only [hsub] at hc
              simp only [hu]
              cases bb with
              | true => exact ihFld rest _ _ b stt' (hsy rfl) hc
              | false =>
                simp only [Res.ok.injEq, Prod.mk.injEq] at hc ⊢
                obtain ⟨hb, hst⟩ := hc
                subst hb
                subst hst
                exact ⟨_, ⟨rfl, rfl⟩, fun hh => nomatch hh⟩
            | fatal m => simp [hsub] at hc
            | ub => simp [hsub] at hc
            | noFuel => simp [hsub] at hc
    · -- CompareArray
      intro xs ys stt stu b stt' hS hc
      simp only [CompareArray] at hc ⊢
      rw [if_neg (fun hh => by rw [hS.2.2.2.2.1] at hh; exact absurd hh.2 (by simp))] at hc
      by_cases hlen : xs.length = ys.length
      · rw [if_neg (fun hh => hh.1 hlen)]
        exact ihArrL 0 xs ys stt stu b stt' hS hc
      · rw [if_pos ⟨hlen, hS.2.2.2.2.2⟩]
        have hb := arrayLoop_len_ne h R f 0 xs ys stt b stt' hlen hc
        subst hb
        exact ⟨stu, rfl, fun hh => nomatch hh⟩
    · -- CompareArrayLoop
      intro i xs ys stt stu b stt' hS hc
      cases xs with
      | nil =>
        cases ys with
        | nil =>
          simp only [CompareArrayLoop, Res.ok.injEq, Prod.mk.injEq] at hc ⊢
          obtain ⟨hb, hst⟩ := hc
          subst hb
          subst hst
          exact ⟨stu, ⟨rfl, rfl⟩, fun _ => hS⟩
        | cons y ys =>
          simp only [CompareArrayLoop, Res.ok.injEq, Prod.mk.injEq] at hc ⊢
          obtain ⟨hb, hst⟩ := hc
          subst hb
          subst hst
          exact ⟨_, ⟨rfl, rfl⟩, fun hh => nomatch hh⟩
      | cons x xs =>
        cases ys with
        | nil =>
          simp only [CompareArrayLoop, Res.ok.injEq, Prod.mk.injEq] at hc ⊢
          obtain ⟨hb, hst⟩ := hc
          subst hb
          subst hst
          exact ⟨_, ⟨rfl, rfl⟩, fun hh => nomatch hh⟩
        | cons y ys =>
          simp only [CompareArrayLoop] at hc ⊢
          cases hsub : CompareAny h R f x y stt with
          | ok p =>
            obtain ⟨bb, st1⟩ := p
            obtain ⟨stu1, hu, hsy⟩ := ihAny x y _ _ bb st1 hS hsub
            simp only [hsub] at hc
            simp only [hu]
            cases bb with
            | true => exact ihArrL (i + 1) xs ys _ _ b stt' (hsy rfl) hc
            | false =>
              simp only [Res.ok.injEq, Prod.mk.injEq] at hc ⊢
              obtain ⟨hb, hst⟩ := hc
              subst hb
              subst hst
              exact ⟨_, ⟨rfl, rfl⟩, fun hh => nomatch hh⟩
          | fatal m => simp [hsub] at hc
          | ub => simp [hsub] at hc
          | noFuel => simp [hsub] at hc
    · -- CompareMap
      intro m1 m2 stt stu b stt' hS hc
      simp only [CompareMap] at hc ⊢
      rw [if_neg (fun hh => by rw [hS.2.2.2.2.1] at hh; exact absurd hh.2 (by simp))] at hc
      by_cases hlen : m1.length = m2.length
      · rw [if_neg (fun hh => hh.1 hlen)]
        exact ihMapL m1 m1 m2 stt stu b stt' hS hc
      · rw [if_pos ⟨hlen, hS.2.2.2.2.2⟩]
        have hb := mapLhsLoop_len_ne h R f m1 m1 m2 stt b stt' hlen hc
        subst hb
        exact ⟨stu, rfl, fun hh => nomatch hh⟩
    · -- CompareMapLhsLoop
      intro rem m1 m2 stt stu b stt' hS hc
      cases rem with
      | nil =>
        simp only [CompareMapLhsLoop] at hc ⊢
        by_cases hlen : m1.length = m2.length
        · rw [if_pos hlen] at hc ⊢
          simp only [Res.ok.injEq, Prod.mk.injEq] at hc
          obtain ⟨hb, hst⟩ := hc
          subst hb
          subst hst
          exact ⟨stu, rfl, fun _ => hS⟩
        · rw [if_neg hlen] at hc ⊢
          exact ihMapR m2 m1 stt stu b stt' hS hc
      | cons kv rest =>
        obtain ⟨k, v⟩ := kv
        simp only [CompareMapLhsLoop] at hc ⊢
        rw [← mapLhsToRhs_sync stt stu hS k]
        cases hf : mapFind h m2 (mapLhsToRhs stt k) with
        | none =>
          simp only [hf, Res.ok.injEq, Prod.mk.injEq] at hc ⊢
          obtain ⟨hb, hst⟩ := hc
          subst hb
          subst hst
          exact ⟨_, ⟨rfl, rfl⟩, fun hh => nomatch hh⟩
        | some v2 =>
          simp only [hf] at hc ⊢
          cases hsub : CompareAny h R f v v2 stt with
          | ok p =>
            obtain ⟨bb, st1⟩ := p
            obtain ⟨stu1, hu, hsy⟩ := ihAny v v2 _ _ bb st1 hS hsub
            simp only [hsub] at hc
            simp only [hu]
            cases bb with
            | true => exact ihMapL rest m1 m2 _ _ b stt' (hsy rfl) hc
            | false =>
              simp only [Res.ok.injEq, Prod.mk.injEq] at hc ⊢
              obtain ⟨hb, hst⟩ := hc
              subst hb
              subst hst
              exact ⟨_, ⟨rfl, rfl⟩, fun hh => nomatch hh⟩
          | fatal m => simp [hsub] at hc
          | ub => simp [hsub] at hc
          | noFuel => simp [hsub] at hc
    · -- CompareMapRhsLoop
      intro rem m1 stt stu b stt' hS hc
      cases rem with
      | nil =>
        simp only [CompareMapRhsLoop, Res.ok.injEq, Prod.mk.injEq] at hc ⊢
        obtain ⟨hb, hst⟩ := hc
        subst hb
        subst hst
        exact ⟨stu, ⟨rfl, rfl⟩, fun hh => nomatch hh⟩
      | cons kv rest =>
        obtain ⟨k, v⟩ := kv
        simp only [CompareMapRhsLoop] at hc ⊢
        rw [← mapRhsToLhs_sync stt stu hS k]
        cases hf : mapFind h m1 (mapRhsToLhs stt k) with
        | none =>
          simp only [hf, Res.ok.injEq, Prod.mk.injEq] at hc ⊢
          obtain ⟨hb, hst⟩ := hc
          subst hb
          subst hst
          exact ⟨_, ⟨rfl, rfl⟩, fun hh => nomatch hh⟩
        | some w =>
          simp only [hf] at hc ⊢
          exact ihMapR rest m1 stt stu b stt' hS hc

/-! ### Claim C2: identity and sharing preservation of the node index -/

theorem anyEqual_refl (h : Heap) (v : Val) : anyEqual h v v = true := by
  cases v with
  | obj i => simp [anyEqual]
  | none => rfl
  | vbool b => simp [anyEqual, podPayloadEq]
  | vint i => simp [anyEqual, podPayloadEq]
  | vfloat q => simp [anyEqual, podPayloadEq, qEq]
  | vdtype d => simp [anyEqual, podPayloadEq]
  | vdevice d => simp [anyEqual, podPayloadEq]

theorem lookup_none_iff (h : Heap) (idx : List (Val × Nat)) (v : Val) :
    lookupNodeIndex h idx v = Option.none ↔
      ∀ p ∈ idx, anyEqual h p.1 v = false := by
  induction idx with
  | nil => simp [lookupNodeIndex]
  | cons p rest ih =>
    obtain ⟨a, i⟩ := p
    simp only [lookupNodeIndex]
    by_cases hae : anyEqual h a v = true
    · rw [if_pos hae]
      constructor
      · intro hcontra
        exact absurd hcontra (by simp)
      · intro hall
        have := hall (a, i) (by simp)
        rw [hae] at this
        exact absurd this (by simp)
    · rw [if_neg hae]
      rw [Bool.not_eq_true] at hae
      rw [ih]
      constructor
      · intro hall p hp
        rcases List.mem_cons.mp hp with heq | hm
        · rw [heq]
          exact hae
        · exact hall p hm
      · intro hall p hp
        exact hall p (List.mem_cons_of_mem _ hp)

theorem lookup_append_some (h : Heap) (idx d : List (Val × Nat)) (v : Val)
    (i : Nat) (hl : lookupNodeIndex h idx v = some i) :
    lookupNodeIndex h (idx ++ d) v = some i := by
  induction idx with
  | nil => simp [lookupNodeIndex] at hl
  | cons p rest ih =>
    obtain ⟨a, j⟩ := p
    simp only [lookupNodeIndex] at hl
    simp only [List.cons_append, lookupNodeIndex]
    by_cases hae : anyEqual h a v = true
    · rw [if_pos hae] at hl ⊢
      exact hl
    · rw [if_neg hae] at hl ⊢
      exact ih hl

theorem lookup_append_none (h : Heap) (idx d : List (Val × Nat)) (v : Val)
    (hl : lookupNodeIndex h idx v = Option.none) :
    lookupNodeIndex h (idx ++ d) v = lookupNodeIndex h d v := by
  induction idx with
  | nil => simp
  | cons p rest ih =>
    obtain ⟨a, j⟩ := p
    simp only [lookupNodeIndex] at hl
    simp only [List.cons_append, lookupNodeIndex]
    by_cases hae : anyEqual h a v = true
    · rw [if_pos hae] at hl
      exact absurd hl (by simp)
    · rw [if_neg hae] at hl ⊢
      exact ih hl

theorem lookup_insert_self (h : Heap) (idx : List (Val × Nat)) (v : Val) (n : Nat)
    (hnone : lookupNodeIndex h idx v = Option.none) :
    lookupNodeIndex h (idx ++ [(v, n)]) v = some n := by
  rw [lookup_append_none h idx _ v hnone]
  simp [lookupNodeIndex, anyEqual_refl]

theorem lookup_isSome_ext (h : Heap) (idx d : List (Val × Nat)) (v : Val)
    (hs : (lookupNodeIndex h idx v).isSome = true) :
    (lookupNodeIndex h (idx ++ d) v).isSome = true := by
  obtain ⟨i, hi⟩ := Option.isSome_iff_exists.mp hs
  rw [lookup_append_some h idx d v i hi]
  rfl

theorem closedAt_ext (h : Heap) (R : Registry) (st st' : IndexerState) (w : Val)
    (hext : ∃ d, st'.nodeIndex = st.nodeIndex ++ d)
    (hcl : ClosedAt h R st w) : ClosedAt h R st' w := by
  obtain ⟨d, hd⟩ := hext
  intro c hc
  rcases hcl c hc with hnone | hsome
  · exact Or.inl hnone
  · right
    rw [hd]
    exact lookup_isSome_ext h _ d c hsome

theorem children_anyEqual (h : Heap) (R : Registry) (a b : Val)
    (hae : anyEqual h a b = true) : childrenOf h R a = childrenOf h R b := by
  cases a with
  | obj i =>
    cases b with
    | obj j =>
      simp only [anyEqual] at hae
      by_cases hij : i = j
      · rw [hij]
      · rw [if_neg hij] at hae
        cases h1 : h[i]? with
        | none => simp [h1] at hae
        | some o1 =>
          cases o1 with
          | str s =>
            cases h2 : h[j]? with
            | none => simp [h1, h2] at hae
            | some o2 =>
              cases o2 with
              | str t => simp [childrenOf, h1, h2]
              | arr x => simp [h1, h2] at hae
              | map x => simp [h1, h2] at hae
              | shape x => simp [h1, h2] at hae
              | ndarr x => simp [h1, h2] at hae
              | node x => simp [h1, h2] at hae
          | arr x => simp [h1] at hae
          | map x => simp [h1] at hae
          | shape x => simp [h1] at hae
          | ndarr x => simp [h1] at hae
          | node x => simp [h1] at hae
    | none => simp [anyEqual, podPayloadEq] at hae
    | vbool p => simp [anyEqual, podPayloadEq] at hae
    | vint p => simp [anyEqual, podPayloadEq] at hae
    | vfloat p => simp [anyEqual, podPayloadEq] at hae
    | vdtype p => simp [anyEqual, podPayloadEq] at hae
    | vdevice p => simp [anyEqual, podPayloadEq] at hae
  | none => cases b <;> first | rfl | simp [anyEqual, podPayloadEq] at hae
  | vbool p => cases b <;> first | rfl | simp [anyEqual, podPayloadEq] at hae
  | vint p => cases b <;> first | rfl | simp [anyEqual, podPayloadEq] at hae
  | vfloat p => cases b <;> first | rfl | simp [anyEqual, podPayloadEq] at hae
  | vdtype p => cases b <;> first | rfl | simp [anyEqual, podPayloadEq] at hae
  | vdevice p => cases b <;> first | rfl | simp [anyEqual, podPayloadEq] at hae

theorem idxOk_insert (h : Heap) (st : IndexerState) (v : Val)
    (hok : IdxOk h st) (hnone : lookupNodeIndex h st.nodeIndex v = Option.none) :
    IdxOk h { nodeIndex := st.nodeIndex ++ [(v, st.nodeList.length)],
              nodeList := st.nodeList ++ [v] } := by
  obtain ⟨h1, h2⟩ := hok
  constructor
  · show st.nodeIndex ++ [(v, st.nodeList.length)] =
      (st.nodeList ++ [v]).zip (List.range (st.nodeList ++ [v]).length)
    have hlen : (st.nodeList ++ [v]).length = st.nodeList.length + 1 := by simp
    rw [hlen, List.range_succ, List.zip_append (by simp), h1]
    rfl
  · show List.Pairwise (fun a b => anyEqual h a b = false) (st.nodeList ++ [v])
    rw [List.pairwise_append]
    refine ⟨h2, List.pairwise_singleton _ _, ?_⟩
    intro a ha b hb
    rw [List.mem_singleton] at hb
    subst hb
    have hmap : st.nodeIndex.map Prod.fst = st.nodeList := by
      rw [h1, List.map_fst_zip]
      simp
    have ha2 : a ∈ st.nodeIndex.map Prod.fst := by rw [hmap]; exact ha
    obtain ⟨p, hp, hpa⟩ := List.mem_map.mp ha2
    have := (lookup_none_iff h st.nodeIndex b).mp hnone p hp
    rw [hpa] at this
    exact this

theorem lookup_zip_self (h : Heap) :
    ∀ (L : List Val) (s i : Nat) (x : Val), L[i]? = some x →
      (∀ k y, k < i → L[k]? = some y → anyEqual h y x = false) →
      lookupNodeIndex h (L.zip (List.range' s L.length)) x = some (s + i) := by
  intro L
  induction L with
  | nil => intro s i x hx; simp at hx
  | cons a L ih =>
    intro s i x hx hpw
    cases i with
    | zero =>
      have hax : a = x := by simpa using hx
      subst hax
      show lookupNodeIndex h ((a, s) :: L.zip (List.range' (s + 1) L.length)) a
        = some (s + 0)
      simp only [lookupNodeIndex]
      rw [if_pos (anyEqual_refl h a)]
      rfl
    | succ k =>
      have hx2 : L[k]? = some x := by simpa using hx
      have hhead : anyEqual h a x = false :=
        hpw 0 a (Nat.succ_pos k) (by simp)
      show lookupNodeIndex h ((a, s) :: L.zip (List.range' (s + 1) L.length)) x
        = some (s + (k + 1))
      simp only [lookupNodeIndex]
      rw [if_neg (by rw [hhead]; simp)]
      have := ih (s + 1) k x hx2 (fun k' y hk' hy =>
        hpw (k' + 1) y (Nat.succ_lt_succ hk') (by simpa using hy))
      rw [this]
      have : s + 1 + k = s + (k + 1) := by omega
      rw [this]

theorem lookup_self_of_idxOk (h : Heap) (st : IndexerState) (hok : IdxOk h st)
    (i : Nat) (x : Val) (hx : st.nodeList[i]? = some x) :
    lookupNodeIndex h st.nodeIndex x = some i := by
  obtain ⟨h1, h2⟩ := hok
  have hi : i < st.nodeList.length := lt_length_of_getElem? _ i x hx
  have hpw : ∀ k y, k < i → st.nodeList[k]? = some y → anyEqual h y x = false := by
    intro k y hk hy
    have hkl : k < st.nodeList.length := Nat.lt_trans hk hi
    have hyv : st.nodeList[k] = y := by
      have hg := List.getElem?_eq_getElem hkl
      rw [hy] at hg
      exact (Option.some.inj hg).symm
    have hxv : st.nodeList[i] = x := by
      have hg := List.getElem?_eq_getElem hi
      rw [hx] at hg
      exact (Option.some.inj hg).symm
    have := List.pairwise_iff_getElem.mp h2 k i hkl hi hk
    rw [hyv, hxv] at this
    exact this
  have := lookup_zip_self h st.nodeList 0 i x hx hpw
  rw [h1, List.range_eq_range']
  simpa using this

/-- Combined invariant-preservation, membership, and closure properties of
one `MakeIndex` call and of the child loop. -/
theorem makeIndex_spec (h : Heap) (R : Registry) : ∀ f : Nat,
    (∀ v st st', MakeIndex h R f v st = .ok st' →
      (∃ d, st'.nodeIndex = st.nodeIndex ++ d) ∧
      (IdxOk h st → IdxOk h st') ∧
      (v = Val.none ∨ (lookupNodeIndex h st'.nodeIndex v).isSome = true) ∧
      (∀ w, lookupNodeIndex h st.nodeIndex w = Option.none →
        (lookupNodeIndex h st'.nodeIndex w).isSome = true → ClosedAt h R st' w)) ∧
    (∀ vs st st', MakeIndexList h R f vs st = .ok st' →
      (∃ d, st'.nodeIndex = st.nodeIndex ++ d) ∧
      (IdxOk h st → IdxOk h st') ∧
      (∀ x ∈ vs, x = Val.none ∨ (lookupNodeIndex h st'.nodeIndex x).isSome = true) ∧
      (∀ w, lookupNodeIndex h st.nodeIndex w = Option.none →
        (lookupNodeIndex h st'.nodeIndex w).isSome = true → ClosedAt h R st' w)) := by
  intro f
  induction f with
  | zero =>
    constructor
    · intro v st st' hc
      simp [MakeIndex] at hc
    · intro vs st st' hc
      simp [MakeIndexList] at hc
  | succ f ih =>
    obtain ⟨ihM, ihL⟩ := ih
    constructor
    · -- MakeIndex
      intro v st st' hc
      simp only [MakeIndex] at hc
      by_cases hv : v = Val.none
      · rw [if_pos hv] at hc
        simp only [Res.ok.injEq] at hc
        subst hc
        refine ⟨⟨[], by simp⟩, fun hok => hok, Or.inl hv, ?_⟩
        intro w hw1 hw2
        rw [hw1] at hw2
        exact absurd hw2 (by simp)
      · rw [if_neg hv] at hc
        by_cases hidx : (lookupNodeIndex h st.nodeIndex v).isSome = true
        · rw [if_pos hidx] at hc
          simp only [Res.ok.injEq] at hc
          subst hc
          refine ⟨⟨[], by simp⟩, fun hok => hok, Or.inr hidx, ?_⟩
          intro w hw1 hw2
          rw [hw1] at hw2
          exact absurd hw2 (by simp)
        · rw [if_neg hidx] at hc
          have hnone : lookupNodeIndex h st.nodeIndex v = Option.none := by
            cases hl : lookupNodeIndex h st.nodeIndex v with
            | none => rfl
            | some i => rw [hl] at hidx; exact absurd rfl hidx
          generalize hst1 : (⟨st.nodeIndex ++ [(v, st.nodeList.length)],
              st.nodeList ++ [v]⟩ : IndexerState) = st1 at hc
          have hext1 : st1.nodeIndex = st.nodeIndex ++ [(v, st.nodeList.length)] := by
            rw [← hst1]
          have hvidx1 : (lookupNodeIndex h st1.nodeIndex v).isSome = true := by
            rw [hext1, lookup_insert_self h st.nodeIndex v _ hnone]
            rfl
          have hok1 : IdxOk h st → IdxOk h st1 := fun hok => by
            rw [← hst1]
            exact idxOk_insert h st v hok hnone
          have hnew1 : ∀ w, lookupNodeIndex h st.nodeIndex w = Option.none →
              (lookupNodeIndex h st1.nodeIndex w).isSome = true →
              anyEqual h v w = true := by
            intro w hw1 hw2
            rw [hext1, lookup_append_none h _ _ w hw1] at hw2
            simp only [lookupNodeIndex] at hw2
            by_cases hae : anyEqual h v w = true
            · exact hae
            · rw [if_neg hae] at hw2
              simp [lookupNodeIndex] at hw2
          have leafPack : st' = st1 → childrenOf h R v = [] →
              (∃ d, st'.nodeIndex = st.nodeIndex ++ d) ∧
              (IdxOk h st → IdxOk h st') ∧
              (v = Val.none ∨ (lookupNodeIndex h st'.nodeIndex v).isSome = true) ∧
              (∀ w, lookupNodeIndex h st.nodeIndex w = Option.none →
                (lookupNodeIndex h st'.nodeIndex w).isSome = true →
                ClosedAt h R st' w) := by
            intro hpr hnil
            subst hpr
            refine ⟨⟨[(v, st.nodeList.length)], hext1⟩, hok1, Or.inr hvidx1, ?_⟩
            intro w hw1 hw2 c hcmem
            have hae := hnew1 w hw1 hw2
            rw [← children_anyEqual h R v w hae, hnil] at hcmem
            exact absurd hcmem (List.not_mem_nil c)
          have recPack : ∀ cs, childrenOf h R v = cs →
              MakeIndexList h R f cs st1 = .ok st' →
              (∃ d, st'.nodeIndex = st.nodeIndex ++ d) ∧
              (IdxOk h st → IdxOk h st') ∧
              (v = Val.none ∨ (lookupNodeIndex h st'.nodeIndex v).isSome = true) ∧
              (∀ w, lookupNodeIndex h st.nodeIndex w = Option.none →
                (lookupNodeIndex h st'.nodeIndex w).isSome = true →
                ClosedAt h R st' w) := by
            intro cs hcs hrun
            obtain ⟨hext2, hok2, hmem2, hclo2⟩ := ihL cs st1 st' hrun
            obtain ⟨d2, hd2⟩ := hext2
            refine ⟨⟨[(v, st.nodeList.length)] ++ d2,
              by rw [hd2, hext1, List.append_assoc]⟩,
              fun hok => hok2 (hok1 hok), Or.inr ?_, ?_⟩
            · rw [hd2]
              exact lookup_isSome_ext h _ d2 v hvidx1
            · intro w hw1 hw2
              by_cases hmid : (lookupNodeIndex h st1.nodeIndex w).isSome = true
              · have hae := hnew1 w hw1 hmid
                intro c hcmem
                rw [← children_anyEqual h R v w hae, hcs] at hcmem
                exact hmem2 c hcmem
              · have hmidnone : lookupNodeIndex h st1.nodeIndex w = Option.none := by
                  cases hl : lookupNodeIndex h st1.nodeIndex w with
                  | none => rfl
                  | some i => rw [hl] at hmid; exact absurd rfl hmid
                exact hclo2 w hmidnone hw2
          cases v with
          | obj id =>
            dsimp only at hc
            cases hH : h[id]? with
            | none => simp [hH] at hc
            | some o =>
              cases o with
              | arr xs =>
                simp only [hH] at hc
                exact recPack xs (by simp [childrenOf, hH]) hc
              | map kvs =>
                simp only [hH] at hc
                by_cases hkeys : kvs.all (fun kv => isStrObj h kv.1) = true
                · rw [if_pos hkeys] at hc
                  exact recPack _ (by simp [childrenOf, hH, hkeys]) hc
                · rw [if_neg hkeys] at hc
                  exact recPack _ (by simp [childrenOf, hH, hkeys]) hc
              | node nd =>
                simp only [hH] at hc
                by_cases hrb : (getReprBytes h id).isSome = true
                · rw [if_pos hrb] at hc
                  simp only [Res.ok.injEq] at hc
                  exact leafPack hc.symm (by simp [childrenOf, hH, hrb])
                · rw [if_neg hrb] at hc
                  cases hreg : R[nd.tyIdx]? with
                  | none => simp [hreg] at hc
                  | some tinfo =>
                    simp only [hreg] at hc
                    cases hex : tinfo.extra with
                    | none => simp [hex] at hc
                    | some ex =>
                      simp only [hex] at hc
                      by_cases harr : ex.fields.length = nd.fieldVals.length
                      · rw [if_pos harr] at hc
                        exact recPack _
                          (by simp [childrenOf, hH, hrb, hreg, hex, harr]) hc
                      · rw [if_neg harr] at hc
                        exact absurd hc (by simp)
              | str s =>
                simp only [hH, Res.ok.injEq] at hc
                exact leafPack hc.symm (by simp [childrenOf, hH])
              | shape d =>
                simp only [hH, Res.ok.injEq] at hc
                exact leafPack hc.symm (by simp [childrenOf, hH])
              | ndarr nd => simp [hH] at hc
          | none => exact absurd rfl hv
          | vbool p =>
            dsimp only at hc
            simp only [Res.ok.injEq] at hc
            exact leafPack hc.symm rfl
          | vint p =>
            dsimp only at hc
            simp only [Res.ok.injEq] at hc
            exact leafPack hc.symm rfl
          | vfloat p =>
            dsimp only at hc
            simp only [Res.ok.injEq] at hc
            exact leafPack hc.symm rfl
          | vdtype p =>
            dsimp only at hc
            simp only [Res.ok.injEq] at hc
            exact leafPack hc.symm rfl
          | vdevice p =>
            dsimp only at hc
            simp only [Res.ok.injEq] at hc
            exact leafPack hc.symm rfl
    · -- MakeIndexList
      intro vs st st' hc
      cases vs with
      | nil =>
        simp only [MakeIndexList, Res.ok.injEq] at hc
        subst hc
        refine ⟨⟨[], by simp⟩, fun hok => hok, by simp, ?_⟩
        intro w hw1 hw2
        rw [hw1] at hw2
        exact absurd hw2 (by simp)
      | cons x rest =>
        simp only [MakeIndexList] at hc
        cases hhead : MakeIndex h R f x st with
        | ok st1 =>
          simp only [hhead] at hc
          obtain ⟨hext1, hok1, hself1, hclo1⟩ := ihM x st st1 hhead
          obtain ⟨hext2, hok2, hmem2, hclo2⟩ := ihL rest st1 st' hc
          obtain ⟨d1, hd1⟩ := hext1
          obtain ⟨d2, hd2⟩ := hext2
          refine ⟨⟨d1 ++ d2, by rw [hd2, hd1, List.append_assoc]⟩,
            fun hok => hok2 (hok1 hok), ?_, ?_⟩
          · intro y hy
            rcases List.mem_cons.mp hy with heq | hm
            · subst heq
              rcases hself1 with hyn | hys
              · exact Or.inl hyn
              · right
                rw [hd2]
                exact lookup_isSome_ext h _ d2 y hys
            · exact hmem2 y hm
          · intro w hw1 hw2
            by_cases hmid : (lookupNodeIndex h st1.nodeIndex w).isSome = true
            · exact closedAt_ext h R st1 st' w ⟨d2, hd2⟩ (hclo1 w hw1 hmid)
            · have hmidnone : lookupNodeIndex h st1.nodeIndex w = Option.none := by
                cases hl : lookupNodeIndex h st1.nodeIndex w with
                | none => rfl
                | some i => rw [hl] at hmid; exact absurd rfl hmid
              exact hclo2 w hmidnone hw2
        | fatal m => simp [hhead] at hc
        | ub => simp [hhead] at hc
        | noFuel => simp [hhead] at hc

/-- C2: identity and sharing preservation.  (1) For every successful indexing
run from the fresh indexer: no two entries of the node table are `AnyEqual`
(each reachable object appears at most once), the reference-resolution map
`node_index_` sends the table entry at position `i` exactly to `i` (all
in-graph references use the node's index), and every value reachable along
the serializer's traversal is `None` or present in the table.  (2) On the
concrete root whose two fields hold the same string object, the serialized
graph contains a single string node referenced from both fields, and the
loaded heap again holds one shared string object in both field slots. -/
theorem C2_identity_and_sharing :
    (∀ (h : Heap) (R : Registry) (fuel : Nat) (root : Val) (st : IndexerState),
      MakeIndex h R fuel root initIndexer = .ok st →
      (List.Pairwise (fun a b => anyEqual h a b = false) st.nodeList ∧
       ∀ (i : Nat) (x : Val), st.nodeList[i]? = some x →
         lookupNodeIndex h st.nodeIndex x = some i) ∧
      (∀ v, Reaches h R root v →
        v = Val.none ∨ (lookupNodeIndex h st.nodeIndex v).isSome = true)) ∧
    (SaveJSON heapC2 regC2 20 (Val.obj 0) = .ok graphC2 ∧
     (graphC2.nodes.filter (fun jn => jn.typeKey = keyStr)).length = 1 ∧
     LoadJSON regC2 graphC2 =
       .ok ([Val.none, Val.obj 0, Val.obj 1],
            [.node ⟨0, Option.none, [Val.obj 1, Val.obj 1]⟩, .str "A"],
            Val.obj 0)) := by
  constructor
  · intro h R fuel root st hrun
    obtain ⟨hext, hok, hself, hclo⟩ :=
      (makeIndex_spec h R fuel).1 root initIndexer st hrun
    have hinit : IdxOk h initIndexer := ⟨rfl, List.pairwise_singleton _ _⟩
    have hokst := hok hinit
    refine ⟨⟨hokst.2, fun i x hx => lookup_self_of_idxOk h st hokst i x hx⟩, ?_⟩
    have hIdxClosed : ∀ w, (lookupNodeIndex h st.nodeIndex w).isSome = true →
        ClosedAt h R st w := by
      intro w hw
      cases hl : lookupNodeIndex h initIndexer.nodeIndex w with
      | none => exact hclo w hl hw
      | some i =>
        have hae : anyEqual h Val.none w = true := by
          simp only [initIndexer, lookupNodeIndex] at hl
          by_cases hae : anyEqual h Val.none w = true
          · exact hae
          · rw [if_neg hae] at hl
            simp [lookupNodeIndex] at hl
        intro c hcmem
        rw [← children_anyEqual h R Val.none w hae] at hcmem
        exact absurd hcmem (List.not_mem_nil c)
    intro v hreach
    have hreach2 : Relation.ReflTransGen
        (fun a b => b ∈ childrenOf h R a) root v := hreach
    clear hreach
    induction hreach2 with
    | refl => exact hself
    | tail hab hbc ihP =>
      rcases ihP with hbn | hbs
      · rw [hbn] at hbc
        exact absurd hbc (List.not_mem_nil _)
      · exact hIdxClosed _ hbs _ hbc
  · exact ⟨by decide, by decide, by decide⟩

/-- Witness for C2: the indexing run on the shared-string instance satisfies
both the pairwise-distinctness and the reachability conclusions. -/
theorem C2_identity_and_sharing_witness :
    List.Pairwise (fun a b => anyEqual heapC2 a b = false)
      [Val.none, Val.obj 0, Val.obj 1] ∧
    (lookupNodeIndex heapC2 [(Val.none, 0), (Val.obj 0, 1), (Val.obj 1, 2)]
      (Val.obj 1)).isSome = true := by
  have hrun : MakeIndex heapC2 regC2 20 (Val.obj 0) initIndexer =
      .ok ⟨[(Val.none, 0), (Val.obj 0, 1), (Val.obj 1, 2)],
           [Val.none, Val.obj 0, Val.obj 1]⟩ := by decide
  obtain ⟨⟨hpw, _⟩, hreach⟩ :=
    C2_identity_and_sharing.1 heapC2 regC2 20 (Val.obj 0) _ hrun
  refine ⟨hpw, ?_⟩
  rcases hreach (Val.obj 1) (Relation.ReflTransGen.single (by decide)) with hn | hs
  · exact absurd hn (by decide)
  · exact hs

/-- C10: whenever the traced entry point `GetFirstMismatch` returns normally,
the untraced entry point `Equal` returns normally with the matching boolean:
`None` corresponds exactly to `true`.  Enabling path tracing never changes
the boolean comparison outcome, even though the size-mismatch fast paths of
`CompareArray` and `CompareMap` are taken only when tracing is off. -/
theorem C10_first_mismatch_iff_equal (h : Heap) (R : Registry) (fuel : Nat)
    (lhs rhs : Val) (mfv snc : Bool)
    (res : Option (List AccessStep × List AccessStep))
    (hres : StructuralEqual.GetFirstMismatch h R fuel lhs rhs mfv snc = .ok res) :
    StructuralEqual.Equal h R fuel lhs rhs mfv snc = .ok res.isNone := by
  simp only [StructuralEqual.GetFirstMismatch] at hres
  cases hrun : CompareAny h R fuel lhs rhs (initEqState mfv snc true) with
  | ok p =>
    obtain ⟨b, st'⟩ := p
    have hS : TraceSync (initEqState mfv snc true) (initEqState mfv snc false) :=
      ⟨rfl, rfl, rfl, rfl, rfl, rfl⟩
    obtain ⟨stu', hu, _⟩ := (trace_sim h R fuel).1 lhs rhs _ _ b st' hS hrun
    simp only [StructuralEqual.Equal, hu]
    simp only [hrun] at hres
    cases b with
    | true =>
      simp only [Res.ok.injEq] at hres
      subst hres
      rfl
    | false =>
      simp only [Res.ok.injEq] at hres
      subst hres
      rfl
  | fatal m => simp [hrun] at hres
  | ub => simp [hrun] at hres
  | noFuel => simp [hrun] at hres

/-- Witness for C10: on the `[1, 2, 3]` vs `[1, 4, 3]` instance the traced
run reports a mismatch at index 1 and the untraced run returns `false`. -/
theorem C10_first_mismatch_iff_equal_witness :
    StructuralEqual.GetFirstMismatch heapArr143 [] 10 (Val.obj 0) (Val.obj 1) false false
      = .ok (some ([AccessStep.arrayIndex 1], [AccessStep.arrayIndex 1])) ∧
    StructuralEqual.Equal heapArr143 [] 10 (Val.obj 0) (Val.obj 1) false false
      = .ok false := by
  have h1 : StructuralEqual.GetFirstMismatch heapArr143 [] 10
      (Val.obj 0) (Val.obj 1) false false
      = .ok (some ([AccessStep.arrayIndex 1], [AccessStep.arrayIndex 1])) := by decide
  exact ⟨h1, C10_first_mismatch_iff_equal heapArr143 [] 10 (Val.obj 0) (Val.obj 1)
    false false (some ([AccessStep.arrayIndex 1], [AccessStep.arrayIndex 1])) h1⟩

end TVM
